import Mathlib

/-!
Cluster-based peak integration (Mantid, `IntegratePeaksUsingClusters`)

A shallow embedding of `IntegratePeaksUsingClusters::init` / `::exec`
(`Framework/Crystal/src/IntegratePeaksUsingClusters.cpp`) together with models of the
collaborators the algorithm drives: the hard-threshold background classifier, the
connected-component labeler with its disjoint-set forest, and the cluster integrator.

Conventions.
* A C++ `double` (`signal_t`) is `Option ℚ`: `none` is NaN, `some q` a finite value;
  arithmetic is exact.
* A raised C++ exception or undefined behaviour is a value of `Failure`.
* Collaborators whose code is not part of the embedded file are fields of `Collaborators`;
  the components described in the specification are modelled further down and plugged in
  as `specCollaborators`.

After these come embeddings of parts of three more files: `TableWorkspaceDomainCreator.cpp`
(namespace `Mantid.CurveFitting`: the variances of `addFunctionValuesToWS`,
`joinOverlappingRanges`, `setParameters`, `getXInterval`), `LoadRawHelper.cpp`
(`Mantid.DataHandling`: `getmonitorSpectrumList`) and `ReflSettingsPresenter.cpp`
(`MantidQt.CustomInterfaces`: `getTransmissionOptions`). In these a `double` is a rational
number, and the arithmetic of `addFunctionValuesToWS` is rounded to binary64.
-/

namespace Mantid

/-- A C++ `double` holding a signal: `none` is NaN, `some q` is a finite value. -/
abbrev signal_t := Option ℚ

/-- Coordinates of a point (`V3D` / `VMD`), one entry per dimension. -/
abbrev V3D := List ℚ

/-- The `SpecialCoordinateSystem` enumeration read from the input workspace. -/
inductive SpecialCoordinateSystem
  | None
  | QLab
  | QSample
  | HKL
  deriving DecidableEq, Repr

/-- Normalisation modes of a signal read (`MDNormalization`). -/
inductive MDNormalization
  | NoNormalization
  | VolumeNormalization
  | NumEventsNormalization
  deriving DecidableEq, Repr

/-- C++ exceptions that can be raised during a run. -/
inductive Exception
  | invalid_argument
  | runtime_error
  | other
  deriving DecidableEq, Repr

/-- Ways in which a run can stop: a raised exception, or undefined behaviour (dereferencing a
null `Cluster` pointer or a null factory pointer). -/
inductive Failure
  | raised (e : Exception)
  | undefined_behaviour
  deriving DecidableEq, Repr

/-- One dimension of a histogram workspace: name, extents and number of bins. -/
structure MDHistoDimension where
  name : String
  minimum : ℚ
  maximum : ℚ
  nBins : Nat
  deriving DecidableEq

/-- The dense histogram workspace (`IMDHistoWorkspace`): linear arrays of signal and squared
error, indexed `dim0 + indexMultiplier[0]*dim1 + ...` (`MDHistoWorkspace.h`). The label
image produced by the labeling step is a workspace of the same kind whose signals are label
ids. -/
structure IMDHistoWorkspace where
  coordinateSystem : SpecialCoordinateSystem
  dimensions : List MDHistoDimension
  signals : List signal_t
  errorsSquared : List signal_t
  deriving DecidableEq

/-- Number of bins along each dimension. -/
def IMDHistoWorkspace.shape (ws : IMDHistoWorkspace) : List Nat :=
  ws.dimensions.map MDHistoDimension.nBins

/-- Number of voxels, `getNPoints`. -/
def IMDHistoWorkspace.getNPoints (ws : IMDHistoWorkspace) : Nat :=
  ws.shape.prod

/-- The signal stored at a linear index, `getSignalAt`. -/
def IMDHistoWorkspace.getSignalAt (ws : IMDHistoWorkspace) (index : Nat) : signal_t :=
  (ws.signals[index]?).join

/-- The squared error stored at a linear index. -/
def IMDHistoWorkspace.getErrorAt (ws : IMDHistoWorkspace) (index : Nat) : signal_t :=
  (ws.errorsSquared[index]?).join

/-- Name of the `i`-th dimension, `getDimension(i)->getName()`. -/
def IMDHistoWorkspace.dimensionName (ws : IMDHistoWorkspace) (i : Nat) : String :=
  ((ws.dimensions[i]?).map MDHistoDimension.name).getD ""

/-- A peak: its position in each reciprocal-space convention and the two fields the
algorithm writes. -/
structure Peak where
  qLab : V3D
  qSample : V3D
  hkl : V3D
  intensity : signal_t
  sigmaIntensity : signal_t
  deriving DecidableEq

/-- Setter `IPeak::setIntensity`. -/
def Peak.setIntensity (p : Peak) (v : signal_t) : Peak :=
  { p with intensity := v }

/-- Setter `IPeak::setSigmaIntensity`. -/
def Peak.setSigmaIntensity (p : Peak) (v : signal_t) : Peak :=
  { p with sigmaIntensity := v }

/-- A cluster handle: its label id together with the label image it refers to (membership is
implicit: the voxels of the image carrying the label). -/
structure Cluster where
  label : Nat
  image : List signal_t
  deriving DecidableEq

/-- The `ConnectedComponentMappingTypes::ClusterMap`, a
`std::map<size_t, shared_ptr<Cluster>>`:
keys are unique, a stored pointer may be null (`none`). -/
abbrev ClusterMap := List (Nat × Option Cluster)

/-- Read-only lookup of a key (`std::map::find`). -/
def ClusterMap.find (m : ClusterMap) (key : Nat) : Option (Option Cluster) :=
  (List.find? (fun e => e.1 == key) m).map Prod.snd

/-- Access by `std::map::operator[]`: returns the stored pointer; a missing key is first
inserted with a default-constructed (null) pointer. -/
def ClusterMap.index (m : ClusterMap) (key : Nat) : ClusterMap × Option Cluster :=
  match m.find key with
  | some ptr => (m, ptr)
  | none => (m ++ [(key, none)], none)

/-- The `HardThresholdBackground` strategy built by `exec`. -/
structure HardThresholdBackground where
  threshold : ℚ
  normalization : MDNormalization
  deriving DecidableEq

/-- The three concrete peak-transform factories. -/
inductive PeakTransformFactory
  | PeakTransformQLabFactory
  | PeakTransformQSampleFactory
  | PeakTransformHKLFactory
  deriving DecidableEq, Repr

/-- A created `PeakTransform`: the factory it came from and the two dimension names. -/
structure PeakTransform where
  factory : PeakTransformFactory
  xDim : String
  yDim : String
  deriving DecidableEq

/-- The collaborators `exec` calls whose code lives outside the embedded file. -/
structure Collaborators where
  /-- Method `ConnectedComponentLabeling::getStartLabelId`. -/
  getStartLabelId : Nat
  /-- Method `ConnectedComponentLabeling::executeAndFetchClusters`: label image and cluster
  map. -/
  executeAndFetchClusters : IMDHistoWorkspace → HardThresholdBackground →
    IMDHistoWorkspace × ClusterMap
  /-- Method `PeakTransformFactory::createTransform(xDim, yDim)`. -/
  createTransform : PeakTransformFactory → String → String → Except Exception PeakTransform
  /-- Method `PeakTransform::transformPeak`. -/
  transformPeak : PeakTransform → Peak → Except Exception V3D
  /-- Method `IMDHistoWorkspace::getSignalAtVMD(coords, normalization)`; NaN when out of
  range. -/
  getSignalAtVMD : IMDHistoWorkspace → V3D → MDNormalization → signal_t
  /-- Method `Cluster::integrate(ws)`: the pair read by `get<0>()` and `get<1>()`. -/
  integrate : Cluster → IMDHistoWorkspace → signal_t × signal_t

/-- Declared properties of the algorithm as held by the property manager. -/
structure Properties where
  InputWorkspace : IMDHistoWorkspace
  PeaksWorkspace : List Peak
  RadiusEstimate : ℚ
  Threshold : ℚ

/-! ## Property declaration and validation (`init`) -/

/-- Modelled from the spec: the property validators used by `init` (`BoundedValidator`,
`MandatoryValidator`; their classes are not part of the sources). A bounded validator accepts
a value inside its closed bounds; a mandatory validator accepts any supplied value. -/
inductive IValidator
  | bounded (lower : Option ℚ) (upper : Option ℚ)
  | mandatory
  deriving DecidableEq

/-- Modelled from the spec: `IValidator::isValid`, true when the value is accepted
("threshold ≥ 0, radius estimate ≥ 0"). -/
def IValidator.isValid : IValidator → ℚ → Bool
  | .bounded lower upper, x =>
    (match lower with
      | some l => decide (l ≤ x)
      | none => true) &&
    (match upper with
      | some u => decide (x ≤ u)
      | none => true)
  | .mandatory, _ => true

/-- A declared `PropertyWithValue<double>`: name, default and the validators attached to it
(a `CompositeValidator` holds several). -/
structure PropertyWithValue where
  name : String
  defaultValue : ℚ
  validators : List IValidator
  deriving DecidableEq

/-- The `BoundedValidator<double>` built in `init`: `setLower(0)`, no upper bound. -/
def positiveValidator : IValidator :=
  .bounded (some 0) none

/-- The `CompositeValidator` of `init`: the bounded validator and a
`MandatoryValidator<double>`. -/
def compositeValidator : List IValidator :=
  [positiveValidator, .mandatory]

/-- The double-valued properties declared by `IntegratePeaksUsingClusters::init`. -/
def init : List PropertyWithValue :=
  [ { name := "RadiusEstimate", defaultValue := 0, validators := compositeValidator },
    { name := "Threshold", defaultValue := 0, validators := [positiveValidator] } ]

/-- Modelled from the spec: setting a declared property runs its validators; a rejected value
raises `InvalidArgument` (the property manager is not part of the sources). -/
def setProperty (declared : List PropertyWithValue) (name : String) (value : ℚ) :
    Except Exception ℚ :=
  match declared.find? (fun p => p.name == name) with
  | none => .error .runtime_error
  | some p => if p.validators.all (fun v => v.isValid value) then .ok value
    else .error .invalid_argument

/-! ## The per-peak loop and `exec` -/

/-- What the per-peak loop reads and writes: the peaks workspace and the cluster map
(`operator[]` is not a read-only access). -/
structure LoopState where
  peaks : List Peak
  clusterMap : ClusterMap
  deriving DecidableEq

/-- Body of the per-peak loop of `exec` for index `i`: transform the peak centre, read the
label image there, and when the value is a label integrate the cluster it names. -/
def peakBody (env : Collaborators) (mdWS outHistoWS : IMDHistoWorkspace)
    (peakTransform : PeakTransform) (i : Nat) (st : LoopState) : Except Failure LoopState :=
  match st.peaks[i]? with
  | none => .ok st
  | some peak =>
    match env.transformPeak peakTransform peak with
    | .error e => .error (.raised e)
    | .ok peakCenterInMDFrame =>
      match env.getSignalAtVMD outHistoWS peakCenterInMDFrame .NoNormalization with
      | none => .ok st
      | some signalValue =>
        if (env.getStartLabelId : ℚ) ≤ signalValue then
          let labelIdAtPeak := (Rat.floor signalValue).toNat
          let lookup := st.clusterMap.index labelIdAtPeak
          match lookup.2 with
          | none => .error .undefined_behaviour
          | some cluster =>
            let integratedValues := env.integrate cluster mdWS
            .ok { peaks := st.peaks.set i
                    ((peak.setIntensity integratedValues.1).setSigmaIntensity
                      integratedValues.2),
                  clusterMap := lookup.1 }
        else .ok st

/-- Modelled from the spec: the `PARALLEL_START_INTERUPT_REGION` ...
`PARALLEL_END_INTERUPT_REGION` pair around the loop body (`MantidKernel/MultiThreaded.h` is
not part of the sources). "Any per-peak failure (e.g., transform throws) is caught, logged,
and treated as no match for that peak - it never aborts the whole run": an exception raised by
the body leaves the loop state as it was. Undefined behaviour is not an exception and is not
caught. -/
def PARALLEL_INTERUPT_REGION (body : LoopState → Except Failure LoopState) (st : LoopState) :
    Except Failure LoopState :=
  match body st with
  | .ok st' => .ok st'
  | .error (.raised _) => .ok st
  | .error .undefined_behaviour => .error .undefined_behaviour

/-- Modelled from the spec: `PARALLEL_CHECK_INTERUPT_REGION` after the loop. The specification
gives the loop no failure exit ("PerPeakIntegration → Done") and no cancellation request is
part of this model, so the check passes. -/
def PARALLEL_CHECK_INTERUPT_REGION : Except Failure Unit :=
  .ok ()

/-- The `for (int i = 0; i < peakWS->getNumberPeaks(); ++i)` loop over the given indices. -/
def peakLoop (env : Collaborators) (mdWS outHistoWS : IMDHistoWorkspace)
    (peakTransform : PeakTransform) : List Nat → LoopState → Option Failure × LoopState
  | [], st => (none, st)
  | i :: rest, st =>
    match PARALLEL_INTERUPT_REGION (peakBody env mdWS outHistoWS peakTransform i) st with
    | .error e => (some e, st)
    | .ok st' => peakLoop env mdWS outHistoWS peakTransform rest st'

/-- Selection of the transform factory from the coordinate system; `none` is the null
pointer left when no branch is taken. -/
def selectFactory (mdCoordinates : SpecialCoordinateSystem) : Option PeakTransformFactory :=
  if mdCoordinates = .QLab then some .PeakTransformQLabFactory
  else if mdCoordinates = .QSample then some .PeakTransformQSampleFactory
  else if mdCoordinates = .HKL then some .PeakTransformHKLFactory
  else none

/-- Observable state of a run of `exec`: how it ended, how often the labeling ran, the working
peaks workspace, the label image and cluster map, and the two output properties. -/
structure ExecResult where
  failure : Option Failure
  labelingRuns : Nat
  peakWS : List Peak
  outHistoWS : Option IMDHistoWorkspace
  clusterMap : ClusterMap
  OutputWorkspace : Option (List Peak)
  OutputWorkspaceMD : Option IMDHistoWorkspace
  deriving DecidableEq

set_option linter.unusedVariables false in
/-- The algorithm body `IntegratePeaksUsingClusters::exec`. -/
def exec (env : Collaborators) (props : Properties) : ExecResult :=
  let mdWS := props.InputWorkspace
  let inPeakWS := props.PeaksWorkspace
  let peakWS := inPeakWS
  let mdCoordinates := mdWS.coordinateSystem
  if mdCoordinates = .None then
    { failure := some (.raised .invalid_argument), labelingRuns := 0, peakWS := peakWS,
      outHistoWS := none, clusterMap := [], OutputWorkspace := none,
      OutputWorkspaceMD := none }
  else
    let threshold := props.Threshold
    let radiusEstimate := props.RadiusEstimate
    let backgroundStrategy : HardThresholdBackground :=
      { threshold := threshold, normalization := .NoNormalization }
    let clusters := env.executeAndFetchClusters mdWS backgroundStrategy
    let clusterMap := clusters.2
    let outHistoWS := clusters.1
    let stopped (e : Failure) (st : LoopState) : ExecResult :=
      { failure := some e, labelingRuns := 1, peakWS := st.peaks,
        outHistoWS := some outHistoWS, clusterMap := st.clusterMap,
        OutputWorkspace := none, OutputWorkspaceMD := none }
    match selectFactory mdCoordinates with
    | none => stopped .undefined_behaviour { peaks := peakWS, clusterMap := clusterMap }
    | some peakTransformFactory =>
      let xDim := mdWS.dimensionName 0
      let yDim := mdWS.dimensionName 1
      match env.createTransform peakTransformFactory xDim yDim with
      | .error e => stopped (.raised e) { peaks := peakWS, clusterMap := clusterMap }
      | .ok peakTransform =>
        match peakLoop env mdWS outHistoWS peakTransform (List.range peakWS.length)
            { peaks := peakWS, clusterMap := clusterMap } with
        | (some e, st) => stopped e st
        | (none, st) =>
          match PARALLEL_CHECK_INTERUPT_REGION with
          | .error e => stopped e st
          | .ok _ =>
            { failure := none, labelingRuns := 1, peakWS := st.peaks,
              outHistoWS := some outHistoWS, clusterMap := st.clusterMap,
              OutputWorkspace := some st.peaks, OutputWorkspaceMD := some outHistoWS }

/-- Modelled from the spec: a run of the algorithm (`Algorithm::execute` is not part of the
sources): the supplied values are set on the properties declared by `init`, a rejected value
raises `InvalidArgument` before `exec` is entered, otherwise `exec` runs. -/
def execute (env : Collaborators) (mdWS : IMDHistoWorkspace) (peaks : List Peak)
    (radiusEstimate threshold : ℚ) : ExecResult :=
  let rejected (e : Exception) : ExecResult :=
    { failure := some (.raised e), labelingRuns := 0, peakWS := peaks, outHistoWS := none,
      clusterMap := [], OutputWorkspace := none, OutputWorkspaceMD := none }
  match setProperty init "RadiusEstimate" radiusEstimate with
  | .error e => rejected e
  | .ok r =>
    match setProperty init "Threshold" threshold with
    | .error e => rejected e
    | .ok t =>
      exec env { InputWorkspace := mdWS, PeaksWorkspace := peaks, RadiusEstimate := r,
                 Threshold := t }

/-! ## Components modelled from the specification -/

/-- Modelled from the spec: `HardThresholdBackground::isBackground` (the class is not part of
the sources). "value is background if it is NaN, or strictly below a configured non-negative
threshold"; the normalisation mode only selects how the value was read. -/
def HardThresholdBackground.isBackground (b : HardThresholdBackground)
    (signalValue : signal_t) : Bool :=
  match signalValue with
  | none => true
  | some v => decide (v < b.threshold)

/-- The sentinel label carried by background voxels. -/
def emptyLabelId : Nat := 0

/-- The reserved start value of the label ids, `getStartLabelId` of a default-constructed
labeler. -/
def startLabelId : Nat := 1

/-- Modelled from the spec: `DisjointSetForest` (not part of the sources), "maps a provisional
label to its parent label". A label that was never linked is its own parent. -/
structure DisjointSetForest where
  parent : Nat → Nat

/-- The forest in which every label is its own root. -/
def DisjointSetForest.empty : DisjointSetForest :=
  { parent := fun l => l }

/-- Overwrite the parent of one label. -/
def DisjointSetForest.setParent (f : DisjointSetForest) (l r : Nat) : DisjointSetForest :=
  { parent := fun x => if x = l then r else f.parent x }

/-- Follow parent links from `l` for at most `fuel` steps. -/
def DisjointSetForest.rootWithin (f : DisjointSetForest) : Nat → Nat → Nat
  | 0, l => l
  | fuel + 1, l => if f.parent l = l then l else f.rootWithin fuel (f.parent l)

/-- Root lookup. Parents never exceed their children (the lower id becomes canonical), so
`l` links suffice from label `l`. -/
def DisjointSetForest.root (f : DisjointSetForest) (l : Nat) : Nat :=
  f.rootWithin l l

/-- Path compression: every label on the path from `l` is re-parented to `r`. -/
def DisjointSetForest.compressWithin (f : DisjointSetForest) (r : Nat) :
    Nat → Nat → DisjointSetForest
  | 0, _ => f
  | fuel + 1, l =>
    if f.parent l = l then f
    else (f.setParent l r).compressWithin r fuel (f.parent l)

/-- Modelled from the spec: `find`, the "path-compressed root lookup": returns the root and the
forest with the path from `l` compressed onto it. -/
def DisjointSetForest.find (f : DisjointSetForest) (l : Nat) : Nat × DisjointSetForest :=
  let r := f.root l
  (r, f.compressWithin r l l)

/-- Modelled from the spec: `union`, "merge two label trees, keeping a single canonical
representative - tie-break: lower label id becomes canonical". -/
def DisjointSetForest.union (f : DisjointSetForest) (a b : Nat) : DisjointSetForest :=
  let fa := f.find a
  let fb := fa.2.find b
  if fa.1 < fb.1 then fb.2.setParent fb.1 fa.1
  else if fb.1 < fa.1 then fb.2.setParent fa.1 fb.1
  else fb.2

/-- Parents never exceed their children (the invariant kept by `union`). -/
def DisjointSetForest.Ordered (f : DisjointSetForest) : Prop :=
  ∀ x, f.parent x ≤ x

/-- Two labels belong to the same tree of the forest. -/
def DisjointSetForest.Same (f : DisjointSetForest) (x y : Nat) : Prop :=
  f.root x = f.root y

/-- Modelled from the spec: the causal neighbours of a voxel, "the voxel immediately preceding
it along each axis", as linear indices `dim0 + n0 * (dim1 + n1 * ...)`. -/
def causalNeighbours : List Nat → Nat → List Nat
  | [], _ => []
  | d :: ds, i =>
    (if 0 < i % d then [i - 1] else []) ++
      (causalNeighbours ds (i / d)).map (fun q => i % d + d * q)

/-- Multi-index of a linear index in a grid of the given shape (first dimension fastest). -/
def coordinatesOf : List Nat → Nat → List Nat
  | [], _ => []
  | d :: ds, i => (i % d) :: coordinatesOf ds (i / d)

/-- City-block distance between two multi-indices. -/
def cityBlock : List Nat → List Nat → Nat
  | a :: as, b :: bs => (a - b) + (b - a) + cityBlock as bs
  | _, _ => 0

/-- Two voxels share a face: their multi-indices differ by one step along exactly one axis. -/
def faceAdjacent (shape : List Nat) (i j : Nat) : Prop :=
  cityBlock (coordinatesOf shape i) (coordinatesOf shape j) = 1

/-- State of the forward scan: provisional labels of the voxels visited so far (scan order),
the disjoint-set forest, the next unused label id and the labels a cluster was created for. -/
structure LabelingState where
  labels : List Nat
  forest : DisjointSetForest
  nextLabel : Nat
  created : List Nat

/-- State before the first voxel is visited. -/
def LabelingState.initial : LabelingState :=
  { labels := [], forest := DisjointSetForest.empty, nextLabel := startLabelId, created := [] }

/-- Labels of the causal neighbours of voxel `i` that are already labeled foreground. -/
def neighbourLabels (shape : List Nat) (labels : List Nat) (i : Nat) : List Nat :=
  ((causalNeighbours shape i).map (fun j => labels.getD j emptyLabelId)).filter
    (fun l => l != emptyLabelId)

/-- Modelled from the spec: one step of the forward scan at voxel `i`. A background voxel gets
the sentinel. A foreground voxel with no labeled causal neighbour gets a brand-new label and a
cluster entry; with exactly one distinct neighbouring label it takes that label; with several
it takes the smallest and a union between all of them is recorded. -/
def labelVoxel (shape : List Nat) (isBackground : Nat → Bool) (st : LabelingState) (i : Nat) :
    LabelingState :=
  if isBackground i then { st with labels := st.labels ++ [emptyLabelId] }
  else
    match (neighbourLabels shape st.labels i).dedup with
    | [] =>
      { labels := st.labels ++ [st.nextLabel], forest := st.forest,
        nextLabel := st.nextLabel + 1, created := st.created ++ [st.nextLabel] }
    | [l] => { st with labels := st.labels ++ [l] }
    | l :: ls =>
      let smallest := ls.foldl min l
      { st with labels := st.labels ++ [smallest],
                forest := (l :: ls).foldl (fun f x => f.union smallest x) st.forest }

/-- The forward scan over every voxel in linear-index order. -/
def forwardScan (shape : List Nat) (isBackground : Nat → Bool) (nPoints : Nat) : LabelingState :=
  (List.range nPoints).foldl (labelVoxel shape isBackground) LabelingState.initial

/-- Edges of the foreground graph among the first `n` voxels of the scan: two foreground
voxels one of which is a causal neighbour of the other. -/
def causalEdge (shape : List Nat) (isBackground : Nat → Bool) (n a b : Nat) : Prop :=
  a < n ∧ b < n ∧ isBackground a = false ∧ isBackground b = false ∧
    (a ∈ causalNeighbours shape b ∨ b ∈ causalNeighbours shape a)

/-- What holds of the scan state once the first `n` voxels are visited. -/
structure ScanInvariant (shape : List Nat) (isBackground : Nat → Bool) (n : Nat)
    (st : LabelingState) : Prop where
  length : st.labels.length = n
  ordered : st.forest.Ordered
  fresh : ∀ l, st.nextLabel ≤ l → st.forest.root l = l
  positive : ∀ l, 1 ≤ l → 1 ≤ st.forest.root l
  start : 1 ≤ st.nextLabel
  background : ∀ j, j < n → isBackground j = true → st.labels.getD j 0 = 0
  foreground : ∀ j, j < n → isBackground j = false →
    1 ≤ st.labels.getD j 0 ∧ st.labels.getD j 0 < st.nextLabel
  created : ∀ l, l ∈ st.created ↔ 1 ≤ l ∧ l < st.nextLabel
  connected : ∀ u v, u < n → v < n → isBackground u = false → isBackground v = false →
    (st.forest.Same (st.labels.getD u 0) (st.labels.getD v 0) ↔
      Relation.ReflTransGen (causalEdge shape isBackground n) u v)

/-- Canonicalisation of the label image: every label is replaced by `find` of it, the forest
being compressed along the way. -/
def canonicalize : DisjointSetForest → List Nat → List Nat
  | _, [] => []
  | f, l :: ls => (f.find l).1 :: canonicalize (f.find l).2 ls

/-- Modelled from the spec: `ConnectedComponentLabeling::executeAndFetchClusters` (not part of
the sources): forward scan, canonicalisation of the labels, and the cluster map reduced to the
canonical labels. The label image has the shape of the input and stores label ids as signals. -/
def executeAndFetchClusters (ws : IMDHistoWorkspace) (strategy : HardThresholdBackground) :
    IMDHistoWorkspace × ClusterMap :=
  let st := forwardScan ws.shape (fun i => strategy.isBackground (ws.getSignalAt i))
    ws.getNPoints
  let image : List signal_t :=
    List.map (fun (l : Nat) => some (l : ℚ)) (canonicalize st.forest st.labels)
  let outWS : IMDHistoWorkspace :=
    { ws with signals := image, errorsSquared := image.map (fun _ => some 0) }
  let keys := st.created.filter (fun l => st.forest.root l == l)
  (outWS, keys.map (fun l => (l, some { label := l, image := image })))

/-- A step between two foreground voxels of the grid that share a face. -/
def foregroundStep (ws : IMDHistoWorkspace) (strategy : HardThresholdBackground)
    (a b : Nat) : Prop :=
  a < ws.getNPoints ∧ b < ws.getNPoints ∧
    strategy.isBackground (ws.getSignalAt a) = false ∧
    strategy.isBackground (ws.getSignalAt b) = false ∧
    faceAdjacent ws.shape a b

/-- Contribution of a stored value to an integral: a NaN counts as zero. -/
def contribution (v : signal_t) : ℚ :=
  v.getD 0

/-- Linear indices of the voxels carrying the label of cluster `c`. -/
def Cluster.indexes (c : Cluster) (nPoints : Nat) : List Nat :=
  (List.range nPoints).filter (fun i => (c.image[i]?).join == some (c.label : ℚ))

/-- Modelled from the spec: `Cluster::integrate` (not part of the sources): scans the grid,
"summing signal for voxels whose label equals this cluster's canonical label, and separately
summing errorSquared for the same voxels", and returns the total and the square root of the
summed squared error. `sqrt` stands for `std::sqrt` on non-negative finite values. -/
def Cluster.integrate (sqrt : ℚ → ℚ) (c : Cluster) (ws : IMDHistoWorkspace) :
    signal_t × signal_t :=
  let owned := c.indexes ws.getNPoints
  let sigInt := owned.foldl (fun acc i => acc + contribution (ws.getSignalAt i)) 0
  let errorIntSQ := owned.foldl (fun acc i => acc + contribution (ws.getErrorAt i)) 0
  (some sigInt, if errorIntSQ < 0 then none else some (sqrt errorIntSQ))

/-- Modelled from the spec: `linearIndexAt(coordinateVector)`, the contained-bin lookup, which
"may signal out of range". -/
def linearIndexAt : List MDHistoDimension → V3D → Option Nat
  | [], _ => some 0
  | _ :: _, [] => none
  | d :: ds, x :: xs =>
    if x < d.minimum ∨ d.maximum ≤ x ∨ d.nBins = 0 then none
    else
      let bin := (Rat.floor ((x - d.minimum) * d.nBins / (d.maximum - d.minimum))).toNat
      if d.nBins ≤ bin then none
      else (linearIndexAt ds xs).map (fun rest => bin + d.nBins * rest)

/-- Modelled from the spec: `getSignalAtVMD`, the value of the bin containing the point, NaN
when the point is out of range. -/
def getSignalAtVMD (ws : IMDHistoWorkspace) (coords : V3D) (_normalization : MDNormalization) :
    signal_t :=
  match linearIndexAt ws.dimensions coords with
  | none => none
  | some index => ws.getSignalAt index

/-- Modelled from the spec: `transformPeak`, "a fixed mapping from the peak's stored position
fields to an ordered coordinate vector", one per convention. -/
def transformPeak (t : PeakTransform) (peak : Peak) : Except Exception V3D :=
  match t.factory with
  | .PeakTransformQLabFactory => .ok peak.qLab
  | .PeakTransformQSampleFactory => .ok peak.qSample
  | .PeakTransformHKLFactory => .ok peak.hkl

/-- The collaborators as described by the specification. -/
def specCollaborators (sqrt : ℚ → ℚ) : Collaborators :=
  { getStartLabelId := startLabelId,
    executeAndFetchClusters := executeAndFetchClusters,
    createTransform := fun factory xDim yDim =>
      .ok { factory := factory, xDim := xDim, yDim := yDim },
    transformPeak := transformPeak,
    getSignalAtVMD := getSignalAtVMD,
    integrate := Cluster.integrate sqrt }

/-! ## Vocabulary for the statements about `exec` -/

/-- The background strategy `exec` builds from the `Threshold` property. -/
def backgroundStrategy (props : Properties) : HardThresholdBackground :=
  { threshold := props.Threshold, normalization := .NoNormalization }

/-- The label image returned by the labeling step of a run. -/
def labelImage (env : Collaborators) (props : Properties) : IMDHistoWorkspace :=
  (env.executeAndFetchClusters props.InputWorkspace (backgroundStrategy props)).1

/-- The cluster map returned by the labeling step of a run. -/
def clusterMapOf (env : Collaborators) (props : Properties) : ClusterMap :=
  (env.executeAndFetchClusters props.InputWorkspace (backgroundStrategy props)).2

/-- The transform `exec` creates: the factory selected for the coordinate system, applied to
the names of the first two dimensions. `none` when the factory pointer is null. -/
def createdTransform (env : Collaborators) (props : Properties) :
    Option (Except Exception PeakTransform) :=
  (selectFactory props.InputWorkspace.coordinateSystem).map (fun factory =>
    env.createTransform factory (props.InputWorkspace.dimensionName 0)
      (props.InputWorkspace.dimensionName 1))

/-- Every label read at a peak centre names a cluster stored in the map: no peak makes the
loop body dereference a null pointer. -/
def ClustersResolve (env : Collaborators) (outHistoWS : IMDHistoWorkspace)
    (clusterMap : ClusterMap) (t : PeakTransform) (peaks : List Peak) : Prop :=
  ∀ peak ∈ peaks, ∀ c v, env.transformPeak t peak = .ok c →
    env.getSignalAtVMD outHistoWS c .NoNormalization = some v →
    (env.getStartLabelId : ℚ) ≤ v →
    ∃ cluster, clusterMap.find (Rat.floor v).toNat = some (some cluster)

/-- What one pass of the guarded loop body makes of a peak when every label resolves. -/
def integratedPeak (env : Collaborators) (mdWS outHistoWS : IMDHistoWorkspace)
    (clusterMap : ClusterMap) (t : PeakTransform) (peak : Peak) : Peak :=
  match env.transformPeak t peak with
  | .error _ => peak
  | .ok c =>
    match env.getSignalAtVMD outHistoWS c .NoNormalization with
    | none => peak
    | some v =>
      if (env.getStartLabelId : ℚ) ≤ v then
        match clusterMap.find (Rat.floor v).toNat with
        | some (some cluster) =>
          (peak.setIntensity (env.integrate cluster mdWS).1).setSigmaIntensity
            (env.integrate cluster mdWS).2
        | _ => peak
      else peak

/-! ## Concrete inputs -/

/-- Threshold 1 on raw signals. -/
def thresholdOne : HardThresholdBackground :=
  { threshold := 1, normalization := .NoNormalization }

/-- A dimension `[0, n)` cut into `n` unit bins. -/
def unitDimension (name : String) (n : Nat) : MDHistoDimension :=
  { name := name, minimum := 0, maximum := n, nBins := n }

/-- Signal of the 10x10 example grid: value 5 on the 3x3 block centred at (5,5), 0 elsewhere. -/
def blobSignal (i : Nat) : signal_t :=
  if 4 ≤ i % 10 ∧ i % 10 ≤ 6 ∧ 4 ≤ i / 10 ∧ i / 10 ≤ 6 then some 5 else some 0

/-- The 10x10 example grid in HKL coordinates, squared error 1 in every voxel. -/
def blobWS : IMDHistoWorkspace :=
  { coordinateSystem := .HKL,
    dimensions := [unitDimension "H" 10, unitDimension "K" 10],
    signals := (List.range 100).map blobSignal,
    errorsSquared := (List.range 100).map (fun _ => some 1) }

/-- The same grid with no coordinate system declared. -/
def undeclaredWS : IMDHistoWorkspace :=
  { blobWS with coordinateSystem := .None }

/-- A fresh peak at the given HKL position. -/
def peakAt (hkl : V3D) : Peak :=
  { qLab := [0, 0, 0], qSample := [0, 0, 0], hkl := hkl, intensity := some 0,
    sigmaIntensity := some 0 }

/-- Properties of the example run: the blob grid, the given peaks, threshold 1. -/
def blobProps (peaks : List Peak) (radiusEstimate : ℚ) : Properties :=
  { InputWorkspace := blobWS, PeaksWorkspace := peaks, RadiusEstimate := radiusEstimate,
    Threshold := 1 }

/-- The transform created in the example run. -/
def blobTransform : PeakTransform :=
  { factory := .PeakTransformHKLFactory, xDim := "H", yDim := "K" }

/-- Labels of the 10x10 example grid: label 1 on the 3x3 block, the sentinel elsewhere. -/
def blobLabel (i : Nat) : signal_t :=
  if 4 ≤ i % 10 ∧ i % 10 ≤ 6 ∧ 4 ≤ i / 10 ∧ i / 10 ≤ 6 then some 1 else some 0

/-- The label image of the example grid. -/
def blobImage : IMDHistoWorkspace :=
  { blobWS with
    signals := (List.range 100).map blobLabel,
    errorsSquared := (List.range 100).map (fun _ => some 0) }

/-- The cluster of the 3x3 block: label 1 on the label image. -/
def blobCluster : Cluster :=
  { label := 1, image := blobImage.signals }

/-- The cluster map of the example grid: the one cluster of the block. -/
def blobClusterMap : ClusterMap :=
  [(1, some blobCluster)]

/-- A 5x5 grid whose foreground is a plus: the middle row and the middle column. -/
def plusWS : IMDHistoWorkspace :=
  { coordinateSystem := .HKL,
    dimensions := [unitDimension "H" 5, unitDimension "K" 5],
    signals := [0, 0, 1, 0, 0, 0, 0, 1, 0, 0, 1, 1, 1, 1, 1, 0, 0, 1, 0, 0, 0, 0, 1, 0, 0].map
      (fun (q : ℚ) => some q),
    errorsSquared := List.replicate 25 (some 0) }

/-- A 2x2 grid whose foreground is the two voxels of one diagonal. -/
def diagonalWS : IMDHistoWorkspace :=
  { coordinateSystem := .HKL,
    dimensions := [unitDimension "H" 2, unitDimension "K" 2],
    signals := [some 1, some 0, some 0, some 1],
    errorsSquared := List.replicate 4 (some 0) }

/-- A row of three voxels: a NaN between two foreground voxels. -/
def gapWS : IMDHistoWorkspace :=
  { coordinateSystem := .HKL,
    dimensions := [unitDimension "H" 3],
    signals := [some 5, none, some 5],
    errorsSquared := List.replicate 3 (some 0) }

/-- The collaborators of the specification, except that transforming a peak whose HKL has
fewer than three entries raises an exception. -/
def strictCollaborators : Collaborators :=
  { specCollaborators Rat.sqrt with
    transformPeak := fun t peak =>
      if peak.hkl.length < 3 then .error .other else transformPeak t peak }


namespace CurveFitting

/-! ## `TableWorkspaceDomainCreator.cpp`

The `double` values of this file are read as rational numbers. Where the code compares and
copies them (`joinOverlappingRanges`, `getXInterval`) nothing more is needed. Where it computes
with them (the variances of `addFunctionValuesToWS`) every operation is rounded to binary64,
and a result that is not finite is `none`. -/

/-- The ways a call of this file ends other than by returning: the two exceptions it throws,
with their messages, and undefined behaviour. -/
inductive Fault where
  | invalid_argument (what : String)
  | runtime_error (what : String)
  | undefined_behaviour
  deriving DecidableEq, Repr

/-! ### `SimpleJacobian` and the variances of `addFunctionValuesToWS` -/

/-- The class `SimpleJacobian`: `m_data` holds `nData * nParams` finite `double` values, row
after row. -/
structure SimpleJacobian where
  m_nParams : Nat
  m_data : List ℚ

/-- The constructor `SimpleJacobian(nData, nParams)`: a zero-filled store. -/
def SimpleJacobian.create (nData nParams : Nat) : SimpleJacobian :=
  { m_nParams := nParams, m_data := List.replicate (nData * nParams) 0 }

/-- The getter: `m_data[iY * m_nParams + iP]`. The loop of `addFunctionValuesToWS` reads
within the store (`index_in_store`); outside it the model reads 0. -/
def SimpleJacobian.get (J : SimpleJacobian) (iY iP : Nat) : ℚ :=
  J.m_data.getD (iY * J.m_nParams + iP) 0

/-- The setter: `m_data[iY * m_nParams + iP] = value`. -/
def SimpleJacobian.set (J : SimpleJacobian) (iY iP : Nat) (value : ℚ) : SimpleJacobian :=
  { J with m_data := J.m_data.set (iY * J.m_nParams + iP) value }

/-! #### binary64 arithmetic -/

/-- The enumeration `RangePoint::Kind`. -/
inductive RangePoint.Kind where
  | Openning
  | Closing
  deriving DecidableEq, Repr

/-- The struct `RangePoint`. -/
structure RangePoint where
  kind : RangePoint.Kind
  value : ℚ
  deriving DecidableEq

/-- The comparison `RangePoint::operator<`. -/
def RangePoint.lt (self point : RangePoint) : Bool :=
  if self.value = point.value then
    self.kind == RangePoint.Kind.Openning
  else
    decide (self.value < point.value)

/-- The wrapping loop of `joinOverlappingRanges`: the entries are read two at a time. With an
odd number of entries the last step reads past the end of the vector: `none`. -/
def wrapPoints : List ℚ → Option (List RangePoint)
  | [] => some []
  | [_] => none
  | a :: b :: rest =>
    (wrapPoints rest).map
      (fun points => ⟨RangePoint.Kind.Openning, a⟩ :: ⟨RangePoint.Kind.Closing, b⟩ :: points)

/-- The order of `operator<` between two points: `a` may stand before `b` when `a < b` or not
`b < a`, that is by ascending value, an `Openning` point before a `Closing` point of the same
value. -/
def RangePoint.notAfter (a b : RangePoint) : Bool :=
  a.lt b || !b.lt a

/-- The call `std::sort(points.begin(), points.end())` by its contract. `std::sort` requires
`operator<` to be a strict weak ordering of the elements; when two elements of the range are
each less than the other the requirement fails and the behaviour is undefined: `none`.
Otherwise the result is the range in the order of `operator<` (points with the same place in
that order are equal, so the result does not depend on the sorting algorithm). -/
def sort (points : List RangePoint) : Option (List RangePoint) :=
  if points.Pairwise (fun a b => ¬(a.lt b = true ∧ b.lt a = true)) then
    some (points.insertionSort (fun a b => a.notAfter b = true))
  else
    none

/-- The body of the scanning loop of `joinOverlappingRanges` on the pair of `level` and
`exclude`. `--level` wraps at 0 as `size_t` does. `++level` is taken without a wrap: counting
up from 0 it cannot wrap, the vector holding fewer than `2 ^ 64` points, so the model leaves
the code only after a wrapped `--level`, which needs a `Closing` point ahead of its
`Openning` point and so a pair that is not ordered. -/
def joinStep (state : Nat × List ℚ) (point : RangePoint) : Nat × List ℚ :=
  match point.kind with
  | RangePoint.Kind.Openning =>
    (state.1 + 1, if state.1 = 0 then state.2 ++ [point.value] else state.2)
  | RangePoint.Kind.Closing =>
    (if state.1 = 0 then 2 ^ 64 - 1 else state.1 - 1,
      if state.1 = 1 then state.2 ++ [point.value] else state.2)

/-- The function `joinOverlappingRanges`: the new content of `exclude`, or `none` for
undefined behaviour. -/
def joinOverlappingRanges (exclude : List ℚ) : Option (List ℚ) :=
  if exclude.isEmpty then
    some exclude
  else
    match wrapPoints exclude with
    | none => none
    | some points =>
      match sort points with
      | none => none
      | some points => some (points.foldl joinStep (0, [])).2

/-- The function `greaterIsLess`. -/
def greaterIsLess (x1 x2 : ℚ) : Bool :=
  decide (x1 > x2)

/-- The requirement of `ArrayOrderedPairsValidator`, which the `Exclude` property carries: an
even number of entries, each pair with start not above end. -/
def OrderedPairs : List ℚ → Prop
  | [] => True
  | [_] => False
  | a :: b :: rest => a ≤ b ∧ OrderedPairs rest

/-- The start values of the ranges of a vector of pairs. -/
def startsOf : List ℚ → List ℚ
  | [] => []
  | [_] => []
  | a :: _ :: rest => a :: startsOf rest

/-- A value lies in one of the closed ranges of a vector of pairs. -/
def inRanges : List ℚ → ℚ → Prop
  | [], _ => False
  | [_], _ => False
  | a :: b :: rest, x => (a ≤ x ∧ x ≤ b) ∨ inRanges rest x

/-- A vector of joined ranges: an even number of entries, each range with start not above
end, and the end of each range strictly below the start of the next. -/
def JoinedRanges : List ℚ → Prop
  | [] => True
  | [_] => False
  | a :: b :: rest => a ≤ b ∧ (∀ next ∈ rest.head?, b < next) ∧ JoinedRanges rest

/-- The entries that the scanning loop of `joinOverlappingRanges` pushes when it starts at a
given level. -/
def scanFrom (level : Nat) (points : List RangePoint) : List ℚ :=
  (points.foldl joinStep (level, [])).2

/-- A value lies at or below the end of the range that is open, or in one of the closed
ranges after it: the reading of a vector that starts with the end of a range. -/
def inOpenRanges : List ℚ → ℚ → Prop
  | [], _ => False
  | e :: rest, x => x ≤ e ∨ inRanges rest x

/-- The step of a point in the count of open ranges: an `Openning` point adds one, a
`Closing` point takes one away. -/
def RangePoint.step (p : RangePoint) : Int :=
  match p.kind with
  | RangePoint.Kind.Openning => 1
  | RangePoint.Kind.Closing => -1

/-- The `Openning` points less the `Closing` points. -/
def opened (points : List RangePoint) : Int :=
  (points.map RangePoint.step).sum

/-- The `Openning` points less the `Closing` points among the points of value at most `x`. -/
def balance (points : List RangePoint) (x : ℚ) : Int :=
  (points.map (fun p => if p.value ≤ x then p.step else 0)).sum

/-- The number of ranges that hold `x`: the `Openning` points of value at most `x` less the
`Closing` points of value below `x`. -/
def depth (points : List RangePoint) (x : ℚ) : Int :=
  (points.map (fun p =>
    match p.kind with
    | RangePoint.Kind.Openning => if p.value ≤ x then (1 : Int) else 0
    | RangePoint.Kind.Closing => if p.value < x then (-1 : Int) else 0)).sum

/-- The level never falls below the `Closing` points still to come, and the points to come
bring it back to 0. -/
def LevelInvariant (level : Nat) (points : List RangePoint) : Prop :=
  (∀ x : ℚ, 0 ≤ (level : Int) + balance points x) ∧ (level : Int) + opened points = 0

/-- Nine ranges that all start at 0. -/
def nineRanges : List ℚ :=
  [0, 1, 0, 0, 0, 0, 0, 0, 0, 1, 0, 0, 0, 0, 0, 0, 0, 0]

/-- Nine overlapping ranges, eight of them starting at 0. -/
def nineOverlappingRanges : List ℚ :=
  [1, 2, 0, 1, 0, 0, 0, 1, 0, 1, 0, 1, 0, 0, 0, 0, 0, 2]

end CurveFitting


namespace CurveFitting

/-! ### The creator: `setParameters` and `getXInterval` -/

/-- A table workspace as the list of its columns, each a name with its `double` data. -/
structure ITableWorkspace where
  columns : List (String × List ℚ)

/-- The method `getColumnNames`. -/
def ITableWorkspace.getColumnNames (ws : ITableWorkspace) : List String :=
  ws.columns.map Prod.fst

/-- The data of the column at an index, `none` when there is no such column. -/
def ITableWorkspace.getColumn (ws : ITableWorkspace) (index : Nat) : Option (List ℚ) :=
  ws.columns[index]?.map Prod.snd

/-- The enumeration `IDomainCreator::DomainType`. -/
inductive DomainType where
  | Simple
  | Sequential
  | Parallel
  deriving DecidableEq

/-- The property values that `setParameters` reads from the property manager. `workspace` is
`none` when the workspace property does not hold a table workspace (the dynamic cast gives a
null pointer). -/
structure IPropertyManager where
  workspace : Option ITableWorkspace
  maxSize : Int
  exclude : List ℚ
  startX : ℚ
  endX : ℚ
  xColumnName : String
  yColumnName : String
  errorColumnName : String

/-- The members of `TableWorkspaceDomainCreator` used by `setParameters` and `getXInterval`.
`m_manager` and `m_tableWorkspace` are `none` for null pointers. -/
structure TableWorkspaceDomainCreator where
  m_manager : Option IPropertyManager
  m_domainType : DomainType
  m_tableWorkspace : Option ITableWorkspace
  m_startX : ℚ
  m_endX : ℚ
  m_maxSize : Nat
  m_exclude : List ℚ
  m_xColumnIndex : Nat
  m_yColumnIndex : Nat
  m_errorColumnIndex : Nat

/-- What the file takes from headers outside these sources: the constant `EMPTY_DBL()` and
`ITableWorkspace::addColumn`, which gives the table with the column added or `none` for a
null column pointer. -/
structure Environment where
  EMPTY_DBL : ℚ
  addColumn : ITableWorkspace → String → String → Option ITableWorkspace

/-- The method `setAndValidateWorkspace`. -/
def setAndValidateWorkspace (env : Environment) (c : TableWorkspaceDomainCreator)
    (ws : Option ITableWorkspace) : Except Fault TableWorkspaceDomainCreator :=
  match ws with
  | none => .error (.invalid_argument "InputWorkspace must be a TableWorkspace.")
  | some tableWorkspace =>
    let noOfColumns := tableWorkspace.getColumnNames.length
    if noOfColumns = 2 then
      match env.addColumn tableWorkspace "double" "Error" with
      | none => .error (.invalid_argument "TableWorkspace must have 3 columns.")
      | some added => .ok { c with m_tableWorkspace := some added }
    else if noOfColumns < 3 then
      .error (.invalid_argument "TableWorkspace must have at least 3 columns.")
    else
      .ok { c with m_tableWorkspace := some tableWorkspace }

/-- The loop of `setParameters` over the column names. -/
def setColumnIndices (columnNames : List String) (xColName yColName eColName : String)
    (c : TableWorkspaceDomainCreator) : TableWorkspaceDomainCreator :=
  columnNames.enum.foldl
    (fun c entry =>
      if entry.2 = xColName then { c with m_xColumnIndex := entry.1 }
      else if entry.2 = yColName then { c with m_yColumnIndex := entry.1 }
      else if entry.2 = eColName then { c with m_errorColumnIndex := entry.1 }
      else c)
    c

/-- The method `setParameters`. -/
def setParameters (env : Environment) (c : TableWorkspaceDomainCreator) :
    Except Fault TableWorkspaceDomainCreator :=
  match c.m_manager with
  | none => .ok c
  | some manager =>
    match setAndValidateWorkspace env c manager.workspace with
    | .error e => .error e
    | .ok c =>
      let c :=
        if c.m_domainType ≠ DomainType.Simple then
          { c with m_maxSize := (manager.maxSize % 2 ^ 64).toNat }
        else c
      let c := { c with m_exclude := manager.exclude }
      if c.m_exclude.length % 2 ≠ 0 then
        .error (.runtime_error
          ("Exclude property has an odd number of entries. " ++
            "It has to be even as each pair specifies a " ++
            "start and an end of an interval to exclude."))
      else
        let c := { c with m_startX := manager.startX, m_endX := manager.endX }
        match joinOverlappingRanges c.m_exclude with
        | none => .error .undefined_behaviour
        | some joined =>
          let c := { c with m_exclude := joined }
          match c.m_tableWorkspace with
          | none => .error .undefined_behaviour
          | some table =>
            .ok (setColumnIndices table.getColumnNames manager.xColumnName
              manager.yColumnName manager.errorColumnName c)

/-- The call `std::lower_bound(first, last, value, comp)` on a range partitioned with respect
to `comp(element, value)`, as the function requires: the index of the first element for which
`comp(element, value)` is false. -/
def lower_bound (data : List ℚ) (value : ℚ) (comp : ℚ → ℚ → Bool) : Nat :=
  (data.takeWhile (fun element => comp element value)).length

/-- The call `std::upper_bound(from, last, value, comp)` on a range partitioned with respect
to `!comp(value, element)`: the index of the first element at or after `first` for which
`comp(value, element)` is true. -/
def upper_bound (data : List ℚ) (first : Nat) (value : ℚ) (comp : ℚ → ℚ → Bool) : Nat :=
  first + ((data.drop first).takeWhile (fun element => !comp value element)).length

/-- The comparison of `double` values that `std::lower_bound` and `std::upper_bound` use when
none is given. -/
def less (x1 x2 : ℚ) : Bool :=
  decide (x1 < x2)

/-- The method `getXInterval`: the pair of row indices and the creator as the call leaves
it. The X data are read before `setParameters` runs, as in the source. A null
`m_tableWorkspace`, and an X column index without a column (whose handling lies in
`ITableWorkspace::getColumn`, outside these sources), are reported as undefined behaviour. -/
def getXInterval (env : Environment) (c : TableWorkspaceDomainCreator) :
    Except Fault ((Nat × Nat) × TableWorkspaceDomainCreator) :=
  match c.m_tableWorkspace with
  | none => .error .undefined_behaviour
  | some table =>
    match table.getColumn c.m_xColumnIndex with
    | none => .error .undefined_behaviour
    | some XData =>
      if XData.length = 0 then
        .error (.runtime_error "Workspace contains no data.")
      else
        match setParameters env c with
        | .error e => .error e
        | .ok c =>
          let front := XData.headD 0
          let back := XData.getLastD 0
          let isXAscending := decide (front < back)
          let found : Except Fault ((Nat × Nat) × TableWorkspaceDomainCreator) :=
            if c.m_startX = env.EMPTY_DBL ∧ c.m_endX = env.EMPTY_DBL then
              .ok ((0, XData.length), { c with m_startX := front, m_endX := back })
            else if c.m_startX = env.EMPTY_DBL ∨ c.m_endX = env.EMPTY_DBL then
              .error (.invalid_argument
                "Both StartX and EndX must be given to set fitting interval.")
            else if isXAscending then
              let c :=
                if c.m_startX > c.m_endX then
                  { c with m_startX := c.m_endX, m_endX := c.m_startX }
                else c
              let first := lower_bound XData c.m_startX less
              let last := upper_bound XData first c.m_endX less
              .ok ((first, last), c)
            else
              let c :=
                if c.m_startX < c.m_endX then
                  { c with m_startX := c.m_endX, m_endX := c.m_startX }
                else c
              let first := lower_bound XData c.m_startX greaterIsLess
              let last := upper_bound XData first c.m_endX greaterIsLess
              .ok ((first, last), c)
          match found with
          | .error e => .error e
          | .ok ((first, last), c) =>
            if last - first = 0 then
              .error (.invalid_argument
                ("StartX and EndX values do not capture a range " ++
                  "within the workspace interval."))
            else
              .ok ((first, last), c)

/-- The method `getDomainSize`. -/
def getDomainSize (env : Environment) (c : TableWorkspaceDomainCreator) :
    Except Fault (Nat × TableWorkspaceDomainCreator) :=
  match setParameters env c with
  | .error e => .error e
  | .ok c =>
    match getXInterval env c with
    | .error e => .error e
    | .ok ((startIndex, endIndex), c) => .ok (endIndex - startIndex, c)

/-- An environment with `EMPTY_DBL()` far above the data and a table that takes the error
column. -/
def exampleEnvironment : Environment :=
  { EMPTY_DBL := 10 ^ 300,
    addColumn := fun table _ name =>
      some { columns := table.columns ++ [(name, (table.columns.headD ("", [])).2.map
        (fun _ => 0))] } }

/-- A table with the ascending X values 1, 2, 4, 5. -/
def exampleTable : ITableWorkspace :=
  { columns := [("X", [1, 2, 4, 5]), ("Y", [10, 20, 40, 50]), ("Error", [1, 1, 1, 1])] }

/-- A table with the descending X values 5, 4, 2, 1. -/
def descendingTable : ITableWorkspace :=
  { columns := [("X", [5, 4, 2, 1]), ("Y", [50, 40, 20, 10]), ("Error", [1, 1, 1, 1])] }

/-- A creator without a property manager, holding a table and a range. -/
def creatorOn (table : ITableWorkspace) (startX endX : ℚ) : TableWorkspaceDomainCreator :=
  { m_manager := none, m_domainType := DomainType.Simple, m_tableWorkspace := some table,
    m_startX := startX, m_endX := endX, m_maxSize := 10, m_exclude := [],
    m_xColumnIndex := 0, m_yColumnIndex := 1, m_errorColumnIndex := 2 }

/-- A property manager holding the example table and an `Exclude` value. -/
def managerWith (exclude : List ℚ) (startX endX : ℚ) : IPropertyManager :=
  { workspace := some exampleTable, maxSize := 1, exclude := exclude, startX := startX,
    endX := endX, xColumnName := "X", yColumnName := "Y", errorColumnName := "Error" }

/-- A creator as the constructor with a property manager leaves it. -/
def managedCreator (env : Environment) (manager : IPropertyManager) :
    TableWorkspaceDomainCreator :=
  { m_manager := some manager, m_domainType := DomainType.Simple, m_tableWorkspace := none,
    m_startX := env.EMPTY_DBL, m_endX := env.EMPTY_DBL, m_maxSize := 0, m_exclude := [],
    m_xColumnIndex := 0, m_yColumnIndex := 1, m_errorColumnIndex := 2 }

end CurveFitting


namespace DataHandling

/-! ## `LoadRawHelper::getmonitorSpectrumList` -/

/-- The scan of `std::unique`: an element equal to the last kept one is dropped. -/
def uniqueAfter (kept : Int) : List Int → List Int
  | [] => []
  | b :: rest => if kept = b then uniqueAfter kept rest else b :: uniqueAfter b rest

/-- The range `[begin, uEnd)` left by `std::unique`: consecutive duplicates removed, the first
of each run kept. -/
def unique : List Int → List Int
  | [] => []
  | a :: rest => a :: uniqueAfter a rest

/-- The method `LoadRawHelper::getmonitorSpectrumList`: the new content of `monitorSpecList`.
`getSpectra` stands for `SpectraDetectorMap::getSpectra` of the workspace's spectra map. -/
def getmonitorSpectrumList (m_monitordetectorList : List Int)
    (getSpectra : List Int → List Int) (monitorSpecList : List Int) : List Int :=
  if !m_monitordetectorList.isEmpty then
    let specList := getSpectra m_monitordetectorList
    let sorted := specList.insertionSort (· ≤ ·)
    let newVec := unique sorted
    let newVec := newVec.erase 0
    newVec
  else
    monitorSpecList

end DataHandling

end Mantid

namespace MantidQt

namespace CustomInterfaces

/-! ## `ReflSettingsPresenter::getTransmissionOptions` -/

/-- The `OptionsQMap` (a `QMap<QString, QString>`) as the list of its entries; keys are
unique. -/
abbrev OptionsQMap := List (String × String)

/-- Lookup of a key, `QMap::value`. -/
def OptionsQMap.lookup (options : OptionsQMap) (key : String) : Option String :=
  (List.find? (fun e => e.1 == key) options).map Prod.snd

/-- The getters of `IReflSettingsView` read by `getTransmissionOptions`. -/
structure IReflSettingsView where
  experimentSettingsEnabled : Bool
  instrumentSettingsEnabled : Bool
  getAnalysisMode : String
  getStartOverlap : String
  getEndOverlap : String
  getMonitorIntegralMin : String
  getMonitorIntegralMax : String
  getMonitorBackgroundMin : String
  getMonitorBackgroundMax : String
  getLambdaMin : String
  getLambdaMax : String
  getI0MonitorIndex : String
  getProcessingInstructions : String

/-- The assignment `options[key] = value` of `setTransmissionOption`: the value of an existing
key is replaced, a new key is inserted. -/
def setTransmissionOption : OptionsQMap → String → String → OptionsQMap
  | [], key, value => [(key, value)]
  | e :: rest, key, value =>
    if e.1 = key then (key, value) :: rest else e :: setTransmissionOption rest key value

/-- The loop of `addTransmissionOptions`: every key is set to the null string `QString()`. -/
def addTransmissionOptions (options : OptionsQMap) (keys : List String) : OptionsQMap :=
  keys.foldl (fun opts key => setTransmissionOption opts key "") options

/-- The key list passed by `transmissionOptionsMap`. -/
def transmissionOptionKeys : List String :=
  ["AnalysisMode", "StartOverlap", "EndOverlap", "MonitorIntegrationWavelengthMin",
    "MonitorIntegrationWavelengthMax", "MonitorBackgroundWavelengthMin",
    "MonitorBackgroundWavelengthMax", "WavelengthMin", "WavelengthMax", "I0MonitorIndex",
    "ProcessingInstructions"]

/-- The method `ReflSettingsPresenter::transmissionOptionsMap`. -/
def transmissionOptionsMap : OptionsQMap :=
  addTransmissionOptions [] transmissionOptionKeys

/-- The method `ReflSettingsPresenter::getTransmissionOptions`. -/
def getTransmissionOptions (m_view : IReflSettingsView) : OptionsQMap :=
  let options := transmissionOptionsMap
  let options :=
    if m_view.experimentSettingsEnabled then
      let options := setTransmissionOption options "AnalysisMode" m_view.getAnalysisMode
      let options := setTransmissionOption options "StartOverlap" m_view.getStartOverlap
      setTransmissionOption options "EndOverlap" m_view.getEndOverlap
    else options
  let options :=
    if m_view.instrumentSettingsEnabled then
      let options := setTransmissionOption options "MonitorIntegrationWavelengthMin"
        m_view.getMonitorIntegralMin
      let options := setTransmissionOption options "MonitorIntegrationWavelengthMax"
        m_view.getMonitorIntegralMax
      let options := setTransmissionOption options "MonitorBackgroundWavelengthMin"
        m_view.getMonitorBackgroundMin
      let options := setTransmissionOption options "MonitorBackgroundWavelengthMax"
        m_view.getMonitorBackgroundMax
      let options := setTransmissionOption options "WavelengthMin" m_view.getLambdaMin
      let options := setTransmissionOption options "WavelengthMax" m_view.getLambdaMax
      let options := setTransmissionOption options "I0MonitorIndex" m_view.getI0MonitorIndex
      setTransmissionOption options "ProcessingInstructions"
        m_view.getProcessingInstructions
    else options
  options

/-- A view with the experiment settings enabled and the instrument settings disabled. -/
def exampleView : IReflSettingsView :=
  { experimentSettingsEnabled := true, instrumentSettingsEnabled := false,
    getAnalysisMode := "PointDetectorAnalysis", getStartOverlap := "10",
    getEndOverlap := "12", getMonitorIntegralMin := "4", getMonitorIntegralMax := "10",
    getMonitorBackgroundMin := "17", getMonitorBackgroundMax := "18", getLambdaMin := "1",
    getLambdaMax := "15", getI0MonitorIndex := "2", getProcessingInstructions := "3,4" }

end CustomInterfaces

end MantidQt

namespace Mantid

/-! ## The per-peak loop -/

theorem ClusterMap.index_of_find {m : ClusterMap} {key : Nat} {ptr : Option Cluster}
    (h : m.find key = some ptr) : m.index key = (m, ptr) := by
  simp [ClusterMap.index, h]

theorem region_body_eq (env : Collaborators) (mdWS outHistoWS : IMDHistoWorkspace)
    (t : PeakTransform) (pre post : List Peak) (peak : Peak) (cm : ClusterMap)
    (h : ClustersResolve env outHistoWS cm t [peak]) :
    PARALLEL_INTERUPT_REGION (peakBody env mdWS outHistoWS t pre.length)
        { peaks := pre ++ peak :: post, clusterMap := cm } =
      .ok { peaks := pre ++ integratedPeak env mdWS outHistoWS cm t peak :: post,
            clusterMap := cm } := by
  have hget : (pre ++ peak :: post)[pre.length]? = some peak := by
    rw [List.getElem?_append_right (le_refl _)]; simp
  unfold PARALLEL_INTERUPT_REGION peakBody integratedPeak
  simp only [hget]
  cases htr : env.transformPeak t peak with
  | error e => simp
  | ok c =>
    simp only []
    cases hv : env.getSignalAtVMD outHistoWS c .NoNormalization with
    | none => simp
    | some v =>
      simp only []
      by_cases hs : (env.getStartLabelId : ℚ) ≤ v
      · obtain ⟨cluster, hc⟩ := h peak (by simp) c v htr hv hs
        simp [hs, ClusterMap.index_of_find hc, hc]
      · simp [hs]

theorem ClustersResolve.tail {env : Collaborators} {outHistoWS : IMDHistoWorkspace}
    {cm : ClusterMap} {t : PeakTransform} {peak : Peak} {post : List Peak}
    (h : ClustersResolve env outHistoWS cm t (peak :: post)) :
    ClustersResolve env outHistoWS cm t [peak] ∧ ClustersResolve env outHistoWS cm t post :=
  ⟨fun p hp => h p (by simp at hp; simp [hp]), fun p hp => h p (by simp [hp])⟩

theorem peakLoop_eq_map (env : Collaborators) (mdWS outHistoWS : IMDHistoWorkspace)
    (t : PeakTransform) (cm : ClusterMap) (post : List Peak) :
    ∀ pre : List Peak, ClustersResolve env outHistoWS cm t post →
      peakLoop env mdWS outHistoWS t (List.range' pre.length post.length)
          { peaks := pre ++ post, clusterMap := cm } =
        (none, { peaks := pre ++ post.map (integratedPeak env mdWS outHistoWS cm t),
                 clusterMap := cm }) := by
  induction post with
  | nil => intro pre _; simp [peakLoop]
  | cons peak post ih =>
    intro pre h
    have h2 := ClustersResolve.tail h
    simp only [List.length_cons, List.range', peakLoop,
      region_body_eq env mdWS outHistoWS t pre post peak cm h2.1]
    have := ih (pre ++ [integratedPeak env mdWS outHistoWS cm t peak]) h2.2
    simpa using this

theorem peakLoop_range (env : Collaborators) (mdWS outHistoWS : IMDHistoWorkspace)
    (t : PeakTransform) (cm : ClusterMap) (peaks : List Peak)
    (h : ClustersResolve env outHistoWS cm t peaks) :
    peakLoop env mdWS outHistoWS t (List.range peaks.length)
        { peaks := peaks, clusterMap := cm } =
      (none, { peaks := peaks.map (integratedPeak env mdWS outHistoWS cm t),
               clusterMap := cm }) := by
  have := peakLoop_eq_map env mdWS outHistoWS t cm peaks [] h
  simpa [List.range_eq_range'] using this

theorem selectFactory_isSome {c : SpecialCoordinateSystem} (h : c ≠ .None) :
    ∃ f, selectFactory c = some f := by
  cases c <;> simp [selectFactory] at h ⊢

/-- A run on a declared coordinate system whose transform is created and whose labels all
resolve ends without failure and emits the peaks, each passed through the loop body once,
and the label image. -/
theorem exec_eq_of_resolve (env : Collaborators) (props : Properties) (t : PeakTransform)
    (hcoord : props.InputWorkspace.coordinateSystem ≠ .None)
    (ht : createdTransform env props = some (.ok t))
    (hres : ClustersResolve env (labelImage env props) (clusterMapOf env props) t
      props.PeaksWorkspace) :
    exec env props =
      { failure := none, labelingRuns := 1,
        peakWS := props.PeaksWorkspace.map
          (integratedPeak env props.InputWorkspace (labelImage env props)
            (clusterMapOf env props) t),
        outHistoWS := some (labelImage env props),
        clusterMap := clusterMapOf env props,
        OutputWorkspace := some (props.PeaksWorkspace.map
          (integratedPeak env props.InputWorkspace (labelImage env props)
            (clusterMapOf env props) t)),
        OutputWorkspaceMD := some (labelImage env props) } := by
  obtain ⟨f, hf⟩ := selectFactory_isSome hcoord
  simp only [createdTransform, hf, Option.map_some', Option.some.injEq] at ht
  have hloop := peakLoop_range env props.InputWorkspace (labelImage env props) t
    (clusterMapOf env props) props.PeaksWorkspace hres
  simp only [labelImage, clusterMapOf, backgroundStrategy] at hloop
  simp only [exec, hcoord, if_false, hf, ht, hloop, PARALLEL_CHECK_INTERUPT_REGION, labelImage,
    clusterMapOf, backgroundStrategy]


/-! ## Statements about `exec` and `init` -/

theorem exec_labeling_facts (env : Collaborators) (props : Properties) :
    ((exec env props).outHistoWS =
        if props.InputWorkspace.coordinateSystem = .None then none
        else some (labelImage env props)) ∧
    ((exec env props).labelingRuns =
        if props.InputWorkspace.coordinateSystem = .None then 0 else 1) ∧
    ((exec env props).OutputWorkspaceMD = none ∨
      (exec env props).OutputWorkspaceMD = some (labelImage env props)) := by
  by_cases hcoord : props.InputWorkspace.coordinateSystem = .None
  · simp [exec, hcoord]
  · simp only [exec, hcoord, if_false, labelImage, backgroundStrategy,
      PARALLEL_CHECK_INTERUPT_REGION]
    cases selectFactory props.InputWorkspace.coordinateSystem with
    | none => simp
    | some f =>
      simp only []
      cases env.createTransform f (props.InputWorkspace.dimensionName 0)
          (props.InputWorkspace.dimensionName 1) with
      | error e => simp
      | ok t =>
        simp only []
        split <;> simp

/-! ## The 10x10 example grid -/

set_option maxRecDepth 100000 in
theorem blob_labeling :
    executeAndFetchClusters blobWS thresholdOne = (blobImage, blobClusterMap) := by
  decide!

set_option maxRecDepth 100000 in
theorem blob_integrate :
    Cluster.integrate Rat.sqrt blobCluster blobWS = (some 45, some 3) := by
  decide!

theorem blob_labelImage (env : Collaborators) (peaks : List Peak) (r : ℚ)
    (h : env.executeAndFetchClusters = executeAndFetchClusters) :
    labelImage env (blobProps peaks r) = blobImage := by
  unfold labelImage
  rw [h]
  exact congrArg Prod.fst blob_labeling

theorem blob_clusterMapOf (env : Collaborators) (peaks : List Peak) (r : ℚ)
    (h : env.executeAndFetchClusters = executeAndFetchClusters) :
    clusterMapOf env (blobProps peaks r) = blobClusterMap := by
  unfold clusterMapOf
  rw [h]
  exact congrArg Prod.snd blob_labeling

set_option maxRecDepth 100000 in
theorem resolve_blob (env : Collaborators) (peaks : List Peak)
    (hsig : env.getSignalAtVMD = getSignalAtVMD) (hstart : env.getStartLabelId = startLabelId)
    (htr : ∀ peak c, env.transformPeak blobTransform peak = .ok c → c = peak.hkl)
    (h : ∀ peak ∈ peaks, peak.hkl = [5, 5, 0] ∨ peak.hkl = [1, 1, 0] ∨
      peak.hkl = [20, 20, 0] ∨ peak.hkl = [5, 5]) :
    ClustersResolve env blobImage blobClusterMap blobTransform peaks := by
  intro peak hp c v hc hv hs
  have hc' : c = peak.hkl := htr peak c hc
  subst hc'
  have e1 : getSignalAtVMD blobImage [5, 5, 0] .NoNormalization = some 1 := by decide!
  have e2 : getSignalAtVMD blobImage [1, 1, 0] .NoNormalization = some 0 := by decide!
  have e3 : getSignalAtVMD blobImage [20, 20, 0] .NoNormalization = none := by decide!
  have e4 : getSignalAtVMD blobImage [5, 5] .NoNormalization = some 1 := by decide!
  rw [hsig] at hv
  rw [hstart] at hs
  rcases h peak hp with h1 | h1 | h1 | h1 <;> rw [h1] at hv
  · rw [e1] at hv
    cases hv
    exact ⟨blobCluster, by decide!⟩
  · rw [e2] at hv
    cases hv
    simp [startLabelId] at hs
    norm_num at hs
  · rw [e3] at hv
    cases hv
  · rw [e4] at hv
    cases hv
    exact ⟨blobCluster, by decide!⟩

theorem specCollaborators_transform (sqrt : ℚ → ℚ) (peak : Peak) (c : V3D)
    (h : (specCollaborators sqrt).transformPeak blobTransform peak = .ok c) : c = peak.hkl := by
  simp [specCollaborators, transformPeak, blobTransform] at h
  exact h.symm

theorem strictCollaborators_transform (peak : Peak) (c : V3D)
    (h : strictCollaborators.transformPeak blobTransform peak = .ok c) : c = peak.hkl := by
  simp only [strictCollaborators, specCollaborators] at h
  split at h
  · cases h
  · simp [transformPeak, blobTransform] at h
    exact h.symm

/-- A run on the example grid with collaborators that label as the specification does. -/
theorem blob_exec (env : Collaborators) (peaks : List Peak) (r : ℚ)
    (hlab : env.executeAndFetchClusters = executeAndFetchClusters)
    (ht : createdTransform env (blobProps peaks r) = some (.ok blobTransform))
    (hres : ClustersResolve env blobImage blobClusterMap blobTransform peaks) :
    exec env (blobProps peaks r) =
      { failure := none, labelingRuns := 1,
        peakWS := peaks.map (integratedPeak env blobWS blobImage blobClusterMap blobTransform),
        outHistoWS := some blobImage,
        clusterMap := blobClusterMap,
        OutputWorkspace := some
          (peaks.map (integratedPeak env blobWS blobImage blobClusterMap blobTransform)),
        OutputWorkspaceMD := some blobImage } := by
  have hres' : ClustersResolve env (labelImage env (blobProps peaks r))
      (clusterMapOf env (blobProps peaks r)) blobTransform
      (blobProps peaks r).PeaksWorkspace := by
    rw [blob_labelImage env peaks r hlab, blob_clusterMapOf env peaks r hlab]
    exact hres
  have hcoord : (blobProps peaks r).InputWorkspace.coordinateSystem ≠ .None := by
    simp [blobProps, blobWS]
  rw [exec_eq_of_resolve env (blobProps peaks r) blobTransform hcoord ht hres',
    blob_labelImage env peaks r hlab, blob_clusterMapOf env peaks r hlab]
  rfl

set_option maxRecDepth 100000 in
/-- The loop body at a peak whose centre lies in the block of the example grid. -/
theorem integratedPeak_blob_centre (env : Collaborators) (peak : Peak) (c : V3D)
    (hsig : env.getSignalAtVMD = getSignalAtVMD) (hstart : env.getStartLabelId = startLabelId)
    (hint : env.integrate = Cluster.integrate Rat.sqrt)
    (htr : env.transformPeak blobTransform peak = .ok c)
    (hc : getSignalAtVMD blobImage c .NoNormalization = some 1) :
    integratedPeak env blobWS blobImage blobClusterMap blobTransform peak =
      { peak with intensity := some 45, sigmaIntensity := some 3 } := by
  have hfind : blobClusterMap.find (Rat.floor 1).toNat = some (some blobCluster) := by decide!
  have hle : (startLabelId : ℚ) ≤ 1 := by decide!
  unfold integratedPeak
  rw [htr, hsig, hstart, hint]
  simp only [hc, hle, if_true, hfind, blob_integrate]
  rfl


/-- C1: in a run on a declared coordinate system whose transform is created and whose labels
all resolve, a peak whose label-image value `v` at its transformed centre is not NaN and at
least the start label id leaves `exec` with intensity and sigma-intensity equal to the two
components of `integrate` of the cluster stored under key `floor v`, evaluated on the input
signal grid; the run ends without failure. -/
theorem exec_integrates_matched_peak (env : Collaborators) (props : Properties)
    (t : PeakTransform) (i : Nat) (peak : Peak) (c : V3D) (v : ℚ) (cluster : Cluster)
    (hcoord : props.InputWorkspace.coordinateSystem ≠ .None)
    (ht : createdTransform env props = some (.ok t))
    (hres : ClustersResolve env (labelImage env props) (clusterMapOf env props) t
      props.PeaksWorkspace)
    (hpeak : props.PeaksWorkspace[i]? = some peak)
    (hc : env.transformPeak t peak = .ok c)
    (hv : env.getSignalAtVMD (labelImage env props) c .NoNormalization = some v)
    (hs : (env.getStartLabelId : ℚ) ≤ v)
    (hcl : (clusterMapOf env props).find (Rat.floor v).toNat = some (some cluster)) :
    (exec env props).failure = none ∧
    ∃ out outPeak, (exec env props).OutputWorkspace = some out ∧
      out[i]? = some outPeak ∧
      outPeak.intensity = (env.integrate cluster props.InputWorkspace).1 ∧
      outPeak.sigmaIntensity = (env.integrate cluster props.InputWorkspace).2 := by
  rw [exec_eq_of_resolve env props t hcoord ht hres]
  refine ⟨rfl, _, integratedPeak env props.InputWorkspace (labelImage env props)
      (clusterMapOf env props) t peak, rfl, ?_, ?_, ?_⟩
  · rw [List.getElem?_map, hpeak]; rfl
  · simp [integratedPeak, hc, hv, hs, hcl, Peak.setIntensity, Peak.setSigmaIntensity]
  · simp [integratedPeak, hc, hv, hs, hcl, Peak.setIntensity, Peak.setSigmaIntensity]

set_option maxRecDepth 100000 in
theorem exec_integrates_matched_peak_witness :
    ((exec (specCollaborators Rat.sqrt) (blobProps [peakAt [5, 5, 0]] 0)).failure = none ∧
      ∃ out outPeak,
        (exec (specCollaborators Rat.sqrt) (blobProps [peakAt [5, 5, 0]] 0)).OutputWorkspace =
          some out ∧
        out[0]? = some outPeak ∧
        outPeak.intensity = (Cluster.integrate Rat.sqrt blobCluster blobWS).1 ∧
        outPeak.sigmaIntensity = (Cluster.integrate Rat.sqrt blobCluster blobWS).2) ∧
    Cluster.integrate Rat.sqrt blobCluster blobWS = (some 45, some 3) :=
  ⟨exec_integrates_matched_peak (specCollaborators Rat.sqrt) (blobProps [peakAt [5, 5, 0]] 0)
      blobTransform 0 (peakAt [5, 5, 0]) [5, 5, 0] 1 blobCluster (by decide) rfl
      (by
        rw [blob_labelImage _ _ _ rfl, blob_clusterMapOf _ _ _ rfl]
        exact resolve_blob _ _ rfl rfl (specCollaborators_transform Rat.sqrt)
          (by simp [blobProps, peakAt]))
      rfl rfl
      (by rw [blob_labelImage _ _ _ rfl]; decide!)
      (by decide!)
      (by rw [blob_clusterMapOf _ _ _ rfl]; decide!),
    blob_integrate⟩

/-- C2: in such a run a peak whose label-image value at its transformed centre is NaN or
below the start label id is emitted exactly as it entered (so its intensity and
sigma-intensity are unchanged), and the run ends without failure. -/
theorem exec_leaves_unmatched_peak (env : Collaborators) (props : Properties)
    (t : PeakTransform) (i : Nat) (peak : Peak) (c : V3D)
    (hcoord : props.InputWorkspace.coordinateSystem ≠ .None)
    (ht : createdTransform env props = some (.ok t))
    (hres : ClustersResolve env (labelImage env props) (clusterMapOf env props) t
      props.PeaksWorkspace)
    (hpeak : props.PeaksWorkspace[i]? = some peak)
    (hc : env.transformPeak t peak = .ok c)
    (hbg : ∀ v, env.getSignalAtVMD (labelImage env props) c .NoNormalization = some v →
      v < (env.getStartLabelId : ℚ)) :
    (exec env props).failure = none ∧
    ∃ out, (exec env props).OutputWorkspace = some out ∧ out[i]? = some peak := by
  rw [exec_eq_of_resolve env props t hcoord ht hres]
  refine ⟨rfl, _, rfl, ?_⟩
  rw [List.getElem?_map, hpeak]
  simp only [Option.map_some', Option.some.injEq, integratedPeak, hc]
  cases hv : env.getSignalAtVMD (labelImage env props) c .NoNormalization with
  | none => rfl
  | some v => simp [not_le.mpr (hbg v hv)]

set_option maxRecDepth 100000 in
theorem exec_leaves_unmatched_peak_witness :
    (exec (specCollaborators Rat.sqrt)
        (blobProps [peakAt [5, 5, 0], peakAt [1, 1, 0], peakAt [20, 20, 0]] 0)).failure =
      none ∧
    ∃ out,
      (exec (specCollaborators Rat.sqrt)
        (blobProps [peakAt [5, 5, 0], peakAt [1, 1, 0], peakAt [20, 20, 0]] 0)).OutputWorkspace =
        some out ∧
      out[1]? = some (peakAt [1, 1, 0]) :=
  exec_leaves_unmatched_peak (specCollaborators Rat.sqrt)
    (blobProps [peakAt [5, 5, 0], peakAt [1, 1, 0], peakAt [20, 20, 0]] 0)
    blobTransform 1 (peakAt [1, 1, 0]) [1, 1, 0] (by decide) rfl
    (by
      rw [blob_labelImage _ _ _ rfl, blob_clusterMapOf _ _ _ rfl]
      exact resolve_blob _ _ rfl rfl (specCollaborators_transform Rat.sqrt)
        (by simp [blobProps, peakAt]))
    rfl rfl
    (by
      intro v hv
      rw [blob_labelImage _ _ _ rfl] at hv
      have e : getSignalAtVMD blobImage [1, 1, 0] .NoNormalization = some 0 := by decide!
      have hv' : getSignalAtVMD blobImage [1, 1, 0] .NoNormalization = some v := hv
      rw [e] at hv'
      cases hv'
      decide!)

/-- C3: on an input grid whose special coordinate system is `None`, `exec` raises
`invalid_argument`; the labeling has not run (no collaborator influences the result), no label
image exists, the peaks are as they were, and nothing is emitted. -/
theorem exec_rejects_undeclared_coordinates (env : Collaborators) (props : Properties)
    (hcoord : props.InputWorkspace.coordinateSystem = .None) :
    (exec env props).failure = some (.raised .invalid_argument) ∧
    (exec env props).labelingRuns = 0 ∧
    (exec env props).outHistoWS = none ∧
    (exec env props).peakWS = props.PeaksWorkspace ∧
    (exec env props).OutputWorkspace = none ∧
    (exec env props).OutputWorkspaceMD = none ∧
    ∀ env' : Collaborators, exec env' props = exec env props := by
  simp [exec, hcoord]

set_option maxRecDepth 100000 in
theorem exec_rejects_undeclared_coordinates_witness :
    (exec (specCollaborators Rat.sqrt)
        { InputWorkspace := undeclaredWS, PeaksWorkspace := [peakAt [5, 5, 0]],
          RadiusEstimate := 0, Threshold := 1 }).failure =
      some (.raised .invalid_argument) ∧
    (exec (specCollaborators Rat.sqrt)
        { InputWorkspace := undeclaredWS, PeaksWorkspace := [peakAt [5, 5, 0]],
          RadiusEstimate := 0, Threshold := 1 }).labelingRuns = 0 :=
  let h := exec_rejects_undeclared_coordinates (specCollaborators Rat.sqrt)
    { InputWorkspace := undeclaredWS, PeaksWorkspace := [peakAt [5, 5, 0]],
      RadiusEstimate := 0, Threshold := 1 } (by decide)
  ⟨h.1, h.2.1⟩

theorem init_find_radiusEstimate :
    init.find? (fun p => p.name == "RadiusEstimate") =
      some { name := "RadiusEstimate", defaultValue := 0, validators := compositeValidator } := by
  decide

theorem init_find_threshold :
    init.find? (fun p => p.name == "Threshold") =
      some { name := "Threshold", defaultValue := 0, validators := [positiveValidator] } := by
  decide

/-- C4: a negative `Threshold` is rejected by the validator declared in `init` (lower bound 0)
with `invalid_argument`; the run stops before `exec`: the labeling has not run and no label
image exists. A value the validator accepts is never negative. -/
theorem execute_rejects_negative_threshold (env : Collaborators) (mdWS : IMDHistoWorkspace)
    (peaks : List Peak) (radiusEstimate threshold : ℚ) (hneg : threshold < 0) :
    setProperty init "Threshold" threshold = .error .invalid_argument ∧
    (execute env mdWS peaks radiusEstimate threshold).failure =
      some (.raised .invalid_argument) ∧
    (execute env mdWS peaks radiusEstimate threshold).labelingRuns = 0 ∧
    (execute env mdWS peaks radiusEstimate threshold).outHistoWS = none ∧
    (execute env mdWS peaks radiusEstimate threshold).OutputWorkspaceMD = none ∧
    ∀ accepted t : ℚ, setProperty init "Threshold" t = .ok accepted → 0 ≤ accepted := by
  have hthr : setProperty init "Threshold" threshold = .error .invalid_argument := by
    simp [setProperty, init_find_threshold, positiveValidator, IValidator.isValid, hneg]
  have hacc : ∀ accepted t : ℚ, setProperty init "Threshold" t = .ok accepted →
      0 ≤ accepted := by
    intro accepted t h
    simp only [setProperty, init_find_threshold, positiveValidator, List.all_cons,
      IValidator.isValid, List.all_nil, Bool.and_true] at h
    split at h
    · cases h
      simp_all
    · cases h
  have hrad : setProperty init "RadiusEstimate" radiusEstimate = .ok radiusEstimate ∨
      setProperty init "RadiusEstimate" radiusEstimate = .error .invalid_argument := by
    simp only [setProperty, init_find_radiusEstimate]
    split <;> simp
  refine ⟨hthr, ?_, ?_, ?_, ?_, hacc⟩ <;>
  · rcases hrad with h | h <;> simp [execute, hthr, h]

theorem execute_rejects_negative_threshold_witness :
    setProperty init "Threshold" (-1) = .error .invalid_argument ∧
    (execute (specCollaborators Rat.sqrt) blobWS [peakAt [5, 5, 0]] 0 (-1)).failure =
      some (.raised .invalid_argument) ∧
    (execute (specCollaborators Rat.sqrt) blobWS [peakAt [5, 5, 0]] 0 (-1)).labelingRuns = 0 ∧
    (execute (specCollaborators Rat.sqrt) blobWS [peakAt [5, 5, 0]] 0 (-1)).outHistoWS = none :=
  let h := execute_rejects_negative_threshold (specCollaborators Rat.sqrt) blobWS
    [peakAt [5, 5, 0]] 0 (-1) (by norm_num)
  ⟨h.1, h.2.1, h.2.2.1, h.2.2.2.1⟩

/-- C5: with the loop guard as the specification describes it, a run on a declared coordinate
system whose transform is created and whose labels all resolve ends without failure and emits
both outputs whatever exceptions the peak transform raises: a peak whose transform raises is
emitted as it entered, and every peak is emitted exactly as a run on that peak alone emits
it. -/
theorem exec_isolates_peak_failure (env : Collaborators) (props : Properties)
    (t : PeakTransform)
    (hcoord : props.InputWorkspace.coordinateSystem ≠ .None)
    (ht : createdTransform env props = some (.ok t))
    (hres : ClustersResolve env (labelImage env props) (clusterMapOf env props) t
      props.PeaksWorkspace) :
    (exec env props).failure = none ∧
    (exec env props).OutputWorkspaceMD = some (labelImage env props) ∧
    ∃ out : List Peak, (exec env props).OutputWorkspace = some out ∧
      out.length = props.PeaksWorkspace.length ∧
      (∀ (i : Nat) (peak : Peak) (e : Exception), props.PeaksWorkspace[i]? = some peak →
        env.transformPeak t peak = .error e → out[i]? = some peak) ∧
      (∀ (i : Nat) (peak : Peak), props.PeaksWorkspace[i]? = some peak →
        ∃ outPeak : Peak, out[i]? = some outPeak ∧
          (exec env { props with PeaksWorkspace := [peak] }).OutputWorkspace =
            some [outPeak]) := by
  rw [exec_eq_of_resolve env props t hcoord ht hres]
  refine ⟨rfl, rfl, _, rfl, by simp, ?_, ?_⟩
  · intro i peak e hpeak he
    rw [List.getElem?_map, hpeak]
    simp [integratedPeak, he]
  · intro i peak hpeak
    refine ⟨integratedPeak env props.InputWorkspace (labelImage env props)
      (clusterMapOf env props) t peak, ?_, ?_⟩
    · rw [List.getElem?_map, hpeak]; rfl
    · have hmem : peak ∈ props.PeaksWorkspace := List.getElem?_mem hpeak
      have hres1 : ClustersResolve env
          (labelImage env { props with PeaksWorkspace := [peak] })
          (clusterMapOf env { props with PeaksWorkspace := [peak] }) t
          ({ props with PeaksWorkspace := [peak] } : Properties).PeaksWorkspace := by
        intro p hp
        simp only [List.mem_singleton] at hp
        subst hp
        exact hres p hmem
      rw [exec_eq_of_resolve env { props with PeaksWorkspace := [peak] } t hcoord ht hres1]
      rfl

set_option maxRecDepth 100000 in
theorem exec_isolates_peak_failure_witness :
    strictCollaborators.transformPeak blobTransform (peakAt [5, 5]) = .error .other ∧
    (exec strictCollaborators (blobProps [peakAt [5, 5], peakAt [5, 5, 0]] 0)).failure = none ∧
    (exec strictCollaborators
        (blobProps [peakAt [5, 5], peakAt [5, 5, 0]] 0)).OutputWorkspaceMD =
      some (labelImage strictCollaborators (blobProps [peakAt [5, 5], peakAt [5, 5, 0]] 0)) ∧
    (exec strictCollaborators
        (blobProps [peakAt [5, 5], peakAt [5, 5, 0]] 0)).OutputWorkspace =
      some [peakAt [5, 5],
        { peakAt [5, 5, 0] with intensity := some 45, sigmaIntensity := some 3 }] :=
  let h := exec_isolates_peak_failure strictCollaborators
    (blobProps [peakAt [5, 5], peakAt [5, 5, 0]] 0) blobTransform (by decide) rfl
    (by
      rw [blob_labelImage _ _ _ rfl, blob_clusterMapOf _ _ _ rfl]
      exact resolve_blob _ _ rfl rfl strictCollaborators_transform
        (by simp [blobProps, peakAt]))
  ⟨rfl, h.1, h.2.1, by
    rw [blob_exec strictCollaborators _ _ rfl rfl
      (resolve_blob _ _ rfl rfl strictCollaborators_transform (by simp [peakAt]))]
    simp only [List.map_cons, List.map_nil]
    rw [integratedPeak_blob_centre strictCollaborators (peakAt [5, 5, 0]) [5, 5, 0] rfl rfl rfl
      rfl (by decide!)]
    rfl⟩

/-- C9: evaluation at the failing input. With `RadiusEstimate` 1 the peak at (5,5) of the
example grid is still given the whole 3x3 block (intensity 45, sigma 3): voxel (6,6), every
point of which is farther than 1 from the peak centre, carries the cluster's label and its
signal 5 is part of the sum. `RadiusEstimate` has no influence on any run. -/
theorem exec_ignores_radiusEstimate :
    (exec (specCollaborators Rat.sqrt) (blobProps [peakAt [5, 5, 0]] 1)).OutputWorkspace =
      some [{ peakAt [5, 5, 0] with intensity := some 45, sigmaIntensity := some 3 }] ∧
    coordinatesOf blobWS.shape 66 = [6, 6] ∧
    blobWS.getSignalAt 66 = some 5 ∧
    (blobCluster.image[66]?).join = some (blobCluster.label : ℚ) ∧
    ∀ (env : Collaborators) (props : Properties) (r : ℚ),
      exec env { props with RadiusEstimate := r } = exec env props := by
  refine ⟨?_, by decide, by decide!, by decide!, fun _ _ _ => rfl⟩
  rw [blob_exec (specCollaborators Rat.sqrt) _ _ rfl rfl
    (resolve_blob _ _ rfl rfl (specCollaborators_transform Rat.sqrt) (by simp [peakAt]))]
  simp only [List.map_cons, List.map_nil]
  rw [integratedPeak_blob_centre (specCollaborators Rat.sqrt) (peakAt [5, 5, 0]) [5, 5, 0] rfl
    rfl rfl rfl (by decide!)]

/-- C10: two runs of `exec` on the same signal grid and `Threshold` hold the same label image
whatever their peak lists and radius estimates; each run performs the labeling at most once,
and a label image that is emitted is the one returned by the labeling step on the grid. -/
theorem exec_label_image_independent_of_peaks (env : Collaborators)
    (mdWS : IMDHistoWorkspace) (threshold : ℚ) (peaks1 peaks2 : List Peak) (r1 r2 : ℚ) :
    (exec env { InputWorkspace := mdWS, PeaksWorkspace := peaks1, RadiusEstimate := r1,
                Threshold := threshold }).outHistoWS =
      (exec env { InputWorkspace := mdWS, PeaksWorkspace := peaks2, RadiusEstimate := r2,
                  Threshold := threshold }).outHistoWS ∧
    (exec env { InputWorkspace := mdWS, PeaksWorkspace := peaks1, RadiusEstimate := r1,
                Threshold := threshold }).labelingRuns ≤ 1 ∧
    ∀ md1 md2,
      (exec env { InputWorkspace := mdWS, PeaksWorkspace := peaks1, RadiusEstimate := r1,
                  Threshold := threshold }).OutputWorkspaceMD = some md1 →
      (exec env { InputWorkspace := mdWS, PeaksWorkspace := peaks2, RadiusEstimate := r2,
                  Threshold := threshold }).OutputWorkspaceMD = some md2 →
      md1 = md2 ∧
        md1 = (env.executeAndFetchClusters mdWS
          { threshold := threshold, normalization := .NoNormalization }).1 := by
  have f1 := exec_labeling_facts env ⟨mdWS, peaks1, r1, threshold⟩
  have f2 := exec_labeling_facts env ⟨mdWS, peaks2, r2, threshold⟩
  refine ⟨?_, ?_, ?_⟩
  · rw [f1.1, f2.1]; rfl
  · rw [f1.2.1]; split <;> simp
  · intro md1 md2 h1 h2
    rcases f1.2.2 with h | h
    · rw [h] at h1; cases h1
    · rcases f2.2.2 with h' | h'
      · rw [h'] at h2; cases h2
      · rw [h] at h1; rw [h'] at h2
        cases h1; cases h2
        exact ⟨rfl, rfl⟩

set_option maxRecDepth 100000 in
theorem exec_label_image_independent_of_peaks_witness :
    (exec (specCollaborators Rat.sqrt) (blobProps [] 0)).OutputWorkspaceMD = some blobImage ∧
    (exec (specCollaborators Rat.sqrt)
        (blobProps [peakAt [5, 5, 0], peakAt [1, 1, 0]] 3)).OutputWorkspaceMD = some blobImage ∧
    blobImage = blobImage ∧
    blobImage = (executeAndFetchClusters blobWS
      { threshold := 1, normalization := .NoNormalization }).1 :=
  have h1 : (exec (specCollaborators Rat.sqrt) (blobProps [] 0)).OutputWorkspaceMD =
      some blobImage := by
    rw [blob_exec (specCollaborators Rat.sqrt) _ _ rfl rfl
      (resolve_blob _ _ rfl rfl (specCollaborators_transform Rat.sqrt) (by simp))]
  have h2 : (exec (specCollaborators Rat.sqrt)
      (blobProps [peakAt [5, 5, 0], peakAt [1, 1, 0]] 3)).OutputWorkspaceMD =
      some blobImage := by
    rw [blob_exec (specCollaborators Rat.sqrt) _ _ rfl rfl
      (resolve_blob _ _ rfl rfl (specCollaborators_transform Rat.sqrt) (by simp [peakAt]))]
  ⟨h1, h2,
    (exec_label_image_independent_of_peaks (specCollaborators Rat.sqrt) blobWS 1 []
      [peakAt [5, 5, 0], peakAt [1, 1, 0]] 0 3).2.2 blobImage blobImage h1 h2⟩


/-! ## Cluster integration -/

namespace DisjointSetForest

theorem rootWithin_fuel {f : DisjointSetForest} (hf : f.Ordered) :
    ∀ n m l, l ≤ n → l ≤ m → f.rootWithin n l = f.rootWithin m l := by
  intro n
  induction n with
  | zero =>
    intro m l hn _
    have hl : l = 0 := by omega
    subst hl
    cases m with
    | zero => rfl
    | succ k =>
      have h0 : f.parent 0 = 0 := Nat.le_zero.mp (hf 0)
      simp [rootWithin, h0]
  | succ n ih =>
    intro m l hn hm
    cases m with
    | zero =>
      have hl : l = 0 := by omega
      subst hl
      have h0 : f.parent 0 = 0 := Nat.le_zero.mp (hf 0)
      simp [rootWithin, h0]
    | succ k =>
      simp only [rootWithin]
      by_cases hp : f.parent l = l
      · simp [hp]
      · simp only [hp, if_false]
        have := hf l
        exact ih k (f.parent l) (by omega) (by omega)

theorem root_unfold {f : DisjointSetForest} (hf : f.Ordered) (l : Nat) :
    f.root l = if f.parent l = l then l else f.root (f.parent l) := by
  unfold root
  cases l with
  | zero =>
    have h0 : f.parent 0 = 0 := Nat.le_zero.mp (hf 0)
    simp [rootWithin, h0]
  | succ k =>
    simp only [rootWithin]
    by_cases hp : f.parent (k + 1) = k + 1
    · simp [hp]
    · simp only [hp, if_false]
      have := hf (k + 1)
      exact rootWithin_fuel hf k (f.parent (k + 1)) (f.parent (k + 1)) (by omega) (le_refl _)

theorem root_of_parent_self {f : DisjointSetForest} {l : Nat} (h : f.parent l = l) :
    f.root l = l := by
  unfold root
  cases l with
  | zero => rfl
  | succ k => simp [rootWithin, h]

theorem root_le {f : DisjointSetForest} (hf : f.Ordered) (l : Nat) : f.root l ≤ l := by
  induction l using Nat.strong_induction_on with
  | _ l ih =>
    rw [root_unfold hf]
    by_cases hp : f.parent l = l
    · simp [hp]
    · simp only [hp, if_false]
      have := hf l
      have := ih (f.parent l) (by omega)
      omega

theorem parent_root {f : DisjointSetForest} (hf : f.Ordered) (l : Nat) :
    f.parent (f.root l) = f.root l := by
  induction l using Nat.strong_induction_on with
  | _ l ih =>
    rw [root_unfold hf]
    by_cases hp : f.parent l = l
    · simp [hp]
    · simp only [hp, if_false]
      have := hf l
      exact ih (f.parent l) (by omega)

theorem root_root {f : DisjointSetForest} (hf : f.Ordered) (l : Nat) :
    f.root (f.root l) = f.root l :=
  root_of_parent_self (parent_root hf l)

theorem ordered_empty : DisjointSetForest.empty.Ordered :=
  fun _ => le_refl _

theorem root_empty (l : Nat) : DisjointSetForest.empty.root l = l :=
  root_of_parent_self rfl

theorem ordered_setParent {f : DisjointSetForest} (hf : f.Ordered) {l r : Nat} (h : r ≤ l) :
    (f.setParent l r).Ordered := by
  intro x
  simp only [setParent]
  split
  · omega
  · exact hf x

/-- Re-parenting a label to its own root changes no root. -/
theorem root_setParent_root {f : DisjointSetForest} (hf : f.Ordered) (x : Nat) (y : Nat) :
    (f.setParent x (f.root x)).root y = f.root y := by
  have hf' : (f.setParent x (f.root x)).Ordered := ordered_setParent hf (root_le hf x)
  induction y using Nat.strong_induction_on with
  | _ y ih =>
    by_cases hyx : y = x
    · subst hyx
      by_cases hr : f.root y = y
      · have : (f.setParent y (f.root y)).parent y = y := by simp [setParent, hr]
        rw [root_of_parent_self this, hr]
      · rw [root_unfold hf']
        have hp : (f.setParent y (f.root y)).parent y = f.root y := by simp [setParent]
        rw [hp]
        simp only [hr, if_false]
        have hp2 : (f.setParent y (f.root y)).parent (f.root y) = f.root y := by
          simp only [setParent, hr, if_false]
          exact parent_root hf y
        exact root_of_parent_self hp2
    · have hp : (f.setParent x (f.root x)).parent y = f.parent y := by
        simp [setParent, hyx]
      rw [root_unfold hf', root_unfold hf y, hp]
      by_cases hpy : f.parent y = y
      · simp [hpy]
      · simp only [hpy, if_false]
        have := hf y
        exact ih (f.parent y) (by omega)

theorem compressWithin_spec (r : Nat) :
    ∀ (fuel : Nat) (f : DisjointSetForest) (l : Nat), f.Ordered → f.root l = r →
      (f.compressWithin r fuel l).Ordered ∧
        ∀ y, (f.compressWithin r fuel l).root y = f.root y := by
  intro fuel
  induction fuel with
  | zero => intro f l hf _; exact ⟨hf, fun _ => rfl⟩
  | succ n ih =>
    intro f l hf hr
    simp only [compressWithin]
    by_cases hp : f.parent l = l
    · rw [if_pos hp]
      exact ⟨hf, fun _ => rfl⟩
    · rw [if_neg hp]
      have hle : r ≤ l := hr ▸ root_le hf l
      have hf1 : (f.setParent l r).Ordered := ordered_setParent hf hle
      have hroots : ∀ y, (f.setParent l r).root y = f.root y := by
        intro y
        rw [← hr]
        exact root_setParent_root hf l y
      have hnext : (f.setParent l r).root (f.parent l) = r := by
        rw [hroots, ← hr, root_unfold hf l]
        simp [hp]
      obtain ⟨h1, h2⟩ := ih (f.setParent l r) (f.parent l) hf1 hnext
      exact ⟨h1, fun y => by rw [h2, hroots]⟩

theorem find_fst (f : DisjointSetForest) (l : Nat) : (f.find l).1 = f.root l := rfl

theorem find_snd_spec {f : DisjointSetForest} (hf : f.Ordered) (l : Nat) :
    (f.find l).2.Ordered ∧ ∀ y, (f.find l).2.root y = f.root y :=
  compressWithin_spec (f.root l) l f l hf rfl

/-- Linking one root below a smaller root redirects exactly the labels of the larger tree. -/
theorem root_link {f : DisjointSetForest} (hf : f.Ordered) {hi lo : Nat}
    (hhi : f.parent hi = hi) (hlo : f.parent lo = lo) (hlt : lo < hi) (x : Nat) :
    (f.setParent hi lo).root x = if f.root x = hi then lo else f.root x := by
  have hf' : (f.setParent hi lo).Ordered := ordered_setParent hf (le_of_lt hlt)
  induction x using Nat.strong_induction_on with
  | _ x ih =>
    by_cases hx : x = hi
    · subst hx
      have hp : (f.setParent x lo).parent x = lo := by simp [setParent]
      have hp2 : (f.setParent x lo).parent lo = lo := by
        simp only [setParent]
        rw [if_neg (by omega)]
        exact hlo
      rw [root_unfold hf', hp, if_neg (by omega), root_of_parent_self hp2,
        root_of_parent_self hhi]
      simp
    · have hp : (f.setParent hi lo).parent x = f.parent x := by simp [setParent, hx]
      rw [root_unfold hf', root_unfold hf x, hp]
      by_cases hpx : f.parent x = x
      · simp [hpx, hx]
      · simp only [hpx, if_false]
        have := hf x
        exact ih (f.parent x) (by omega)

theorem union_spec {f : DisjointSetForest} (hf : f.Ordered) (a b : Nat) :
    (f.union a b).Ordered ∧
      ∀ x, (f.union a b).root x =
        if f.root a < f.root b then (if f.root x = f.root b then f.root a else f.root x)
        else if f.root b < f.root a then (if f.root x = f.root a then f.root b else f.root x)
        else f.root x := by
  obtain ⟨hf1, hr1⟩ := find_snd_spec hf a
  obtain ⟨hf2, hr2⟩ := find_snd_spec hf1 b
  have hrx : ∀ x, ((f.find a).2.find b).2.root x = f.root x := fun x => by rw [hr2, hr1]
  have e1 : (f.find a).1 = f.root a := rfl
  have e2 : ((f.find a).2.find b).1 = f.root b := by rw [find_fst, hr1]
  have hpa : ((f.find a).2.find b).2.parent (f.root a) = f.root a := by
    have := parent_root hf2 a
    rwa [hrx] at this
  have hpb : ((f.find a).2.find b).2.parent (f.root b) = f.root b := by
    have := parent_root hf2 b
    rwa [hrx] at this
  simp only [union, e1, e2]
  by_cases h1 : f.root a < f.root b
  · simp only [h1, if_true]
    refine ⟨ordered_setParent hf2 (le_of_lt h1), fun x => ?_⟩
    rw [root_link hf2 hpb hpa h1, hrx]
  · by_cases h2 : f.root b < f.root a
    · simp only [h1, h2, if_true, if_false]
      refine ⟨ordered_setParent hf2 (le_of_lt h2), fun x => ?_⟩
      rw [root_link hf2 hpa hpb h2, hrx]
    · simp only [h1, h2, if_false]
      exact ⟨hf2, hrx⟩

theorem same_union {f : DisjointSetForest} (hf : f.Ordered) (a b x y : Nat) :
    (f.union a b).Same x y ↔
      f.Same x y ∨ (f.Same x a ∧ f.Same y b) ∨ (f.Same x b ∧ f.Same y a) := by
  simp only [Same, (union_spec hf a b).2]
  split_ifs <;> constructor <;> intro h <;> omega

theorem root_union_fresh {f : DisjointSetForest} (hf : f.Ordered) (a b l : Nat)
    (h : f.root l = l) (ha : a < l) (hb : b < l) : (f.union a b).root l = l := by
  rw [(union_spec hf a b).2, h]
  have := root_le hf a
  have := root_le hf b
  split_ifs <;> omega

end DisjointSetForest


/-! ## Linear indices, multi-indices and causal neighbours -/

theorem causalNeighbours_lt (shape : List Nat) :
    ∀ i j, j ∈ causalNeighbours shape i → j < i := by
  induction shape with
  | nil => intro i j h; simp [causalNeighbours] at h
  | cons d ds ih =>
    intro i j h
    simp only [causalNeighbours, List.mem_append, List.mem_map] at h
    rcases h with h | ⟨r, hr, rfl⟩
    · split at h
      · simp only [List.mem_singleton] at h
        have : 0 < i := by
          rcases Nat.eq_zero_or_pos i with h0 | h0
          · subst h0; simp at *
          · exact h0
        omega
      · simp at h
    · have hlt := ih (i / d) r hr
      have hmul : d * r + d ≤ d * (i / d) := by
        have : d * (r + 1) ≤ d * (i / d) := Nat.mul_le_mul_left d hlt
        simpa [Nat.mul_add] using this
      have hdm := Nat.mod_add_div i d
      rcases Nat.eq_zero_or_pos d with h0 | h0
      · subst h0
        simp at hlt
      · omega

theorem cityBlock_self (l : List Nat) : cityBlock l l = 0 := by
  induction l with
  | nil => rfl
  | cons a l ih => simp [cityBlock, ih]

theorem cityBlock_comm : ∀ a b : List Nat, cityBlock a b = cityBlock b a
  | [], [] => rfl
  | [], _ :: _ => rfl
  | _ :: _, [] => rfl
  | a :: as, b :: bs => by
    simp only [cityBlock, cityBlock_comm as bs]
    omega

theorem coordinatesOf_injective (shape : List Nat) :
    ∀ i j, i < shape.prod → j < shape.prod →
      cityBlock (coordinatesOf shape i) (coordinatesOf shape j) = 0 → i = j := by
  induction shape with
  | nil =>
    intro i j hi hj _
    simp at hi hj
    omega
  | cons d ds ih =>
    intro i j hi hj h
    simp only [List.prod_cons] at hi hj
    simp only [coordinatesOf, cityBlock] at h
    have hq : i / d = j / d :=
      ih (i / d) (j / d) (Nat.div_lt_of_lt_mul hi) (Nat.div_lt_of_lt_mul hj) (by omega)
    have h1 := Nat.mod_add_div i d
    have h2 := Nat.mod_add_div j d
    rw [hq] at h1
    omega

theorem mem_causalNeighbours_iff (shape : List Nat) :
    ∀ i j, i < shape.prod → j < shape.prod →
      (j ∈ causalNeighbours shape i ↔ faceAdjacent shape i j ∧ j < i) := by
  unfold faceAdjacent
  induction shape with
  | nil => intro i j _ _; simp [causalNeighbours, coordinatesOf, cityBlock]
  | cons d ds ih =>
    intro i j hi hj
    simp only [List.prod_cons] at hi hj
    have hd : 0 < d := by
      rcases Nat.eq_zero_or_pos d with h0 | h0
      · subst h0; simp at hi
      · exact h0
    have hqi : i / d < ds.prod := Nat.div_lt_of_lt_mul hi
    have hqj : j / d < ds.prod := Nat.div_lt_of_lt_mul hj
    have hi' := Nat.mod_add_div i d
    have hj' := Nat.mod_add_div j d
    have hci := Nat.mod_lt i hd
    have hcj := Nat.mod_lt j hd
    simp only [causalNeighbours, List.mem_append, List.mem_map, coordinatesOf, cityBlock]
    constructor
    · rintro (h | ⟨r, hr, rfl⟩)
      · split at h
        · rename_i hpos
          simp only [List.mem_singleton] at h
          subst h
          have e : i - 1 = (i % d - 1) + d * (i / d) := by omega
          have hm : (i - 1) % d = i % d - 1 := by
            rw [e, Nat.add_mul_mod_self_left]
            exact Nat.mod_eq_of_lt (by omega)
          have hq : (i - 1) / d = i / d := by
            rw [e, Nat.add_mul_div_left _ _ hd, Nat.div_eq_of_lt (by omega)]
            simp
          rw [hm, hq, cityBlock_self]
          omega
        · simp at h
      · have hm : (i % d + d * r) % d = i % d := by
          rw [Nat.add_mul_mod_self_left]
          exact Nat.mod_eq_of_lt hci
        have hq : (i % d + d * r) / d = r := by
          rw [Nat.add_mul_div_left _ _ hd, Nat.div_eq_of_lt hci]
          simp
        have hrlt := causalNeighbours_lt ds _ _ hr
        have := (ih (i / d) r hqi (by omega)).mp hr
        rw [hm, hq]
        have hmul : d * r + d ≤ d * (i / d) := by
          have : d * (r + 1) ≤ d * (i / d) := Nat.mul_le_mul_left d hrlt
          simpa [Nat.mul_add] using this
        omega
    · rintro ⟨hcb, hlt⟩
      by_cases h0 : cityBlock (coordinatesOf ds (i / d)) (coordinatesOf ds (j / d)) = 0
      · have hq := coordinatesOf_injective ds _ _ hqi hqj h0
        left
        rw [hq] at hi'
        have hpos : 0 < i % d := by omega
        simp only [hpos, if_true, List.mem_singleton]
        omega
      · right
        have hc : i % d = j % d := by omega
        have hcb1 : cityBlock (coordinatesOf ds (i / d)) (coordinatesOf ds (j / d)) = 1 := by
          omega
        have hqlt : j / d < i / d := by
          by_contra hge
          have : d * (i / d) ≤ d * (j / d) := Nat.mul_le_mul_left d (by omega)
          omega
        refine ⟨j / d, (ih (i / d) (j / d) hqi hqj).mpr ⟨hcb1, hqlt⟩, ?_⟩
        omega

theorem causal_or_iff_faceAdjacent (shape : List Nat) (i j : Nat) (hi : i < shape.prod)
    (hj : j < shape.prod) :
    (i ∈ causalNeighbours shape j ∨ j ∈ causalNeighbours shape i) ↔ faceAdjacent shape i j := by
  rw [mem_causalNeighbours_iff shape j i hj hi, mem_causalNeighbours_iff shape i j hi hj]
  have hsym : faceAdjacent shape j i ↔ faceAdjacent shape i j := by
    unfold faceAdjacent
    rw [cityBlock_comm]
  constructor
  · rintro (h | h)
    · exact hsym.mp h.1
    · exact h.1
  · intro h
    have hne : i ≠ j := by
      rintro rfl
      unfold faceAdjacent at h
      rw [cityBlock_self] at h
      omega
    rcases Nat.lt_or_gt_of_ne hne with hlt | hlt
    · exact Or.inl ⟨hsym.mpr h, hlt⟩
    · exact Or.inr ⟨h, hlt⟩


/-! ## The forward scan -/

theorem getD_append_one (l : List Nat) (x j : Nat) :
    (l ++ [x]).getD j 0 =
      if j < l.length then l.getD j 0 else if j = l.length then x else 0 := by
  by_cases h : j < l.length
  · rw [if_pos h, List.getD_append _ _ _ _ h]
  · rw [if_neg h, List.getD_append_right _ _ _ _ (by omega)]
    by_cases h2 : j = l.length
    · subst h2; simp
    · rw [if_neg h2]
      have : j - l.length = (j - l.length - 1) + 1 := by omega
      rw [this]
      rfl

theorem causalEdge_symm (shape : List Nat) (isBackground : Nat → Bool) (n : Nat) :
    Symmetric (causalEdge shape isBackground n) :=
  fun _ _ ⟨ha, hb, hfa, hfb, h⟩ => ⟨hb, ha, hfb, hfa, h.symm⟩

theorem causalEdge_mono (shape : List Nat) (isBackground : Nat → Bool) (n : Nat) (a b : Nat)
    (h : causalEdge shape isBackground n a b) : causalEdge shape isBackground (n + 1) a b :=
  ⟨by have := h.1; omega, by have := h.2.1; omega, h.2.2.1, h.2.2.2.1, h.2.2.2.2⟩

theorem causalEdge_succ (shape : List Nat) (isBackground : Nat → Bool) (n a b : Nat)
    (h : causalEdge shape isBackground (n + 1) a b) :
    causalEdge shape isBackground n a b ∨
      (a = n ∧ b < n ∧ isBackground b = false ∧ b ∈ causalNeighbours shape n) ∨
      (b = n ∧ a < n ∧ isBackground a = false ∧ a ∈ causalNeighbours shape n) := by
  obtain ⟨ha, hb, hfa, hfb, hab⟩ := h
  by_cases han : a = n
  · subst han
    rcases hab with h1 | h1
    · have := causalNeighbours_lt shape _ _ h1
      omega
    · have := causalNeighbours_lt shape _ _ h1
      exact Or.inr (Or.inl ⟨rfl, this, hfb, h1⟩)
  · by_cases hbn : b = n
    · subst hbn
      rcases hab with h1 | h1
      · have := causalNeighbours_lt shape _ _ h1
        exact Or.inr (Or.inr ⟨rfl, this, hfa, h1⟩)
      · have := causalNeighbours_lt shape _ _ h1
        omega
    · exact Or.inl ⟨by omega, by omega, hfa, hfb, hab⟩

/-- When no edge touches voxel `n`, connectivity among the first `n + 1` voxels is
connectivity among the first `n`. -/
theorem connected_succ_of_isolated (shape : List Nat) (isBackground : Nat → Bool) (n : Nat)
    (hiso : ∀ b, b ∈ causalNeighbours shape n → isBackground b = false →
      isBackground n = true)
    (u v : Nat) :
    Relation.ReflTransGen (causalEdge shape isBackground (n + 1)) u v ↔
      Relation.ReflTransGen (causalEdge shape isBackground n) u v := by
  constructor
  · intro h
    refine Relation.ReflTransGen.mono ?_ h
    intro a b hab
    rcases causalEdge_succ shape isBackground n a b hab with h1 | ⟨rfl, _, hfb, hmem⟩ |
      ⟨rfl, _, hfa, hmem⟩
    · exact h1
    · have := hiso b hmem hfb
      rw [hab.2.2.1] at this
      cases this
    · have := hiso a hmem hfa
      rw [hab.2.2.2.1] at this
      cases this
  · exact Relation.ReflTransGen.mono (causalEdge_mono shape isBackground n)

theorem connected_from_last (shape : List Nat) (isBackground : Nat → Bool) (n v : Nat)
    (h : Relation.ReflTransGen (causalEdge shape isBackground n) n v) : v = n := by
  rcases Relation.ReflTransGen.cases_head h with h1 | ⟨c, hc, _⟩
  · exact h1.symm
  · have := hc.1
    omega

theorem mem_neighbourLabels {shape : List Nat} {isBackground : Nat → Bool} {n : Nat}
    {st : LabelingState} (inv : ScanInvariant shape isBackground n st) (l : Nat) :
    l ∈ neighbourLabels shape st.labels n ↔
      ∃ j, j ∈ causalNeighbours shape n ∧ isBackground j = false ∧ st.labels.getD j 0 = l := by
  simp only [neighbourLabels, emptyLabelId, List.mem_filter, List.mem_map, bne_iff_ne, ne_eq]
  constructor
  · rintro ⟨⟨j, hj, rfl⟩, hne⟩
    have hlt := causalNeighbours_lt shape _ _ hj
    cases hb : isBackground j with
    | true => exact absurd (inv.background j hlt hb) hne
    | false => exact ⟨j, hj, hb, rfl⟩
  · rintro ⟨j, hj, hf, rfl⟩
    have hlt := causalNeighbours_lt shape _ _ hj
    have := (inv.foreground j hlt hf).1
    exact ⟨⟨j, hj, rfl⟩, by omega⟩

theorem scan_step_background {shape : List Nat} {isBackground : Nat → Bool} {n : Nat}
    {st : LabelingState} (inv : ScanInvariant shape isBackground n st)
    (hbg : isBackground n = true) :
    ScanInvariant shape isBackground (n + 1) { st with labels := st.labels ++ [0] } := by
  have hlen := inv.length
  refine ⟨by simp [hlen], inv.ordered, inv.fresh, inv.positive, inv.start, ?_, ?_, inv.created,
    ?_⟩
  · intro j hj hb
    simp only [getD_append_one, hlen]
    split_ifs
    · exact inv.background j (by omega) hb
    · rfl
    · rfl
  · intro j hj hf
    have hjn : j ≠ n := by rintro rfl; rw [hbg] at hf; cases hf
    simp only [getD_append_one, hlen]
    rw [if_pos (by omega)]
    exact inv.foreground j (by omega) hf
  · intro u v hu hv hfu hfv
    have hun : u ≠ n := by rintro rfl; rw [hbg] at hfu; cases hfu
    have hvn : v ≠ n := by rintro rfl; rw [hbg] at hfv; cases hfv
    simp only [getD_append_one, hlen]
    rw [if_pos (by omega), if_pos (by omega),
      connected_succ_of_isolated shape isBackground n (fun _ _ _ => hbg)]
    exact inv.connected u v (by omega) (by omega) hfu hfv

theorem scan_step_new {shape : List Nat} {isBackground : Nat → Bool} {n : Nat}
    {st : LabelingState} (inv : ScanInvariant shape isBackground n st)
    (hfg : isBackground n = false) (hnone : neighbourLabels shape st.labels n = []) :
    ScanInvariant shape isBackground (n + 1)
      { labels := st.labels ++ [st.nextLabel], forest := st.forest,
        nextLabel := st.nextLabel + 1, created := st.created ++ [st.nextLabel] } := by
  have hlen := inv.length
  have hstart := inv.start
  have hiso : ∀ b, b ∈ causalNeighbours shape n → isBackground b = false →
      isBackground n = true := by
    intro b hb hfb
    have : st.labels.getD b 0 ∈ neighbourLabels shape st.labels n :=
      (mem_neighbourLabels inv _).mpr ⟨b, hb, hfb, rfl⟩
    rw [hnone] at this
    cases this
  refine ⟨by simp [hlen], inv.ordered, fun l hl => inv.fresh l (by simp only at hl; omega),
    inv.positive, by simp only; omega, ?_, ?_, ?_, ?_⟩
  · intro j hj hb
    have hjn : j ≠ n := by rintro rfl; rw [hfg] at hb; cases hb
    simp only [getD_append_one, hlen]
    rw [if_pos (by omega)]
    exact inv.background j (by omega) hb
  · intro j hj hf
    simp only [getD_append_one, hlen]
    split_ifs with h1 h2
    · have := inv.foreground j h1 hf
      omega
    · omega
    · omega
  · intro l
    simp only [List.mem_append, List.mem_singleton, inv.created l]
    omega
  · intro u v hu hv hfu hfv
    simp only [getD_append_one, hlen]
    rw [connected_succ_of_isolated shape isBackground n hiso]
    have hroot_new : st.forest.root st.nextLabel = st.nextLabel := inv.fresh _ (le_refl _)
    have hroot_old : ∀ w, w < n → isBackground w = false →
        st.forest.root (st.labels.getD w 0) < st.nextLabel := by
      intro w hw hfw
      have := (inv.foreground w hw hfw).2
      have := DisjointSetForest.root_le inv.ordered (st.labels.getD w 0)
      omega
    by_cases hun : u = n
    · by_cases hvn : v = n
      · subst hun; subst hvn
        simp [DisjointSetForest.Same, Relation.ReflTransGen.refl]
      · subst hun
        rw [if_neg (by omega), if_pos rfl, if_pos (by omega)]
        constructor
        · intro h
          have := hroot_old v (by omega) hfv
          simp only [DisjointSetForest.Same, hroot_new] at h
          omega
        · intro h
          exact absurd (connected_from_last shape isBackground u v h) hvn
    · by_cases hvn : v = n
      · subst hvn
        rw [if_pos (by omega), if_neg (by omega), if_pos rfl]
        constructor
        · intro h
          have := hroot_old u (by omega) hfu
          simp only [DisjointSetForest.Same, hroot_new] at h
          omega
        · intro h
          have h' := Relation.ReflTransGen.symmetric (causalEdge_symm shape isBackground v) h
          exact absurd (connected_from_last shape isBackground v u h') hun
      · rw [if_pos (by omega), if_pos (by omega)]
        exact inv.connected u v (by omega) (by omega) hfu hfv


namespace DisjointSetForest

theorem Same.refl (f : DisjointSetForest) (x : Nat) : f.Same x x := rfl

theorem Same.symm {f : DisjointSetForest} {x y : Nat} (h : f.Same x y) : f.Same y x :=
  Eq.symm h

theorem Same.trans {f : DisjointSetForest} {x y z : Nat} (h1 : f.Same x y) (h2 : f.Same y z) :
    f.Same x z :=
  Eq.trans h1 h2

theorem root_union_pos {f : DisjointSetForest} (hf : f.Ordered)
    (hpos : ∀ l, 1 ≤ l → 1 ≤ f.root l) (a b : Nat) (ha : 1 ≤ a) (hb : 1 ≤ b) (l : Nat)
    (hl : 1 ≤ l) : 1 ≤ (f.union a b).root l := by
  rw [(union_spec hf a b).2]
  have := hpos a ha
  have := hpos b hb
  have := hpos l hl
  split_ifs <;> omega

/-- The forest after recording a union of `m` with every label of a list. -/
theorem foldl_union_spec (m : Nat) (L : List Nat) :
    ∀ f : DisjointSetForest, f.Ordered →
      (L.foldl (fun g x => g.union m x) f).Ordered ∧
      (∀ x y, f.Same x y → (L.foldl (fun g x => g.union m x) f).Same x y) ∧
      (∀ l ∈ L, (L.foldl (fun g x => g.union m x) f).Same l m) ∧
      (∀ x y, (L.foldl (fun g x => g.union m x) f).Same x y →
        f.Same x y ∨
          ((f.Same x m ∨ ∃ a ∈ L, f.Same x a) ∧ (f.Same y m ∨ ∃ b ∈ L, f.Same y b))) := by
  induction L with
  | nil =>
    intro f hf
    exact ⟨hf, fun _ _ h => h, fun _ h => (by cases h), fun _ _ h => Or.inl h⟩
  | cons a L ih =>
    intro f hf
    have hf1 : (f.union m a).Ordered := (union_spec hf m a).1
    obtain ⟨h1, h2, h3, h4⟩ := ih (f.union m a) hf1
    have hstep : ∀ x y, (f.union m a).Same x y ↔
        f.Same x y ∨ (f.Same x m ∧ f.Same y a) ∨ (f.Same x a ∧ f.Same y m) :=
      same_union hf m a
    have hback : ∀ x z, (f.union m a).Same x z →
        (f.Same z m ∨ ∃ b ∈ a :: L, f.Same z b) → (f.Same x m ∨ ∃ b ∈ a :: L, f.Same x b) := by
      intro x z hxz hz
      rcases (hstep x z).mp hxz with h | ⟨h, _⟩ | ⟨h, _⟩
      · rcases hz with hz | ⟨b, hb, hz⟩
        · exact Or.inl (h.trans hz)
        · exact Or.inr ⟨b, hb, h.trans hz⟩
      · exact Or.inl h
      · exact Or.inr ⟨a, by simp, h⟩
    have hQ : ∀ x, ((f.union m a).Same x m ∨ ∃ b ∈ L, (f.union m a).Same x b) →
        (f.Same x m ∨ ∃ b ∈ a :: L, f.Same x b) := by
      rintro x (h | ⟨b, hb, h⟩)
      · exact hback x m h (Or.inl (Same.refl f m))
      · exact hback x b h (Or.inr ⟨b, by simp [hb], Same.refl f b⟩)
    simp only [List.foldl_cons]
    refine ⟨h1, fun x y h => h2 x y ((hstep x y).mpr (Or.inl h)), ?_, ?_⟩
    · intro l hl
      rcases List.mem_cons.mp hl with rfl | hl
      · exact h2 _ _ ((hstep _ _).mpr (Or.inr (Or.inr ⟨Same.refl f _, Same.refl f _⟩)))
      · exact h3 l hl
    · intro x y h
      rcases h4 x y h with h | ⟨hx, hy⟩
      · rcases (hstep x y).mp h with h | ⟨hx, hy⟩ | ⟨hx, hy⟩
        · exact Or.inl h
        · exact Or.inr ⟨Or.inl hx, Or.inr ⟨a, by simp, hy⟩⟩
        · exact Or.inr ⟨Or.inr ⟨a, by simp, hx⟩, Or.inl hy⟩
      · exact Or.inr ⟨hQ x hx, hQ y hy⟩

theorem foldl_union_fresh (m N : Nat) (hm : m < N) (L : List Nat) :
    ∀ f : DisjointSetForest, f.Ordered → (∀ a ∈ L, a < N) → (∀ z, N ≤ z → f.root z = z) →
      ∀ z, N ≤ z → (L.foldl (fun g x => g.union m x) f).root z = z := by
  induction L with
  | nil => intro f _ _ h; exact h
  | cons a L ih =>
    intro f hf hL h
    simp only [List.foldl_cons]
    refine ih (f.union m a) (union_spec hf m a).1 (fun b hb => hL b (by simp [hb])) ?_
    intro z hz
    exact root_union_fresh hf m a z (h z hz) (by omega) (by have := hL a (by simp); omega)

theorem foldl_union_pos (m : Nat) (hm : 1 ≤ m) (L : List Nat) :
    ∀ f : DisjointSetForest, f.Ordered → (∀ a ∈ L, 1 ≤ a) → (∀ l, 1 ≤ l → 1 ≤ f.root l) →
      ∀ l, 1 ≤ l → 1 ≤ (L.foldl (fun g x => g.union m x) f).root l := by
  induction L with
  | nil => intro f _ _ h; exact h
  | cons a L ih =>
    intro f hf hL h
    simp only [List.foldl_cons]
    refine ih (f.union m a) (union_spec hf m a).1 (fun b hb => hL b (by simp [hb])) ?_
    intro l hl
    exact root_union_pos hf h m a hm (hL a (by simp)) l hl

end DisjointSetForest

theorem foldl_min_mem (l : Nat) (ls : List Nat) : ls.foldl min l ∈ l :: ls := by
  induction ls generalizing l with
  | nil => simp
  | cons a ls ih =>
    simp only [List.foldl_cons]
    have := ih (min l a)
    rcases List.mem_cons.mp this with h | h
    · rw [h]
      rcases Nat.le_total l a with hle | hle
      · simp [Nat.min_eq_left hle]
      · simp [Nat.min_eq_right hle]
    · simp [h]

/-- The step at a foreground voxel that takes over a neighbouring label `m`, the forest
moving to one in which all neighbouring labels are merged. -/
theorem scan_step_merge {shape : List Nat} {isBackground : Nat → Bool} {n : Nat}
    {st : LabelingState} (inv : ScanInvariant shape isBackground n st)
    (hfg : isBackground n = false) (m : Nat) (f' : DisjointSetForest)
    (hm : m ∈ neighbourLabels shape st.labels n)
    (hord : f'.Ordered)
    (hfresh : ∀ l, st.nextLabel ≤ l → f'.root l = l)
    (hpos : ∀ l, 1 ≤ l → 1 ≤ f'.root l)
    (hmono : ∀ x y, st.forest.Same x y → f'.Same x y)
    (hall : ∀ l ∈ neighbourLabels shape st.labels n, f'.Same l m)
    (honly : ∀ x y, f'.Same x y → st.forest.Same x y ∨
      ((∃ a ∈ neighbourLabels shape st.labels n, st.forest.Same x a) ∧
        (∃ b ∈ neighbourLabels shape st.labels n, st.forest.Same y b))) :
    ScanInvariant shape isBackground (n + 1)
      { st with labels := st.labels ++ [m], forest := f' } := by
  have hlen := inv.length
  obtain ⟨j0, hj0, hfj0, hlab0⟩ := (mem_neighbourLabels inv m).mp hm
  have hj0lt := causalNeighbours_lt shape _ _ hj0
  have hmrange := inv.foreground j0 hj0lt hfj0
  rw [hlab0] at hmrange
  have hsym := Relation.ReflTransGen.symmetric (causalEdge_symm shape isBackground (n + 1))
  have hup : ∀ a b, Relation.ReflTransGen (causalEdge shape isBackground n) a b →
      Relation.ReflTransGen (causalEdge shape isBackground (n + 1)) a b :=
    fun a b h => Relation.ReflTransGen.mono (causalEdge_mono shape isBackground n) h
  -- a voxel whose label is merged with a neighbouring label is connected to voxel `n`
  have hhub : ∀ w, w < n → isBackground w = false →
      (∃ a ∈ neighbourLabels shape st.labels n, st.forest.Same (st.labels.getD w 0) a) →
      Relation.ReflTransGen (causalEdge shape isBackground (n + 1)) w n := by
    rintro w hw hfw ⟨a, ha, hsame⟩
    obtain ⟨j, hj, hfj, rfl⟩ := (mem_neighbourLabels inv a).mp ha
    have hjlt := causalNeighbours_lt shape _ _ hj
    have hwj := (inv.connected w j hw hjlt hfw hfj).mp hsame
    exact (hup _ _ hwj).tail ⟨by omega, by omega, hfj, hfg, Or.inl hj⟩
  refine ⟨by simp [hlen], hord, hfresh, hpos, inv.start, ?_, ?_, inv.created, ?_⟩
  · intro j hj hb
    have hjn : j ≠ n := by rintro rfl; rw [hfg] at hb; cases hb
    simp only [getD_append_one, hlen]
    rw [if_pos (by omega)]
    exact inv.background j (by omega) hb
  · intro j hj hf
    simp only [getD_append_one, hlen]
    split_ifs with h1 h2
    · exact inv.foreground j h1 hf
    · exact hmrange
    · omega
  · intro u v hu hv hfu hfv
    have hlabel : ∀ w, w < n + 1 →
        (st.labels ++ [m]).getD w 0 = if w < n then st.labels.getD w 0 else m := by
      intro w hw
      rw [getD_append_one, hlen]
      split_ifs <;> first | rfl | omega
    simp only [hlabel u hu, hlabel v hv]
    constructor
    · -- same tree implies connected
      intro h
      by_cases hun : u < n
      · by_cases hvn : v < n
        · rw [if_pos hun, if_pos hvn] at h
          rcases honly _ _ h with h1 | ⟨hx, hy⟩
          · exact hup _ _ ((inv.connected u v hun hvn hfu hfv).mp h1)
          · exact (hhub u hun hfu hx).trans (hsym (hhub v hvn hfv hy))
        · have hv' : v = n := by omega
          subst hv'
          rw [if_pos hun, if_neg hvn] at h
          rcases honly _ _ h with h1 | ⟨hx, _⟩
          · exact hhub u hun hfu ⟨m, hm, h1⟩
          · exact hhub u hun hfu hx
      · have hu' : u = n := by omega
        subst hu'
        by_cases hvn : v < u
        · rw [if_neg hun, if_pos hvn] at h
          rcases honly _ _ h with h1 | ⟨_, hy⟩
          · exact hsym (hhub v hvn hfv ⟨m, hm, h1.symm⟩)
          · exact hsym (hhub v hvn hfv hy)
        · have hv' : v = u := by omega
          subst hv'
          exact Relation.ReflTransGen.refl
    · -- connected implies same tree
      intro h
      have hedge : ∀ a b, causalEdge shape isBackground (n + 1) a b →
          f'.Same (if a < n then st.labels.getD a 0 else m)
            (if b < n then st.labels.getD b 0 else m) := by
        intro a b hab
        rcases causalEdge_succ shape isBackground n a b hab with h1 | ⟨rfl, hb, hfb, hmem⟩ |
          ⟨rfl, ha, hfa, hmem⟩
        · rw [if_pos h1.1, if_pos h1.2.1]
          exact hmono _ _ ((inv.connected a b h1.1 h1.2.1 h1.2.2.1 h1.2.2.2.1).mpr
            (Relation.ReflTransGen.single h1))
        · rw [if_neg (by omega), if_pos hb]
          exact (hall _ ((mem_neighbourLabels inv _).mpr ⟨b, hmem, hfb, rfl⟩)).symm
        · rw [if_pos ha, if_neg (by omega)]
          exact hall _ ((mem_neighbourLabels inv _).mpr ⟨a, hmem, hfa, rfl⟩)
      clear hv hfv
      induction h with
      | refl => exact DisjointSetForest.Same.refl _ _
      | tail _ hbc ih => exact ih.trans (hedge _ _ hbc)


theorem scan_step {shape : List Nat} {isBackground : Nat → Bool} {n : Nat}
    {st : LabelingState} (inv : ScanInvariant shape isBackground n st) :
    ScanInvariant shape isBackground (n + 1) (labelVoxel shape isBackground st n) := by
  unfold labelVoxel
  cases hbg : isBackground n with
  | true =>
    simp only [if_true]
    exact scan_step_background inv hbg
  | false =>
    simp only [Bool.false_eq_true, if_false]
    have hmem : ∀ x, x ∈ (neighbourLabels shape st.labels n).dedup ↔
        x ∈ neighbourLabels shape st.labels n := fun x => List.mem_dedup
    have hrange : ∀ a ∈ neighbourLabels shape st.labels n, 1 ≤ a ∧ a < st.nextLabel := by
      intro a ha
      obtain ⟨j, hj, hfj, rfl⟩ := (mem_neighbourLabels inv a).mp ha
      exact inv.foreground j (causalNeighbours_lt shape _ _ hj) hfj
    split
    · rename_i heq
      have hnil : neighbourLabels shape st.labels n = [] := by
        cases hN : neighbourLabels shape st.labels n with
        | nil => rfl
        | cons a t =>
          have : a ∈ (neighbourLabels shape st.labels n).dedup := (hmem a).mpr (by simp [hN])
          rw [heq] at this
          cases this
      exact scan_step_new inv hbg hnil
    · rename_i l heq
      have hl : l ∈ neighbourLabels shape st.labels n := (hmem l).mp (by simp [heq])
      have hall : ∀ x ∈ neighbourLabels shape st.labels n, x = l := by
        intro x hx
        have := (hmem x).mpr hx
        rw [heq] at this
        simpa using this
      exact scan_step_merge inv hbg l st.forest hl inv.ordered inv.fresh inv.positive
        (fun _ _ h => h) (fun x hx => by rw [hall x hx]; exact DisjointSetForest.Same.refl _ _)
        (fun _ _ h => Or.inl h)
    · rename_i l ls _ heq
      have hsm : ls.foldl min l ∈ neighbourLabels shape st.labels n := by
        have := foldl_min_mem l ls
        rw [← heq] at this
        exact (hmem _).mp this
      have hL : ∀ a ∈ l :: ls, a ∈ neighbourLabels shape st.labels n := by
        intro a ha
        rw [← heq] at ha
        exact (hmem a).mp ha
      obtain ⟨h1, h2, h3, h4⟩ :=
        DisjointSetForest.foldl_union_spec (ls.foldl min l) (l :: ls) st.forest inv.ordered
      refine scan_step_merge inv hbg (ls.foldl min l) _ hsm h1 ?_ ?_ h2 ?_ ?_
      · exact DisjointSetForest.foldl_union_fresh _ _ (hrange _ hsm).2 _ _ inv.ordered
          (fun a ha => (hrange a (hL a ha)).2) inv.fresh
      · exact DisjointSetForest.foldl_union_pos _ (hrange _ hsm).1 _ _ inv.ordered
          (fun a ha => (hrange a (hL a ha)).1) inv.positive
      · intro x hx
        exact h3 x (by rw [← heq]; exact (hmem x).mpr hx)
      · intro x y hxy
        rcases h4 x y hxy with h | ⟨hx, hy⟩
        · exact Or.inl h
        · refine Or.inr ⟨?_, ?_⟩
          · rcases hx with hx | ⟨a, ha, hx⟩
            · exact ⟨_, hsm, hx⟩
            · exact ⟨a, hL a ha, hx⟩
          · rcases hy with hy | ⟨a, ha, hy⟩
            · exact ⟨_, hsm, hy⟩
            · exact ⟨a, hL a ha, hy⟩

theorem scan_initial (shape : List Nat) (isBackground : Nat → Bool) :
    ScanInvariant shape isBackground 0 LabelingState.initial := by
  refine ⟨rfl, DisjointSetForest.ordered_empty, fun l _ => DisjointSetForest.root_empty l,
    fun l hl => by rw [show LabelingState.initial.forest = DisjointSetForest.empty from rfl,
      DisjointSetForest.root_empty]; exact hl,
    le_refl _, fun j hj => by omega, fun j hj => by omega, ?_, fun u v hu => by omega⟩
  intro l
  simp only [LabelingState.initial, startLabelId, List.not_mem_nil, false_iff]
  omega

theorem forwardScan_succ (shape : List Nat) (isBackground : Nat → Bool) (n : Nat) :
    forwardScan shape isBackground (n + 1) =
      labelVoxel shape isBackground (forwardScan shape isBackground n) n := by
  simp [forwardScan, List.range_succ, List.foldl_append]

theorem forwardScan_invariant (shape : List Nat) (isBackground : Nat → Bool) (n : Nat) :
    ScanInvariant shape isBackground n (forwardScan shape isBackground n) := by
  induction n with
  | zero => exact scan_initial shape isBackground
  | succ n ih =>
    rw [forwardScan_succ]
    exact scan_step ih

theorem canonicalize_eq_map (ls : List Nat) :
    ∀ f : DisjointSetForest, f.Ordered → canonicalize f ls = ls.map f.root := by
  induction ls with
  | nil => intro f _; rfl
  | cons l ls ih =>
    intro f hf
    obtain ⟨h1, h2⟩ := DisjointSetForest.find_snd_spec hf l
    simp only [canonicalize, List.map_cons, DisjointSetForest.find_fst, ih _ h1]
    congr 1
    exact List.map_congr_left (fun x _ => h2 x)

/-- The label stored in the label image at a voxel of the grid is the root of the provisional
label the forward scan gave it. -/
theorem labelImage_getSignalAt (ws : IMDHistoWorkspace) (strategy : HardThresholdBackground)
    (i : Nat) (hi : i < ws.getNPoints) :
    (executeAndFetchClusters ws strategy).1.getSignalAt i =
      some (((forwardScan ws.shape (fun i => strategy.isBackground (ws.getSignalAt i))
        ws.getNPoints).forest.root
          ((forwardScan ws.shape (fun i => strategy.isBackground (ws.getSignalAt i))
            ws.getNPoints).labels.getD i 0) : Nat) : ℚ) := by
  have inv := forwardScan_invariant ws.shape
    (fun i => strategy.isBackground (ws.getSignalAt i)) ws.getNPoints
  have hlen := inv.length
  show ((executeAndFetchClusters ws strategy).1.signals[i]?).join = _
  simp only [executeAndFetchClusters, canonicalize_eq_map _ _ inv.ordered, List.map_map,
    List.getElem?_map]
  rw [List.getD_eq_getElem _ _ (by omega), List.getElem?_eq_getElem (by omega)]
  rfl


theorem foregroundStep_iff_causalEdge (ws : IMDHistoWorkspace)
    (strategy : HardThresholdBackground) (a b : Nat) :
    causalEdge ws.shape (fun i => strategy.isBackground (ws.getSignalAt i)) ws.getNPoints a b ↔
      foregroundStep ws strategy a b := by
  unfold causalEdge foregroundStep
  constructor
  · rintro ⟨ha, hb, hfa, hfb, h⟩
    exact ⟨ha, hb, hfa, hfb, (causal_or_iff_faceAdjacent ws.shape a b ha hb).mp h⟩
  · rintro ⟨ha, hb, hfa, hfb, h⟩
    exact ⟨ha, hb, hfa, hfb, (causal_or_iff_faceAdjacent ws.shape a b ha hb).mpr h⟩

/-- C6: in the label image returned by the labeling step, two foreground voxels of the grid
carry the same label if and only if they are joined by a chain of face-adjacent foreground
voxels. -/
theorem labeling_partitions_foreground (ws : IMDHistoWorkspace)
    (strategy : HardThresholdBackground) (i j : Nat)
    (hi : i < ws.getNPoints) (hj : j < ws.getNPoints)
    (hfi : strategy.isBackground (ws.getSignalAt i) = false)
    (hfj : strategy.isBackground (ws.getSignalAt j) = false) :
    (executeAndFetchClusters ws strategy).1.getSignalAt i =
        (executeAndFetchClusters ws strategy).1.getSignalAt j ↔
      Relation.ReflTransGen (foregroundStep ws strategy) i j := by
  have inv := forwardScan_invariant ws.shape
    (fun i => strategy.isBackground (ws.getSignalAt i)) ws.getNPoints
  rw [labelImage_getSignalAt ws strategy i hi, labelImage_getSignalAt ws strategy j hj]
  have hconn := inv.connected i j hi hj hfi hfj
  have hrel : Relation.ReflTransGen (causalEdge ws.shape
      (fun i => strategy.isBackground (ws.getSignalAt i)) ws.getNPoints) i j ↔
      Relation.ReflTransGen (foregroundStep ws strategy) i j :=
    ⟨Relation.ReflTransGen.mono (fun a b => (foregroundStep_iff_causalEdge ws strategy a b).mp),
      Relation.ReflTransGen.mono (fun a b => (foregroundStep_iff_causalEdge ws strategy a b).mpr)⟩
  rw [← hrel, ← hconn]
  unfold DisjointSetForest.Same
  constructor
  · intro h
    exact Nat.cast_injective (Option.some.inj h)
  · intro h
    rw [h]

set_option maxRecDepth 100000 in
theorem labeling_partitions_foreground_witness :
    (Relation.ReflTransGen (foregroundStep plusWS thresholdOne) 2 22) ∧
    ((executeAndFetchClusters plusWS thresholdOne).2.map Prod.fst = [1]) ∧
    (¬ Relation.ReflTransGen (foregroundStep diagonalWS thresholdOne) 0 3) ∧
    ((executeAndFetchClusters diagonalWS thresholdOne).2.map Prod.fst = [1, 2]) :=
  ⟨(labeling_partitions_foreground plusWS thresholdOne 2 22 (by decide) (by decide)
      (by decide!) (by decide!)).mp (by decide!),
    by decide!,
    fun h => absurd ((labeling_partitions_foreground diagonalWS thresholdOne 0 3 (by decide)
      (by decide) (by decide!) (by decide!)).mpr h) (by decide!),
    by decide!⟩

theorem find_eq_none_of_keys (m : ClusterMap) (key : Nat) (h : ∀ e ∈ m, e.1 ≠ key) :
    m.find key = none := by
  unfold ClusterMap.find
  rw [Option.map_eq_none', List.find?_eq_none]
  intro e he
  simpa using h e he

/-- C7: a voxel of the grid whose signal is NaN or strictly below the threshold is classified
as background and carries the sentinel label in the label image, and the cluster map has no
entry for the sentinel label. -/
theorem background_carries_sentinel (ws : IMDHistoWorkspace)
    (strategy : HardThresholdBackground) (i : Nat) (hi : i < ws.getNPoints)
    (hbg : ws.getSignalAt i = none ∨
      ∃ v, ws.getSignalAt i = some v ∧ v < strategy.threshold) :
    strategy.isBackground (ws.getSignalAt i) = true ∧
    (executeAndFetchClusters ws strategy).1.getSignalAt i = some (emptyLabelId : ℚ) ∧
    (executeAndFetchClusters ws strategy).2.find emptyLabelId = none := by
  have inv := forwardScan_invariant ws.shape
    (fun i => strategy.isBackground (ws.getSignalAt i)) ws.getNPoints
  have hcls : strategy.isBackground (ws.getSignalAt i) = true := by
    rcases hbg with h | ⟨v, h, hv⟩
    · rw [h]; rfl
    · rw [h]; simp [HardThresholdBackground.isBackground, hv]
  refine ⟨hcls, ?_, ?_⟩
  · rw [labelImage_getSignalAt ws strategy i hi, inv.background i hi hcls]
    rfl
  · apply find_eq_none_of_keys
    intro e he
    simp only [executeAndFetchClusters, List.mem_map, List.mem_filter] at he
    obtain ⟨l, ⟨hl, _⟩, rfl⟩ := he
    have := ((inv.created l).mp hl).1
    simp only [emptyLabelId]
    omega

set_option maxRecDepth 100000 in
theorem background_carries_sentinel_witness :
    (thresholdOne.isBackground (gapWS.getSignalAt 1) = true ∧
      (executeAndFetchClusters gapWS thresholdOne).1.getSignalAt 1 =
        some (emptyLabelId : ℚ) ∧
      (executeAndFetchClusters gapWS thresholdOne).2.find emptyLabelId = none) ∧
    (executeAndFetchClusters gapWS thresholdOne).1.signals = [some 1, some 0, some 2] :=
  ⟨background_carries_sentinel gapWS thresholdOne 1 (by decide) (Or.inl (by decide!)),
    by decide!⟩


/-! ## Every label of the image resolves in the cluster map -/

theorem linearIndexAt_lt (dims : List MDHistoDimension) :
    ∀ (coords : V3D) (index : Nat), linearIndexAt dims coords = some index →
      index < (dims.map MDHistoDimension.nBins).prod := by
  induction dims with
  | nil =>
    intro coords index h
    simp only [linearIndexAt, Option.some.injEq] at h
    subst h
    simp
  | cons d ds ih =>
    intro coords index h
    cases coords with
    | nil => simp [linearIndexAt] at h
    | cons x xs =>
      simp only [linearIndexAt] at h
      split at h
      · cases h
      · split at h
        · cases h
        · rename_i hbin
          cases hrest : linearIndexAt ds xs with
          | none => simp [hrest] at h
          | some rest =>
            simp only [hrest, Option.map_some', Option.some.injEq] at h
            subst h
            have hr := ih xs rest hrest
            simp only [List.map_cons, List.prod_cons]
            have hmul : d.nBins * rest + d.nBins ≤ d.nBins * (ds.map MDHistoDimension.nBins).prod := by
              have : d.nBins * (rest + 1) ≤ d.nBins * (ds.map MDHistoDimension.nBins).prod :=
                Nat.mul_le_mul_left _ hr
              simpa [Nat.mul_add] using this
            omega

theorem find_map_of_mem (g : Nat → Cluster) (keys : List Nat) (key : Nat) (h : key ∈ keys) :
    ClusterMap.find (keys.map (fun l => (l, some (g l)))) key = some (some (g key)) := by
  unfold ClusterMap.find
  induction keys with
  | nil => cases h
  | cons k ks ih =>
    by_cases hk : k = key
    · subst hk
      simp [List.find?]
    · have hmem : key ∈ ks := by
        rcases List.mem_cons.mp h with h1 | h1
        · exact absurd h1.symm hk
        · exact h1
      have hne : (k == key) = false := by simp [hk]
      simp only [List.map_cons, List.find?, hne]
      exact ih hmem

theorem floor_natCast_toNat (r : Nat) : (Rat.floor (r : ℚ)).toNat = r := by
  rw [Rat.floor_def']
  simp

/-- With the labeler of the specification, every label read from the label image at or above
the start label id is a key of the cluster map holding its cluster. -/
theorem executeAndFetchClusters_resolves (ws : IMDHistoWorkspace)
    (strategy : HardThresholdBackground) (index : Nat) (v : ℚ)
    (hindex : index < ws.getNPoints)
    (hv : (executeAndFetchClusters ws strategy).1.getSignalAt index = some v)
    (hs : (startLabelId : ℚ) ≤ v) :
    ∃ cluster, (executeAndFetchClusters ws strategy).2.find (Rat.floor v).toNat =
      some (some cluster) := by
  have inv := forwardScan_invariant ws.shape
    (fun i => strategy.isBackground (ws.getSignalAt i)) ws.getNPoints
  rw [labelImage_getSignalAt ws strategy index hindex] at hv
  have hv' := Option.some.inj hv
  subst hv'
  rw [floor_natCast_toNat]
  have hpos : 1 ≤ (forwardScan ws.shape (fun i => strategy.isBackground (ws.getSignalAt i))
      ws.getNPoints).forest.root
        ((forwardScan ws.shape (fun i => strategy.isBackground (ws.getSignalAt i))
          ws.getNPoints).labels.getD index 0) := by
    have : ((startLabelId : Nat) : ℚ) ≤ _ := hs
    exact Nat.cast_le.mp this
  cases hb : strategy.isBackground (ws.getSignalAt index) with
  | true =>
    have h0 := inv.background index hindex hb
    rw [h0] at hpos
    have : (forwardScan ws.shape (fun i => strategy.isBackground (ws.getSignalAt i))
        ws.getNPoints).forest.root 0 = 0 := rfl
    omega
  | false =>
    have hrange := inv.foreground index hindex hb
    have hle := DisjointSetForest.root_le inv.ordered
      ((forwardScan ws.shape (fun i => strategy.isBackground (ws.getSignalAt i))
        ws.getNPoints).labels.getD index 0)
    have hcreated := (inv.created _).mpr ⟨hpos, by omega⟩
    have hroot := DisjointSetForest.root_root inv.ordered
      ((forwardScan ws.shape (fun i => strategy.isBackground (ws.getSignalAt i))
        ws.getNPoints).labels.getD index 0)
    simp only [executeAndFetchClusters]
    exact ⟨_, find_map_of_mem _ _ _ (List.mem_filter.mpr ⟨hcreated, beq_iff_eq.mpr hroot⟩)⟩

/-- With the collaborators of the specification no peak makes the loop body dereference a
null cluster pointer. -/
theorem specCollaborators_resolve (sqrt : ℚ → ℚ) (props : Properties) (t : PeakTransform) :
    ClustersResolve (specCollaborators sqrt) (labelImage (specCollaborators sqrt) props)
      (clusterMapOf (specCollaborators sqrt) props) t props.PeaksWorkspace := by
  intro peak _ c v _ hv hs
  have hv' : getSignalAtVMD (executeAndFetchClusters props.InputWorkspace
      (backgroundStrategy props)).1 c .NoNormalization = some v := hv
  unfold getSignalAtVMD at hv'
  cases hidx : linearIndexAt (executeAndFetchClusters props.InputWorkspace
      (backgroundStrategy props)).1.dimensions c with
  | none => simp [hidx] at hv'
  | some index =>
    simp only [hidx] at hv'
    have hlt := linearIndexAt_lt _ _ _ hidx
    exact executeAndFetchClusters_resolves props.InputWorkspace (backgroundStrategy props)
      index v hlt hv' hs

/-- With the collaborators of the specification a run on a declared coordinate system ends
without failure and emits both outputs. -/
theorem exec_specCollaborators_succeeds (sqrt : ℚ → ℚ) (props : Properties)
    (hcoord : props.InputWorkspace.coordinateSystem ≠ .None) :
    (exec (specCollaborators sqrt) props).failure = none ∧
    (exec (specCollaborators sqrt) props).OutputWorkspaceMD =
      some (labelImage (specCollaborators sqrt) props) ∧
    ∃ out, (exec (specCollaborators sqrt) props).OutputWorkspace = some out ∧
      out.length = props.PeaksWorkspace.length := by
  obtain ⟨f, hf⟩ := selectFactory_isSome hcoord
  have ht : createdTransform (specCollaborators sqrt) props =
      some (.ok { factory := f, xDim := props.InputWorkspace.dimensionName 0,
                  yDim := props.InputWorkspace.dimensionName 1 }) := by
    simp [createdTransform, hf, specCollaborators]
  rw [exec_eq_of_resolve _ props _ hcoord ht (specCollaborators_resolve sqrt props _)]
  exact ⟨rfl, rfl, _, rfl, by simp⟩


/-! ## One iteration of the per-peak loop -/

theorem getElem?_set_other (peaks : List Peak) (i j : Nat) (p : Peak) (h : j ≠ i) :
    (peaks.set i p)[j]? = peaks[j]? := by
  rw [List.getElem?_set]
  simp [Ne.symm h]

/-- C11: an iteration of the per-peak loop whose label lookup resolves does not end in
undefined behaviour, and when it completes it leaves the cluster map as it was (the lookup
`clusterMap[label]` inserts nothing), keeps the number of peaks, leaves every other peak as it
was and changes at most the intensity and sigma-intensity of peak `i`. The signal grid and the
label image are arguments the body only reads. -/
theorem peakBody_writes_only_own_peak (env : Collaborators)
    (mdWS outHistoWS : IMDHistoWorkspace) (t : PeakTransform) (i : Nat) (st : LoopState)
    (hres : ClustersResolve env outHistoWS st.clusterMap t st.peaks) :
    peakBody env mdWS outHistoWS t i st ≠ .error .undefined_behaviour ∧
    ∀ st', peakBody env mdWS outHistoWS t i st = .ok st' →
      st'.clusterMap = st.clusterMap ∧
      st'.peaks.length = st.peaks.length ∧
      (∀ j : Nat, j ≠ i → st'.peaks[j]? = st.peaks[j]?) ∧
      (∀ p p' : Peak, st.peaks[i]? = some p → st'.peaks[i]? = some p' →
        p'.qLab = p.qLab ∧ p'.qSample = p.qSample ∧ p'.hkl = p.hkl) := by
  unfold peakBody
  cases hp : st.peaks[i]? with
  | none =>
    simp only []
    refine ⟨by simp, ?_⟩
    intro st' h
    cases h
    exact ⟨rfl, rfl, fun _ _ => rfl, fun p _ h1 _ => by cases h1⟩
  | some peak =>
    simp only []
    cases htr : env.transformPeak t peak with
    | error e => simp
    | ok c =>
      simp only []
      cases hv : env.getSignalAtVMD outHistoWS c .NoNormalization with
      | none =>
        simp only []
        refine ⟨by simp, ?_⟩
        intro st' h
        cases h
        exact ⟨rfl, rfl, fun _ _ => rfl, fun p p' h1 h2 => by
          rw [hp] at h2; cases h1; cases h2; exact ⟨rfl, rfl, rfl⟩⟩
      | some v =>
        simp only []
        by_cases hs : (env.getStartLabelId : ℚ) ≤ v
        · obtain ⟨cluster, hc⟩ := hres peak (List.getElem?_mem hp) c v htr hv hs
          simp only [hs, if_true, ClusterMap.index_of_find hc]
          refine ⟨by simp, ?_⟩
          intro st' h
          cases h
          refine ⟨rfl, by simp, fun j hj => getElem?_set_other _ _ _ _ hj, ?_⟩
          intro p p' h1 h2
          cases h1
          have hlt : i < st.peaks.length := by
            by_contra hge
            rw [List.getElem?_eq_none (by omega)] at hp
            cases hp
          simp only [List.getElem?_set, hlt, if_true] at h2
          simp at h2
          subst h2
          exact ⟨rfl, rfl, rfl⟩
        · simp only [hs, if_false]
          refine ⟨by simp, ?_⟩
          intro st' h
          cases h
          exact ⟨rfl, rfl, fun _ _ => rfl, fun p p' h1 h2 => by
            rw [hp] at h2; cases h1; cases h2; exact ⟨rfl, rfl, rfl⟩⟩

set_option maxRecDepth 100000 in
theorem peakBody_writes_only_own_peak_witness :
    (peakBody (specCollaborators Rat.sqrt) blobWS blobImage blobTransform 0
        { peaks := [peakAt [5, 5, 0], peakAt [1, 1, 0]], clusterMap := blobClusterMap } ≠
      .error .undefined_behaviour ∧
      ∀ st', peakBody (specCollaborators Rat.sqrt) blobWS blobImage blobTransform 0
          { peaks := [peakAt [5, 5, 0], peakAt [1, 1, 0]], clusterMap := blobClusterMap } =
          .ok st' →
        st'.clusterMap = blobClusterMap ∧
        st'.peaks.length = 2 ∧
        (∀ j : Nat, j ≠ 0 → st'.peaks[j]? = [peakAt [5, 5, 0], peakAt [1, 1, 0]][j]?) ∧
        (∀ p p' : Peak, [peakAt [5, 5, 0], peakAt [1, 1, 0]][0]? = some p →
          st'.peaks[0]? = some p' →
          p'.qLab = p.qLab ∧ p'.qSample = p.qSample ∧ p'.hkl = p.hkl)) ∧
    (blobClusterMap.index 1).1 = blobClusterMap :=
  ⟨peakBody_writes_only_own_peak (specCollaborators Rat.sqrt) blobWS blobImage blobTransform 0
      { peaks := [peakAt [5, 5, 0], peakAt [1, 1, 0]], clusterMap := blobClusterMap }
      (resolve_blob _ _ rfl rfl (specCollaborators_transform Rat.sqrt) (by simp [peakAt])),
    by decide!⟩

/-- C12: for every coordinate system other than `None`, `exec` selects the factory of the
matching convention (`QLab`, `QSample`, `HKL`), so the factory pointer on which
`createTransform` is called is never null, and the transform of the run is created by that
factory from the names of the first two dimensions. -/
theorem exec_selects_matching_factory (env : Collaborators) (props : Properties)
    (hcoord : props.InputWorkspace.coordinateSystem ≠ .None) :
    selectFactory props.InputWorkspace.coordinateSystem ≠ none ∧
    (props.InputWorkspace.coordinateSystem = .QLab →
      selectFactory props.InputWorkspace.coordinateSystem =
        some .PeakTransformQLabFactory) ∧
    (props.InputWorkspace.coordinateSystem = .QSample →
      selectFactory props.InputWorkspace.coordinateSystem =
        some .PeakTransformQSampleFactory) ∧
    (props.InputWorkspace.coordinateSystem = .HKL →
      selectFactory props.InputWorkspace.coordinateSystem =
        some .PeakTransformHKLFactory) ∧
    ∃ factory, selectFactory props.InputWorkspace.coordinateSystem = some factory ∧
      createdTransform env props =
        some (env.createTransform factory (props.InputWorkspace.dimensionName 0)
          (props.InputWorkspace.dimensionName 1)) := by
  obtain ⟨f, hf⟩ := selectFactory_isSome hcoord
  refine ⟨by rw [hf]; simp, ?_, ?_, ?_, f, hf, by simp [createdTransform, hf]⟩
  · intro h; rw [h]; rfl
  · intro h; rw [h]; rfl
  · intro h; rw [h]; rfl

theorem exec_selects_matching_factory_witness :
    selectFactory blobWS.coordinateSystem = some .PeakTransformHKLFactory ∧
    createdTransform (specCollaborators Rat.sqrt) (blobProps [] 0) =
      some (.ok blobTransform) :=
  let h := exec_selects_matching_factory (specCollaborators Rat.sqrt) (blobProps [] 0)
    (by decide)
  ⟨h.2.2.2.1 rfl, rfl⟩

end Mantid

namespace MantidQt

namespace CustomInterfaces

theorem transmissionOptionsMap_eq :
    transmissionOptionsMap = transmissionOptionKeys.map (fun key => (key, "")) := by
  decide

/-- C19: for every view state the map returned by `getTransmissionOptions` has exactly the
eleven applicable options as keys, each once; an experiment option holds the view's value when
the experiment settings are enabled and the empty string otherwise, and likewise an instrument
option for the instrument settings. -/
theorem getTransmissionOptions_keys_and_values (m_view : IReflSettingsView) :
    (∀ key, key ∈ (getTransmissionOptions m_view).map Prod.fst ↔
      key ∈ transmissionOptionKeys) ∧
    ((getTransmissionOptions m_view).map Prod.fst).Nodup ∧
    transmissionOptionKeys.length = 11 ∧
    (∀ key value, (key, value) ∈
        [("AnalysisMode", m_view.getAnalysisMode), ("StartOverlap", m_view.getStartOverlap),
          ("EndOverlap", m_view.getEndOverlap)] →
      (getTransmissionOptions m_view).lookup key =
        some (if m_view.experimentSettingsEnabled then value else "")) ∧
    (∀ key value, (key, value) ∈
        [("MonitorIntegrationWavelengthMin", m_view.getMonitorIntegralMin),
          ("MonitorIntegrationWavelengthMax", m_view.getMonitorIntegralMax),
          ("MonitorBackgroundWavelengthMin", m_view.getMonitorBackgroundMin),
          ("MonitorBackgroundWavelengthMax", m_view.getMonitorBackgroundMax),
          ("WavelengthMin", m_view.getLambdaMin), ("WavelengthMax", m_view.getLambdaMax),
          ("I0MonitorIndex", m_view.getI0MonitorIndex),
          ("ProcessingInstructions", m_view.getProcessingInstructions)] →
      (getTransmissionOptions m_view).lookup key =
        some (if m_view.instrumentSettingsEnabled then value else "")) := by
  have hkeys : (getTransmissionOptions m_view).map Prod.fst = transmissionOptionKeys := by
    unfold getTransmissionOptions
    rw [transmissionOptionsMap_eq]
    cases m_view.experimentSettingsEnabled <;> cases m_view.instrumentSettingsEnabled <;>
      simp [setTransmissionOption, transmissionOptionKeys]
  refine ⟨fun key => by rw [hkeys], by rw [hkeys]; decide, rfl, ?_, ?_⟩
  · intro key value hmem
    unfold getTransmissionOptions
    rw [transmissionOptionsMap_eq]
    simp only [List.mem_cons, Prod.mk.injEq, List.mem_singleton, List.not_mem_nil,
      or_false] at hmem
    rcases hmem with h | h | h <;> obtain ⟨hkey, hvalue⟩ := h <;> subst hkey hvalue <;>
      cases m_view.experimentSettingsEnabled <;> cases m_view.instrumentSettingsEnabled <;>
      simp [setTransmissionOption, transmissionOptionKeys, OptionsQMap.lookup, List.find?]
  · intro key value hmem
    unfold getTransmissionOptions
    rw [transmissionOptionsMap_eq]
    simp only [List.mem_cons, Prod.mk.injEq, List.mem_singleton, List.not_mem_nil,
      or_false] at hmem
    rcases hmem with h | h | h | h | h | h | h | h <;> obtain ⟨hkey, hvalue⟩ := h <;>
      subst hkey hvalue <;>
      cases m_view.experimentSettingsEnabled <;> cases m_view.instrumentSettingsEnabled <;>
      simp [setTransmissionOption, transmissionOptionKeys, OptionsQMap.lookup, List.find?]

theorem getTransmissionOptions_example :
    getTransmissionOptions exampleView =
      [("AnalysisMode", "PointDetectorAnalysis"), ("StartOverlap", "10"), ("EndOverlap", "12"),
        ("MonitorIntegrationWavelengthMin", ""), ("MonitorIntegrationWavelengthMax", ""),
        ("MonitorBackgroundWavelengthMin", ""), ("MonitorBackgroundWavelengthMax", ""),
        ("WavelengthMin", ""), ("WavelengthMax", ""), ("I0MonitorIndex", ""),
        ("ProcessingInstructions", "")] := by
  decide

end CustomInterfaces

end MantidQt

namespace Mantid

namespace DataHandling

/-! ## The monitor spectrum list -/

theorem uniqueAfter_spec (l : List Int) : ∀ kept : Int, (kept :: l).Sorted (· ≤ ·) →
    (kept :: uniqueAfter kept l).Sorted (· < ·) ∧
    ∀ x, x ∈ kept :: uniqueAfter kept l ↔ x ∈ kept :: l := by
  induction l with
  | nil => intro kept _; simp [uniqueAfter, List.Sorted]
  | cons b rest ih =>
    intro kept hs
    have hs' : (b :: rest).Sorted (· ≤ ·) := List.Sorted.of_cons hs
    have hkb : kept ≤ b := List.rel_of_sorted_cons hs b (List.mem_cons_self _ _)
    unfold uniqueAfter
    by_cases h : kept = b
    · subst h
      rw [if_pos rfl]
      obtain ⟨h1, h2⟩ := ih kept hs'
      refine ⟨h1, fun x => ?_⟩
      rw [h2]
      simp
    · rw [if_neg h]
      obtain ⟨h1, h2⟩ := ih b hs'
      have hlt : kept < b := lt_of_le_of_ne hkb h
      refine ⟨?_, fun x => ?_⟩
      · apply List.sorted_cons.mpr
        refine ⟨fun y hy => ?_, h1⟩
        rcases List.mem_cons.mp hy with rfl | hy'
        · exact hlt
        · exact lt_trans hlt (List.rel_of_sorted_cons h1 y hy')
      · rw [List.mem_cons, h2]
        simp

theorem unique_spec (l : List Int) (hs : l.Sorted (· ≤ ·)) :
    (unique l).Sorted (· < ·) ∧ ∀ x, x ∈ unique l ↔ x ∈ l := by
  cases l with
  | nil => simp [unique]
  | cons a rest => exact uniqueAfter_spec rest a hs

/-- C20: with a non-empty monitor detector list the output of `getmonitorSpectrumList` is
strictly increasing, contains no 0 and holds exactly the non-zero values of the spectra mapped
to the monitor detectors; with an empty list the output vector is left as it was. -/
theorem getmonitorSpectrumList_sorted_unique_nonzero (m_monitordetectorList : List Int)
    (getSpectra : List Int → List Int) (monitorSpecList : List Int) :
    (m_monitordetectorList ≠ [] →
      (getmonitorSpectrumList m_monitordetectorList getSpectra monitorSpecList).Sorted
        (· < ·) ∧
      (0 : Int) ∉ getmonitorSpectrumList m_monitordetectorList getSpectra monitorSpecList ∧
      ∀ x, x ∈ getmonitorSpectrumList m_monitordetectorList getSpectra monitorSpecList ↔
        (x ∈ getSpectra m_monitordetectorList ∧ x ≠ 0)) ∧
    (m_monitordetectorList = [] →
      getmonitorSpectrumList m_monitordetectorList getSpectra monitorSpecList =
        monitorSpecList) := by
  constructor
  · intro hne
    have hempty : m_monitordetectorList.isEmpty = false := by
      cases m_monitordetectorList with
      | nil => exact absurd rfl hne
      | cons _ _ => rfl
    have hrun : getmonitorSpectrumList m_monitordetectorList getSpectra monitorSpecList =
        (unique ((getSpectra m_monitordetectorList).insertionSort (· ≤ ·))).erase 0 := by
      simp [getmonitorSpectrumList, hempty]
    rw [hrun]
    obtain ⟨hs, hm⟩ := unique_spec _
      (List.sorted_insertionSort (· ≤ ·) (getSpectra m_monitordetectorList))
    have hnd : (unique ((getSpectra m_monitordetectorList).insertionSort (· ≤ ·))).Nodup :=
      hs.nodup
    refine ⟨hs.sublist (List.erase_sublist _ _), ?_, fun x => ?_⟩
    · intro h0
      exact ((hnd.mem_erase_iff).mp h0).1 rfl
    · rw [hnd.mem_erase_iff, hm, (List.perm_insertionSort _ _).mem_iff]
      exact and_comm
  · intro he
    subst he
    rfl

theorem getmonitorSpectrumList_example :
    getmonitorSpectrumList [11, 12, 13, 14] (fun _ => [3, 0, 2, 3, 0, 2]) [7] = [2, 3] ∧
    getmonitorSpectrumList [] (fun _ => [3, 0, 2, 3, 0, 2]) [7] = [7] := by
  decide

end DataHandling


namespace CurveFitting

/-! ## The variances of `addFunctionValuesToWS` -/

theorem index_in_store (nData nParams k i : Nat) (hk : k < nData) (hi : i < nParams) :
    k * nParams + i < (SimpleJacobian.create nData nParams).m_data.length := by
  simp only [SimpleJacobian.create, List.length_replicate]
  calc k * nParams + i < k * nParams + nParams := by omega
    _ = (k + 1) * nParams := by ring
    _ ≤ nData * nParams := Nat.mul_le_mul_right _ hk

/-- What `set` stores at a place of the store, `get` reads there. -/
theorem get_set (J : SimpleJacobian) (iY iP : Nat) (value : ℚ)
    (h : iY * J.m_nParams + iP < J.m_data.length) :
    (J.set iY iP value).get iY iP = value := by
  simp [SimpleJacobian.get, SimpleJacobian.set, List.getD_eq_getElem?_getD, h]

end CurveFitting


namespace CurveFitting

/-! ## The fitting interval of `getXInterval` -/

theorem takeWhile_length_lt_iff (p : ℚ → Bool) : ∀ (l : List ℚ),
    l.Pairwise (fun a b => p b = true → p a = true) →
    ∀ (i : Nat) (h : i < l.length), i < (l.takeWhile p).length ↔ p l[i] = true := by
  intro l
  induction l with
  | nil => intro _ i h; exact absurd h (Nat.not_lt_zero _)
  | cons a l ih =>
    intro hpw i h
    rw [List.pairwise_cons] at hpw
    by_cases hpa : p a = true
    · rw [List.takeWhile_cons_of_pos hpa]
      cases i with
      | zero => simp [hpa]
      | succ i =>
        simp only [List.length_cons, Nat.add_lt_add_iff_right, List.getElem_cons_succ]
        exact ih hpw.2 i (by simpa using h)
    · rw [List.takeWhile_cons_of_neg hpa]
      simp only [List.length_nil, Nat.not_lt_zero, false_iff]
      cases i with
      | zero => simpa using hpa
      | succ i =>
        simp only [List.getElem_cons_succ]
        intro hpi
        exact hpa (hpw.1 _ (List.getElem_mem _) hpi)

theorem takeWhile_length_le (p : ℚ → Bool) (l : List ℚ) :
    (l.takeWhile p).length ≤ l.length :=
  (List.takeWhile_sublist p).length_le

theorem bounds_select (l : List ℚ) (p q : ℚ → Bool)
    (hp : l.Pairwise (fun a b => p b = true → p a = true))
    (hq : l.Pairwise (fun a b => q b = true → q a = true)) :
    (l.takeWhile p).length + ((l.drop (l.takeWhile p).length).takeWhile q).length ≤
      l.length ∧
    ∀ (i : Nat) (h : i < l.length),
      ((l.takeWhile p).length ≤ i ∧
        i < (l.takeWhile p).length +
          ((l.drop (l.takeWhile p).length).takeWhile q).length) ↔
      (p l[i] = false ∧ q l[i] = true) := by
  have hfirst := takeWhile_length_le p l
  have hlast := takeWhile_length_le q (l.drop (l.takeWhile p).length)
  rw [List.length_drop] at hlast
  refine ⟨by omega, fun i h => ?_⟩
  have h1 := takeWhile_length_lt_iff p l hp i h
  by_cases hi : (l.takeWhile p).length ≤ i
  · have hpi : p l[i] = false := by
      cases hpv : p l[i] with
      | false => rfl
      | true => exact absurd (h1.mpr hpv) (by omega)
    have hdl : i - (l.takeWhile p).length < (l.drop (l.takeWhile p).length).length := by
      rw [List.length_drop]; omega
    have h2 := takeWhile_length_lt_iff q (l.drop (l.takeWhile p).length)
      (hq.sublist (List.drop_sublist _ _)) (i - (l.takeWhile p).length) hdl
    have hget : (l.drop (l.takeWhile p).length)[i - (l.takeWhile p).length] = l[i] := by
      rw [List.getElem_drop]
      congr 1
      omega
    rw [hget] at h2
    constructor
    · rintro ⟨_, hlt⟩
      exact ⟨hpi, h2.mp (by omega)⟩
    · rintro ⟨_, hqi⟩
      have := h2.mpr hqi
      exact ⟨hi, by omega⟩
  · have hpi : p l[i] = true := h1.mp (by omega)
    constructor
    · rintro ⟨hle, _⟩
      exact absurd hle hi
    · rintro ⟨hpf, _⟩
      rw [hpi] at hpf
      cases hpf

theorem rel_getLastD (r : ℚ → ℚ → Prop) (hrefl : ∀ a, r a a)
    (htrans : ∀ a b c, r a b → r b c → r a c) : ∀ (l : List ℚ) (d : ℚ),
    (d :: l).Pairwise r → ∀ x ∈ d :: l, r x (l.getLastD d) := by
  intro l
  induction l with
  | nil =>
    intro d _ x hx
    rw [List.mem_singleton] at hx
    subst hx
    exact hrefl _
  | cons b t ih =>
    intro d hpw x hx
    rw [List.getLastD_cons]
    rw [List.pairwise_cons] at hpw
    rcases List.mem_cons.mp hx with rfl | hx'
    · exact htrans _ _ _ (hpw.1 b (List.mem_cons_self _ _)) (ih b hpw.2 b (List.mem_cons_self _ _))
    · exact ih b hpw.2 x hx'

/-- Data sorted upwards whose first value is not below its last is constant, so also sorted
downwards. -/
theorem sorted_ge_of_constant (a : ℚ) (t : List ℚ) (hs : (a :: t).Sorted (· ≤ ·))
    (hback : ¬ a < t.getLastD a) : (a :: t).Sorted (· ≥ ·) := by
  have hle := rel_getLastD (· ≤ ·) (fun _ => le_refl _) (fun _ _ _ => le_trans) t a hs
  have hconst : ∀ x ∈ a :: t, x = a := by
    intro x hx
    have h1 : x ≤ t.getLastD a := hle x hx
    have h2 : a ≤ x := by
      rcases List.mem_cons.mp hx with rfl | hx'
      · exact le_refl _
      · exact List.rel_of_sorted_cons hs x hx'
    have h3 : t.getLastD a ≤ a := not_lt.mp hback
    exact le_antisymm (le_trans h1 h3) h2
  unfold List.Sorted
  rw [List.pairwise_iff_forall_sublist]
  intro x y hxy
  have hx : x ∈ a :: t := hxy.subset (List.mem_cons_self _ _)
  have hy : y ∈ a :: t := hxy.subset (List.mem_cons_of_mem _ (List.mem_singleton_self _))
  rw [hconst x hx, hconst y hy]

/-- What `getXInterval` does with monotone data when both `StartX` and `EndX` are given: the
bounds `first` and `last` enclose exactly the rows whose X value lies in the closed range, and
the call returns them unless the interval is empty. -/
theorem getXInterval_both_given (env : Environment) (c c' : TableWorkspaceDomainCreator)
    (table : ITableWorkspace) (XData : List ℚ)
    (htable : c.m_tableWorkspace = some table)
    (hX : table.getColumn c.m_xColumnIndex = some XData)
    (hdata : XData ≠ [])
    (hpar : setParameters env c = .ok c')
    (hmono : XData.Sorted (· ≤ ·) ∨ XData.Sorted (· ≥ ·))
    (hstart : c'.m_startX ≠ env.EMPTY_DBL) (hend : c'.m_endX ≠ env.EMPTY_DBL) :
    ∃ (first last : Nat) (c'' : TableWorkspaceDomainCreator),
      last ≤ XData.length ∧
      (∀ (i : Nat) (h : i < XData.length), (first ≤ i ∧ i < last) ↔
        (min c'.m_startX c'.m_endX ≤ XData[i] ∧ XData[i] ≤ max c'.m_startX c'.m_endX)) ∧
      getXInterval env c =
        if last - first = 0 then
          .error (.invalid_argument
            ("StartX and EndX values do not capture a range " ++
              "within the workspace interval."))
        else .ok ((first, last), c'') := by
  obtain ⟨a, t, rfl⟩ : ∃ a t, XData = a :: t := by
    cases XData with
    | nil => exact absurd rfl hdata
    | cons a t => exact ⟨a, t, rfl⟩
  have hlen : ¬ (a :: t).length = 0 := by simp
  have hnot1 : ¬ (c'.m_startX = env.EMPTY_DBL ∧ c'.m_endX = env.EMPTY_DBL) :=
    fun h => hstart h.1
  have hnot2 : ¬ (c'.m_startX = env.EMPTY_DBL ∨ c'.m_endX = env.EMPTY_DBL) :=
    fun h => h.elim hstart hend
  unfold getXInterval
  simp only [htable, hX, hpar, if_neg hlen, if_neg hnot1, if_neg hnot2, List.headD_cons,
    List.getLastD_cons]
  by_cases hasc : a < t.getLastD a
  · -- ascending
    have hs : (a :: t).Sorted (· ≤ ·) := by
      rcases hmono with h | h
      · exact h
      · have := rel_getLastD (· ≥ ·) (fun _ => le_refl _) (fun _ _ _ h1 h2 => le_trans h2 h1)
          t a h a (List.mem_cons_self _ _)
        exact absurd hasc (not_lt.mpr this)
    simp only [hasc, decide_True, if_true]
    have key : ∀ lo hi : ℚ, lo ≤ hi →
        upper_bound (a :: t) (lower_bound (a :: t) lo less) hi less ≤ (a :: t).length ∧
        ∀ (i : Nat) (h : i < (a :: t).length),
          (lower_bound (a :: t) lo less ≤ i ∧
            i < upper_bound (a :: t) (lower_bound (a :: t) lo less) hi less) ↔
          (lo ≤ (a :: t)[i] ∧ (a :: t)[i] ≤ hi) := by
      intro lo hi _
      have hb := bounds_select (a :: t) (fun element => less element lo)
        (fun element => !less hi element)
        (hs.imp (fun {x y} hxy hy => by
          simp only [less, decide_eq_true_eq] at hy ⊢
          exact lt_of_le_of_lt hxy hy))
        (hs.imp (fun {x y} hxy hy => by
          simp only [less, Bool.not_eq_true', decide_eq_false_iff_not, not_lt] at hy ⊢
          exact le_trans hxy hy))
      refine ⟨hb.1, fun i h => ?_⟩
      have := hb.2 i h
      simp only [less, decide_eq_false_iff_not, not_lt, Bool.not_eq_true'] at this
      exact this
    by_cases hswap : c'.m_startX > c'.m_endX
    · simp only [hswap, if_true]
      have hk := key c'.m_endX c'.m_startX (le_of_lt hswap)
      rw [min_eq_right (le_of_lt hswap), max_eq_left (le_of_lt hswap)]
      exact ⟨_, _, _, hk.1, hk.2, rfl⟩
    · simp only [hswap, if_false]
      have hle : c'.m_startX ≤ c'.m_endX := not_lt.mp hswap
      have hk := key c'.m_startX c'.m_endX hle
      rw [min_eq_left hle, max_eq_right hle]
      exact ⟨_, _, _, hk.1, hk.2, rfl⟩
  · -- descending
    have hs : (a :: t).Sorted (· ≥ ·) := by
      rcases hmono with h | h
      · exact sorted_ge_of_constant a t h hasc
      · exact h
    simp only [hasc, decide_False, Bool.false_eq_true, if_false]
    have key : ∀ lo hi : ℚ, lo ≤ hi →
        upper_bound (a :: t) (lower_bound (a :: t) hi greaterIsLess) lo greaterIsLess ≤
          (a :: t).length ∧
        ∀ (i : Nat) (h : i < (a :: t).length),
          (lower_bound (a :: t) hi greaterIsLess ≤ i ∧
            i < upper_bound (a :: t) (lower_bound (a :: t) hi greaterIsLess) lo
              greaterIsLess) ↔
          (lo ≤ (a :: t)[i] ∧ (a :: t)[i] ≤ hi) := by
      intro lo hi _
      have hb := bounds_select (a :: t) (fun element => greaterIsLess element hi)
        (fun element => !greaterIsLess lo element)
        (hs.imp (fun {x y} hxy hy => by
          simp only [greaterIsLess, gt_iff_lt, decide_eq_true_eq] at hy ⊢
          exact lt_of_lt_of_le hy hxy))
        (hs.imp (fun {x y} hxy hy => by
          simp only [greaterIsLess, gt_iff_lt, Bool.not_eq_true', decide_eq_false_iff_not,
            not_lt] at hy ⊢
          exact le_trans hy hxy))
      refine ⟨hb.1, fun i h => ?_⟩
      have := hb.2 i h
      simp only [greaterIsLess, gt_iff_lt, decide_eq_false_iff_not, not_lt,
        Bool.not_eq_true'] at this
      rw [and_comm (a := lo ≤ _)]
      exact this
    by_cases hswap : c'.m_startX < c'.m_endX
    · simp only [hswap, if_true]
      have hk := key c'.m_startX c'.m_endX (le_of_lt hswap)
      rw [min_eq_left (le_of_lt hswap), max_eq_right (le_of_lt hswap)]
      exact ⟨_, _, _, hk.1, hk.2, rfl⟩
    · simp only [hswap, if_false]
      have hle : c'.m_endX ≤ c'.m_startX := not_lt.mp hswap
      have hk := key c'.m_endX c'.m_startX hle
      rw [min_eq_right hle, max_eq_left hle]
      exact ⟨_, _, _, hk.1, hk.2, rfl⟩

end CurveFitting


namespace CurveFitting

theorem wrapPoints_isSome_of_even : ∀ (exclude : List ℚ), exclude.length % 2 = 0 →
    (wrapPoints exclude).isSome = true
  | [], _ => rfl
  | [_], h => by simp at h
  | _ :: _ :: rest, h => by
    have hrest : rest.length % 2 = 0 := by
      simp only [List.length_cons] at h
      omega
    have := wrapPoints_isSome_of_even rest hrest
    simp only [wrapPoints, Option.isSome_map']
    exact this

/-- C15, as the code has it: for non-empty monotone X data, when both `StartX` and `EndX` are
given, in either order, and at least one row has its X value in the closed range between
them, `getXInterval` returns row indices `(first, last)` with `first < last` such that the
rows `first .. last - 1` are exactly the rows whose X value lies in that range; when both are
given and no row has its X value in that range it returns no indices and raises
`invalid_argument`; when neither is given it returns `(0, number of rows)` and sets `StartX`
and `EndX` to the first and the last X value. -/
theorem getXInterval_selects_rows_in_range (env : Environment)
    (c c' : TableWorkspaceDomainCreator) (table : ITableWorkspace) (XData : List ℚ)
    (htable : c.m_tableWorkspace = some table)
    (hX : table.getColumn c.m_xColumnIndex = some XData)
    (hdata : XData ≠ [])
    (hpar : setParameters env c = .ok c')
    (hmono : XData.Sorted (· ≤ ·) ∨ XData.Sorted (· ≥ ·)) :
    (c'.m_startX ≠ env.EMPTY_DBL → c'.m_endX ≠ env.EMPTY_DBL →
      (∃ x ∈ XData, min c'.m_startX c'.m_endX ≤ x ∧ x ≤ max c'.m_startX c'.m_endX) →
      ∃ (first last : Nat) (c'' : TableWorkspaceDomainCreator),
        getXInterval env c = .ok ((first, last), c'') ∧
        first < last ∧ last ≤ XData.length ∧
        ∀ (i : Nat) (h : i < XData.length), (first ≤ i ∧ i < last) ↔
          (min c'.m_startX c'.m_endX ≤ XData[i] ∧
            XData[i] ≤ max c'.m_startX c'.m_endX)) ∧
    (c'.m_startX ≠ env.EMPTY_DBL → c'.m_endX ≠ env.EMPTY_DBL →
      (¬ ∃ x ∈ XData, min c'.m_startX c'.m_endX ≤ x ∧ x ≤ max c'.m_startX c'.m_endX) →
      getXInterval env c =
        .error (.invalid_argument
          "StartX and EndX values do not capture a range within the workspace interval.")) ∧
    (c'.m_startX = env.EMPTY_DBL → c'.m_endX = env.EMPTY_DBL →
      getXInterval env c = .ok ((0, XData.length),
        { c' with m_startX := XData.headD 0, m_endX := XData.getLastD 0 })) := by
  refine ⟨?_, ?_, ?_⟩
  · intro hstart hend ⟨x, hx, hin⟩
    obtain ⟨first, last, c'', hlast, hrows, hres⟩ :=
      getXInterval_both_given env c c' table XData htable hX hdata hpar hmono hstart hend
    obtain ⟨i, hi, rfl⟩ := List.getElem_of_mem hx
    have hi' := (hrows i hi).mpr hin
    have hne : ¬ last - first = 0 := by omega
    rw [if_neg hne] at hres
    exact ⟨first, last, c'', hres, by omega, hlast, hrows⟩
  · intro hstart hend hnone
    obtain ⟨first, last, c'', hlast, hrows, hres⟩ :=
      getXInterval_both_given env c c' table XData htable hX hdata hpar hmono hstart hend
    have hzero : last - first = 0 := by
      by_contra hne
      have hlt : first < last := by omega
      exact hnone ⟨XData[first], List.getElem_mem _,
        (hrows first (by omega)).mp ⟨le_refl _, hlt⟩⟩
    rw [hres, if_pos hzero]
    rfl
  · intro hstart hend
    have hlen : ¬ XData.length = 0 := by
      cases XData with
      | nil => exact absurd rfl hdata
      | cons _ _ => simp
    have hne : ¬ XData.length - 0 = 0 := by omega
    unfold getXInterval
    simp only [htable, hX, hpar, if_neg hlen, hstart, hend, and_self, if_true]
    rw [if_neg hne]

set_option maxRecDepth 100000 in
theorem getXInterval_selects_rows_in_range_witness :
    (∃ (first last : Nat) (c'' : TableWorkspaceDomainCreator),
      getXInterval exampleEnvironment (creatorOn descendingTable 2 4) =
        .ok ((first, last), c'') ∧
      first < last ∧ last ≤ [(5 : ℚ), 4, 2, 1].length ∧
      ∀ (i : Nat) (h : i < [(5 : ℚ), 4, 2, 1].length), (first ≤ i ∧ i < last) ↔
        (min (creatorOn descendingTable 2 4).m_startX (creatorOn descendingTable 2 4).m_endX
            ≤ [(5 : ℚ), 4, 2, 1][i] ∧
          [(5 : ℚ), 4, 2, 1][i] ≤
            max (creatorOn descendingTable 2 4).m_startX
              (creatorOn descendingTable 2 4).m_endX)) ∧
    getXInterval exampleEnvironment (creatorOn descendingTable 2 4) =
      .ok ((1, 3), creatorOn descendingTable 4 2) ∧
    getXInterval exampleEnvironment (creatorOn descendingTable 7 9) =
      .error (.invalid_argument
        "StartX and EndX values do not capture a range within the workspace interval.") ∧
    getXInterval exampleEnvironment
        (creatorOn descendingTable exampleEnvironment.EMPTY_DBL
          exampleEnvironment.EMPTY_DBL) =
      .ok ((0, 4), creatorOn descendingTable 5 1) :=
  ⟨(getXInterval_selects_rows_in_range exampleEnvironment (creatorOn descendingTable 2 4)
      (creatorOn descendingTable 2 4) descendingTable [5, 4, 2, 1] rfl rfl (by simp) rfl
      (Or.inr (by decide!))).1 (by decide!) (by decide!)
      ⟨2, by simp, by decide!, by decide!⟩,
    rfl,
    (getXInterval_selects_rows_in_range exampleEnvironment (creatorOn descendingTable 7 9)
      (creatorOn descendingTable 7 9) descendingTable [5, 4, 2, 1] rfl rfl (by simp) rfl
      (Or.inr (by decide!))).2.1 (by decide!) (by decide!) (by decide!),
    (getXInterval_selects_rows_in_range exampleEnvironment
      (creatorOn descendingTable exampleEnvironment.EMPTY_DBL exampleEnvironment.EMPTY_DBL)
      (creatorOn descendingTable exampleEnvironment.EMPTY_DBL exampleEnvironment.EMPTY_DBL)
      descendingTable [5, 4, 2, 1] rfl rfl (by simp) rfl (Or.inr (by decide!))).2.2 rfl rfl⟩

theorem getDomainSize_example :
    (getDomainSize exampleEnvironment
      (managedCreator exampleEnvironment (managerWith [1, 2, 2, 3] 2 5))).toOption.map
        Prod.fst = some 3 := by
  decide!

set_option maxRecDepth 100000 in
/-- A run against C15 as it is worded: the X data 5, 4, 2, 1 are descending and both `StartX`
and `EndX` are given as 3, yet `getXInterval` returns no row indices: it raises
`invalid_argument`. -/
theorem getXInterval_raises_without_rows :
    descendingTable.getColumn (creatorOn descendingTable 3 3).m_xColumnIndex =
      some [5, 4, 2, 1] ∧
    [(5 : ℚ), 4, 2, 1].Sorted (· ≥ ·) ∧
    (creatorOn descendingTable 3 3).m_startX ≠ exampleEnvironment.EMPTY_DBL ∧
    (creatorOn descendingTable 3 3).m_endX ≠ exampleEnvironment.EMPTY_DBL ∧
    getXInterval exampleEnvironment (creatorOn descendingTable 3 3) =
      .error (.invalid_argument
        "StartX and EndX values do not capture a range within the workspace interval.") :=
  ⟨rfl, by decide!, by decide!, by decide!, rfl⟩

end CurveFitting


namespace CurveFitting

/-- C16, as the code has it: with non-empty ascending X data and both `StartX` and `EndX`
given, `getXInterval` raises the `invalid_argument` about the range exactly when no X value
lies in the closed range between `StartX` and `EndX`; so it does when both are below the
first (least) X value or both above the last (greatest) one, and also when the range falls
between two neighbouring X values. -/
theorem getXInterval_raises_iff_no_row_in_range (env : Environment)
    (c c' : TableWorkspaceDomainCreator) (table : ITableWorkspace) (XData : List ℚ)
    (htable : c.m_tableWorkspace = some table)
    (hX : table.getColumn c.m_xColumnIndex = some XData)
    (hdata : XData ≠ [])
    (hpar : setParameters env c = .ok c')
    (hasc : XData.Sorted (· ≤ ·))
    (hstart : c'.m_startX ≠ env.EMPTY_DBL) (hend : c'.m_endX ≠ env.EMPTY_DBL) :
    (getXInterval env c =
        .error (.invalid_argument
          "StartX and EndX values do not capture a range within the workspace interval.") ↔
      ¬ ∃ x ∈ XData, min c'.m_startX c'.m_endX ≤ x ∧ x ≤ max c'.m_startX c'.m_endX) ∧
    ((c'.m_startX < XData.headD 0 ∧ c'.m_endX < XData.headD 0) ∨
        (XData.getLastD 0 < c'.m_startX ∧ XData.getLastD 0 < c'.m_endX) →
      getXInterval env c =
        .error (.invalid_argument
          "StartX and EndX values do not capture a range within the workspace interval."))
    := by
  obtain ⟨first, last, c'', hlast, hrows, hres⟩ :=
    getXInterval_both_given env c c' table XData htable hX hdata hpar (Or.inl hasc)
      hstart hend
  have hmsg : "StartX and EndX values do not capture a range " ++
      "within the workspace interval." =
      "StartX and EndX values do not capture a range within the workspace interval." := by
    decide
  rw [hmsg] at hres
  have hiff : getXInterval env c =
        .error (.invalid_argument
          "StartX and EndX values do not capture a range within the workspace interval.") ↔
      ¬ ∃ x ∈ XData, min c'.m_startX c'.m_endX ≤ x ∧ x ≤ max c'.m_startX c'.m_endX := by
    constructor
    · intro herr ⟨x, hx, hin⟩
      obtain ⟨i, hi, rfl⟩ := List.getElem_of_mem hx
      have hi' := (hrows i hi).mpr hin
      have hne : ¬ last - first = 0 := by omega
      rw [hres, if_neg hne] at herr
      cases herr
    · intro hnone
      have hzero : last - first = 0 := by
        by_contra hne
        have hlt : first < last := by omega
        exact hnone ⟨XData[first], List.getElem_mem _,
          (hrows first (by omega)).mp ⟨le_refl _, hlt⟩⟩
      rw [hres, if_pos hzero]
  refine ⟨hiff, fun hout => hiff.mpr ?_⟩
  rintro ⟨x, hx, hlo, hhi⟩
  obtain ⟨a, t, rfl⟩ : ∃ a t, XData = a :: t := by
    cases XData with
    | nil => exact absurd rfl hdata
    | cons a t => exact ⟨a, t, rfl⟩
  have hhead : a ≤ x := by
    rcases List.mem_cons.mp hx with rfl | hx'
    · exact le_refl _
    · exact List.rel_of_sorted_cons hasc x hx'
  have hback : x ≤ t.getLastD a :=
    rel_getLastD (· ≤ ·) (fun _ => le_refl _) (fun _ _ _ => le_trans) t a hasc x hx
  simp only [List.headD_cons, List.getLastD_cons] at hout
  rcases hout with ⟨h1, h2⟩ | ⟨h1, h2⟩
  · have : max c'.m_startX c'.m_endX < a := max_lt h1 h2
    exact absurd (lt_of_le_of_lt (le_trans hhead hhi) this) (lt_irrefl _)
  · have : t.getLastD a < min c'.m_startX c'.m_endX := lt_min h1 h2
    exact absurd (lt_of_lt_of_le this (le_trans hlo hback)) (lt_irrefl _)

set_option maxRecDepth 100000 in
theorem getXInterval_raises_iff_no_row_in_range_witness :
    ((getXInterval exampleEnvironment (creatorOn exampleTable 7 9) =
        .error (.invalid_argument
          "StartX and EndX values do not capture a range within the workspace interval.") ↔
      ¬ ∃ x ∈ [(1 : ℚ), 2, 4, 5],
        min (creatorOn exampleTable 7 9).m_startX (creatorOn exampleTable 7 9).m_endX ≤ x ∧
        x ≤ max (creatorOn exampleTable 7 9).m_startX (creatorOn exampleTable 7 9).m_endX) ∧
    ((creatorOn exampleTable 7 9).m_startX < [(1 : ℚ), 2, 4, 5].headD 0 ∧
        (creatorOn exampleTable 7 9).m_endX < [(1 : ℚ), 2, 4, 5].headD 0 ∨
        [(1 : ℚ), 2, 4, 5].getLastD 0 < (creatorOn exampleTable 7 9).m_startX ∧
        [(1 : ℚ), 2, 4, 5].getLastD 0 < (creatorOn exampleTable 7 9).m_endX →
      getXInterval exampleEnvironment (creatorOn exampleTable 7 9) =
        .error (.invalid_argument
          "StartX and EndX values do not capture a range within the workspace interval."))) ∧
    getXInterval exampleEnvironment (creatorOn exampleTable 7 9) =
      .error (.invalid_argument
        "StartX and EndX values do not capture a range within the workspace interval.") :=
  ⟨getXInterval_raises_iff_no_row_in_range exampleEnvironment (creatorOn exampleTable 7 9)
      (creatorOn exampleTable 7 9) exampleTable [1, 2, 4, 5] rfl rfl (by simp) rfl
      (by decide!) (by decide!) (by decide!),
    rfl⟩

set_option maxRecDepth 100000 in
/-- A run against C16 as it is worded: the X data 1, 2, 4, 5 are ascending, `StartX = 3` and
`EndX = 3` are neither both below the least X value 1 nor both above the greatest X value 5,
yet `getXInterval` raises the `invalid_argument` about the range. -/
theorem getXInterval_raises_between_rows :
    exampleTable.getColumn (creatorOn exampleTable 3 3).m_xColumnIndex =
      some [1, 2, 4, 5] ∧
    [(1 : ℚ), 2, 4, 5].Sorted (· ≤ ·) ∧
    (creatorOn exampleTable 3 3).m_startX ≠ exampleEnvironment.EMPTY_DBL ∧
    (creatorOn exampleTable 3 3).m_endX ≠ exampleEnvironment.EMPTY_DBL ∧
    ¬ ((3 : ℚ) < 1 ∧ (3 : ℚ) < 1) ∧
    ¬ ((5 : ℚ) < 3 ∧ (5 : ℚ) < 3) ∧
    getXInterval exampleEnvironment (creatorOn exampleTable 3 3) =
      .error (.invalid_argument
        "StartX and EndX values do not capture a range within the workspace interval.") :=
  ⟨rfl, by decide!, by decide!, by decide!, by decide!, by decide!, rfl⟩

/-! ## The `Exclude` property in `setParameters` -/

/-- C17: with a property manager set and a workspace that `setAndValidateWorkspace` accepts,
`setParameters` raises `runtime_error` when the `Exclude` property has an odd number of
entries; unless it raises that error the number of entries is even, and then the loop of
`joinOverlappingRanges` that reads them two at a time stays within the vector. -/
theorem setParameters_rejects_odd_exclude (env : Environment)
    (c c1 : TableWorkspaceDomainCreator) (manager : IPropertyManager)
    (hmanager : c.m_manager = some manager)
    (hvalid : setAndValidateWorkspace env c manager.workspace = .ok c1) :
    (manager.exclude.length % 2 ≠ 0 →
      setParameters env c =
        .error (.runtime_error
          ("Exclude property has an odd number of entries. " ++
            "It has to be even as each pair specifies a " ++
            "start and an end of an interval to exclude."))) ∧
    (setParameters env c ≠
        .error (.runtime_error
          ("Exclude property has an odd number of entries. " ++
            "It has to be even as each pair specifies a " ++
            "start and an end of an interval to exclude.")) →
      manager.exclude.length % 2 = 0 ∧ (wrapPoints manager.exclude).isSome = true) := by
  have hodd : manager.exclude.length % 2 ≠ 0 →
      setParameters env c =
        .error (.runtime_error
          ("Exclude property has an odd number of entries. " ++
            "It has to be even as each pair specifies a " ++
            "start and an end of an interval to exclude.")) := by
    intro h
    unfold setParameters
    simp only [hmanager, hvalid]
    exact if_pos h
  refine ⟨hodd, fun hne => ?_⟩
  have heven : manager.exclude.length % 2 = 0 := by
    by_contra h
    exact hne (hodd h)
  exact ⟨heven, wrapPoints_isSome_of_even _ heven⟩

set_option maxRecDepth 100000 in
theorem setParameters_rejects_odd_exclude_witness :
    setParameters exampleEnvironment
        (managedCreator exampleEnvironment (managerWith [1, 2, 3] 0 6)) =
      .error (.runtime_error
        ("Exclude property has an odd number of entries. " ++
          "It has to be even as each pair specifies a " ++
          "start and an end of an interval to exclude.")) ∧
    (wrapPoints [1, 2, 3]).isSome = false :=
  ⟨(setParameters_rejects_odd_exclude exampleEnvironment
      (managedCreator exampleEnvironment (managerWith [1, 2, 3] 0 6))
      { managedCreator exampleEnvironment (managerWith [1, 2, 3] 0 6) with
        m_tableWorkspace := some exampleTable }
      (managerWith [1, 2, 3] 0 6) rfl rfl).1 (by decide),
    rfl⟩

end CurveFitting


namespace CurveFitting

/-! ## The scan of `joinOverlappingRanges` -/

theorem notAfter_iff (a b : RangePoint) :
    a.notAfter b = true ↔
      a.value < b.value ∨
        (a.value = b.value ∧
          (a.kind = RangePoint.Kind.Openning ∨ b.kind = RangePoint.Kind.Closing)) := by
  obtain ⟨ka, va⟩ := a
  obtain ⟨kb, vb⟩ := b
  simp only [RangePoint.notAfter, RangePoint.lt]
  rcases lt_trichotomy va vb with h | h | h
  · have hne : va ≠ vb := ne_of_lt h
    have hne' : vb ≠ va := ne_of_gt h
    simp [hne, hne', h, not_lt.mpr (le_of_lt h)]
  · subst h
    cases ka <;> cases kb <;> simp
  · have hne : va ≠ vb := ne_of_gt h
    have hne' : vb ≠ va := ne_of_lt h
    simp [hne, hne', h, not_lt.mpr (le_of_lt h)]

theorem notAfter_value_le (a b : RangePoint) (h : a.notAfter b = true) :
    a.value ≤ b.value := by
  rcases (notAfter_iff a b).mp h with h | ⟨h, _⟩
  · exact le_of_lt h
  · exact le_of_eq h

theorem notAfter_closing_openning (v w : ℚ)
    (h : RangePoint.notAfter ⟨RangePoint.Kind.Closing, v⟩
      ⟨RangePoint.Kind.Openning, w⟩ = true) : v < w := by
  rcases (notAfter_iff _ _).mp h with h | ⟨_, h | h⟩
  · exact h
  · cases h
  · cases h

theorem notAfter_total (a b : RangePoint) :
    a.notAfter b = true ∨ b.notAfter a = true := by
  rw [notAfter_iff, notAfter_iff]
  rcases lt_trichotomy a.value b.value with h | h | h
  · exact Or.inl (Or.inl h)
  · cases hk : a.kind with
    | Openning => exact Or.inl (Or.inr ⟨h, Or.inl rfl⟩)
    | Closing => exact Or.inr (Or.inr ⟨h.symm, Or.inr rfl⟩)
  · exact Or.inr (Or.inl h)

theorem notAfter_trans (a b c : RangePoint) (hab : a.notAfter b = true)
    (hbc : b.notAfter c = true) : a.notAfter c = true := by
  rw [notAfter_iff] at hab hbc ⊢
  rcases hab with hab | ⟨hab, hk1⟩
  · rcases hbc with hbc | ⟨hbc, _⟩
    · exact Or.inl (lt_trans hab hbc)
    · exact Or.inl (hbc ▸ hab)
  · rcases hbc with hbc | ⟨hbc, hk2⟩
    · exact Or.inl (hab ▸ hbc)
    · refine Or.inr ⟨hab.trans hbc, ?_⟩
      rcases hk1 with hk1 | hk1
      · exact Or.inl hk1
      · rcases hk2 with hk2 | hk2
        · rw [hk1] at hk2; cases hk2
        · exact Or.inr hk2

theorem foldl_joinStep_acc : ∀ (points : List RangePoint) (level : Nat) (acc : List ℚ),
    points.foldl joinStep (level, acc) =
      ((points.foldl joinStep (level, [])).1,
        acc ++ (points.foldl joinStep (level, [])).2) := by
  intro points
  induction points with
  | nil => intro level acc; simp
  | cons p points ih =>
    intro level acc
    simp only [List.foldl_cons]
    cases hk : p.kind with
    | Openning =>
      simp only [joinStep, hk]
      rw [ih (level + 1) (if level = 0 then acc ++ [p.value] else acc),
        ih (level + 1) (if level = 0 then [] ++ [p.value] else [])]
      by_cases h0 : level = 0 <;> simp [h0]
    | Closing =>
      simp only [joinStep, hk]
      rw [ih _ (if level = 1 then acc ++ [p.value] else acc),
        ih _ (if level = 1 then [] ++ [p.value] else [])]
      by_cases h1 : level = 1 <;> simp [h1]

theorem scanFrom_nil (level : Nat) : scanFrom level [] = [] := rfl

theorem scanFrom_openning (level : Nat) (v : ℚ) (points : List RangePoint) :
    scanFrom level (⟨RangePoint.Kind.Openning, v⟩ :: points) =
      (if level = 0 then [v] else []) ++ scanFrom (level + 1) points := by
  unfold scanFrom
  simp only [List.foldl_cons, joinStep]
  rw [foldl_joinStep_acc]
  by_cases h0 : level = 0 <;> simp [h0]

theorem scanFrom_closing (level : Nat) (v : ℚ) (points : List RangePoint) :
    scanFrom level (⟨RangePoint.Kind.Closing, v⟩ :: points) =
      (if level = 1 then [v] else []) ++
        scanFrom (if level = 0 then 2 ^ 64 - 1 else level - 1) points := by
  unfold scanFrom
  simp only [List.foldl_cons, joinStep]
  rw [foldl_joinStep_acc]
  by_cases h1 : level = 1 <;> simp [h1]

theorem scanFrom_values : ∀ (points : List RangePoint) (level : Nat),
    ∀ v ∈ scanFrom level points, ∃ p ∈ points, p.value = v := by
  intro points
  induction points with
  | nil => intro level v hv; simp [scanFrom_nil] at hv
  | cons p points ih =>
    intro level v hv
    obtain ⟨k, w⟩ := p
    cases k with
    | Openning =>
      rw [scanFrom_openning, List.mem_append] at hv
      rcases hv with hv | hv
      · by_cases h0 : level = 0
        · simp only [h0, if_true, List.mem_singleton] at hv
          exact ⟨_, List.mem_cons_self _ _, hv.symm⟩
        · simp [h0] at hv
      · obtain ⟨q, hq, hqv⟩ := ih _ v hv
        exact ⟨q, List.mem_cons_of_mem _ hq, hqv⟩
    | Closing =>
      rw [scanFrom_closing, List.mem_append] at hv
      rcases hv with hv | hv
      · by_cases h1 : level = 1
        · simp only [h1, if_true, List.mem_singleton] at hv
          exact ⟨_, List.mem_cons_self _ _, hv.symm⟩
        · simp [h1] at hv
      · obtain ⟨q, hq, hqv⟩ := ih _ v hv
        exact ⟨q, List.mem_cons_of_mem _ hq, hqv⟩

theorem balance_cons (p : RangePoint) (points : List RangePoint) (x : ℚ) :
    balance (p :: points) x = (if p.value ≤ x then p.step else 0) + balance points x := by
  simp [balance]

theorem opened_cons (p : RangePoint) (points : List RangePoint) :
    opened (p :: points) = p.step + opened points := by
  simp [opened]

theorem depth_openning (v : ℚ) (points : List RangePoint) (x : ℚ) :
    depth (⟨RangePoint.Kind.Openning, v⟩ :: points) x =
      (if v ≤ x then 1 else 0) + depth points x := by
  simp [depth]

theorem depth_closing (v : ℚ) (points : List RangePoint) (x : ℚ) :
    depth (⟨RangePoint.Kind.Closing, v⟩ :: points) x =
      (if v < x then -1 else 0) + depth points x := by
  simp [depth]

theorem balance_eq_zero (points : List RangePoint) (x : ℚ)
    (h : ∀ p ∈ points, x < p.value) : balance points x = 0 := by
  induction points with
  | nil => rfl
  | cons p points ih =>
    rw [balance_cons, if_neg (not_le.mpr (h p (List.mem_cons_self _ _))),
      ih (fun q hq => h q (List.mem_cons_of_mem _ hq))]
    rfl

theorem balance_nonpos (points : List RangePoint) (x : ℚ)
    (h : ∀ p ∈ points, p.kind = RangePoint.Kind.Openning → x < p.value) :
    balance points x ≤ 0 := by
  induction points with
  | nil => exact le_refl _
  | cons p points ih =>
    rw [balance_cons]
    have hrest := ih (fun q hq => h q (List.mem_cons_of_mem _ hq))
    have hp := h p (List.mem_cons_self _ _)
    obtain ⟨k, v⟩ := p
    cases k with
    | Openning =>
      rw [if_neg (not_le.mpr (hp rfl))]
      omega
    | Closing =>
      by_cases hv : v ≤ x
      · simp only [hv, if_true, RangePoint.step]
        omega
      · simp only [hv, if_false]
        omega

theorem depth_eq_zero (points : List RangePoint) (x : ℚ)
    (h : ∀ p ∈ points, x < p.value) : depth points x = 0 := by
  induction points with
  | nil => rfl
  | cons p points ih =>
    have hp := h p (List.mem_cons_self _ _)
    have hrest := ih (fun q hq => h q (List.mem_cons_of_mem _ hq))
    obtain ⟨k, v⟩ := p
    cases k with
    | Openning =>
      rw [depth_openning, if_neg (not_le.mpr hp), hrest]
      rfl
    | Closing =>
      rw [depth_closing, if_neg (not_lt.mpr (le_of_lt hp)), hrest]
      rfl

theorem depth_nonneg (points : List RangePoint) (x : ℚ)
    (h : ∀ p ∈ points, p.kind = RangePoint.Kind.Closing → x ≤ p.value) :
    0 ≤ depth points x := by
  induction points with
  | nil => exact le_refl _
  | cons p points ih =>
    have hp := h p (List.mem_cons_self _ _)
    have hrest := ih (fun q hq => h q (List.mem_cons_of_mem _ hq))
    obtain ⟨k, v⟩ := p
    cases k with
    | Openning =>
      rw [depth_openning]
      by_cases hv : v ≤ x
      · rw [if_pos hv]; omega
      · rw [if_neg hv]; omega
    | Closing =>
      rw [depth_closing, if_neg (not_lt.mpr (hp rfl))]
      omega

end CurveFitting


namespace CurveFitting

theorem levelInvariant_openning (level : Nat) (v : ℚ) (points : List RangePoint)
    (hs : (⟨RangePoint.Kind.Openning, v⟩ :: points).Pairwise
      (fun a b => a.notAfter b = true))
    (hinv : LevelInvariant level (⟨RangePoint.Kind.Openning, v⟩ :: points)) :
    LevelInvariant (level + 1) points := by
  rw [List.pairwise_cons] at hs
  obtain ⟨hbal, hopen⟩ := hinv
  constructor
  · intro x
    by_cases hx : v ≤ x
    · have := hbal x
      rw [balance_cons] at this
      simp only [hx, if_true, RangePoint.step] at this
      push_cast
      omega
    · rw [balance_eq_zero points x
        (fun p hp => lt_of_lt_of_le (not_le.mp hx) (notAfter_value_le _ _ (hs.1 p hp)))]
      push_cast
      omega
  · rw [opened_cons] at hopen
    simp only [RangePoint.step] at hopen
    push_cast
    omega

theorem levelInvariant_closing (level : Nat) (v : ℚ) (points : List RangePoint)
    (hs : (⟨RangePoint.Kind.Closing, v⟩ :: points).Pairwise
      (fun a b => a.notAfter b = true))
    (hinv : LevelInvariant level (⟨RangePoint.Kind.Closing, v⟩ :: points)) :
    1 ≤ level ∧ LevelInvariant (level - 1) points := by
  rw [List.pairwise_cons] at hs
  obtain ⟨hbal, hopen⟩ := hinv
  have hlevel : 1 ≤ level := by
    have h1 := hbal v
    rw [balance_cons] at h1
    simp only [le_refl, if_true, RangePoint.step] at h1
    have h2 : balance points v ≤ 0 := by
      apply balance_nonpos
      intro p hp hk
      have := hs.1 p hp
      obtain ⟨k, w⟩ := p
      simp only at hk
      subst hk
      exact notAfter_closing_openning v w this
    omega
  refine ⟨hlevel, ?_, ?_⟩
  · intro x
    by_cases hx : v ≤ x
    · have := hbal x
      rw [balance_cons] at this
      simp only [hx, if_true, RangePoint.step] at this
      have hc : ((level - 1 : Nat) : Int) = (level : Int) - 1 := by omega
      rw [hc]
      omega
    · rw [balance_eq_zero points x
        (fun p hp => lt_of_lt_of_le (not_le.mp hx) (notAfter_value_le _ _ (hs.1 p hp)))]
      omega
  · rw [opened_cons] at hopen
    simp only [RangePoint.step] at hopen
    have hc : ((level - 1 : Nat) : Int) = (level : Int) - 1 := by omega
    rw [hc]
    omega

/-- The scan of sorted points from a level that fits them: from level 0 it leaves joined
ranges, from a higher level the end of the open range followed by joined ranges. -/
theorem scanFrom_joined : ∀ (points : List RangePoint) (level : Nat),
    points.Pairwise (fun a b => a.notAfter b = true) → LevelInvariant level points →
    (level = 0 → JoinedRanges (scanFrom 0 points) ∧
      ∀ s ∈ (scanFrom 0 points).head?, (⟨RangePoint.Kind.Openning, s⟩ : RangePoint) ∈ points) ∧
    (1 ≤ level → ∃ e rest, scanFrom level points = e :: rest ∧
      (⟨RangePoint.Kind.Closing, e⟩ : RangePoint) ∈ points ∧ JoinedRanges rest ∧
      ∀ s ∈ rest.head?, e < s) := by
  intro points
  induction points with
  | nil =>
    intro level _ hinv
    refine ⟨fun _ => ⟨trivial, fun s hs => by simp [scanFrom_nil] at hs⟩, fun h1 => ?_⟩
    have := hinv.2
    simp only [opened, List.map_nil, List.sum_nil, add_zero] at this
    omega
  | cons p points ih =>
    intro level hs hinv
    have hs' := hs
    rw [List.pairwise_cons] at hs'
    obtain ⟨k, v⟩ := p
    cases k with
    | Openning =>
      have hinv' := levelInvariant_openning level v points hs hinv
      obtain ⟨e, rest, hscan, hmem, hjoined, hnext⟩ :=
        (ih (level + 1) hs'.2 hinv').2 (by omega)
      constructor
      · intro h0
        subst h0
        rw [scanFrom_openning, if_pos rfl, hscan]
        refine ⟨⟨?_, hnext, hjoined⟩, fun s hsm => ?_⟩
        · exact notAfter_value_le _ _ (hs'.1 _ hmem)
        · simp only [List.singleton_append, List.head?_cons, Option.mem_def,
            Option.some.injEq] at hsm
          subst hsm
          exact List.mem_cons_self _ _
      · intro h1
        have hne : ¬ level = 0 := by omega
        rw [scanFrom_openning, if_neg hne, List.nil_append]
        exact ⟨e, rest, hscan, List.mem_cons_of_mem _ hmem, hjoined, hnext⟩
    | Closing =>
      obtain ⟨hlevel, hinv'⟩ := levelInvariant_closing level v points hs hinv
      have hne : ¬ level = 0 := by omega
      constructor
      · intro h0
        exact absurd h0 hne
      · intro _
        by_cases h1 : level = 1
        · subst h1
          obtain ⟨hjoined, hhead⟩ := (ih 0 hs'.2 hinv').1 rfl
          refine ⟨v, scanFrom 0 points, ?_, List.mem_cons_self _ _, hjoined, fun s hsm => ?_⟩
          · rw [scanFrom_closing]
            simp
          · exact notAfter_closing_openning v s (hs'.1 _ (hhead s hsm))
        · obtain ⟨e, rest, hscan, hmem, hjoined, hnext⟩ :=
            (ih (level - 1) hs'.2 hinv').2 (by omega)
          refine ⟨e, rest, ?_, List.mem_cons_of_mem _ hmem, hjoined, hnext⟩
          rw [scanFrom_closing, if_neg h1, if_neg hne, List.nil_append, hscan]

theorem inRanges_start_le : ∀ (out : List ℚ) (x : ℚ), inRanges out x → ∃ v ∈ out, v ≤ x
  | [], _, h => h.elim
  | [_], _, h => h.elim
  | a :: b :: rest, x, h => by
    rcases h with h | h
    · exact ⟨a, List.mem_cons_self _ _, h.1⟩
    · obtain ⟨v, hv, hvx⟩ := inRanges_start_le rest x h
      exact ⟨v, List.mem_cons_of_mem _ (List.mem_cons_of_mem _ hv), hvx⟩

theorem inRanges_cons_of_le (s : ℚ) (out : List ℚ) (x : ℚ) (hsx : s ≤ x) :
    inRanges (s :: out) x ↔ inOpenRanges out x := by
  cases out with
  | nil => exact Iff.rfl
  | cons e rest =>
    simp only [inRanges, inOpenRanges]
    constructor
    · rintro (⟨_, h⟩ | h)
      · exact Or.inl h
      · exact Or.inr h
    · rintro (h | h)
      · exact Or.inl ⟨hsx, h⟩
      · exact Or.inr h

/-- The scan of sorted points covers exactly the values of positive depth. -/
theorem scanFrom_covers : ∀ (points : List RangePoint) (level : Nat),
    points.Pairwise (fun a b => a.notAfter b = true) → LevelInvariant level points →
    ∀ x : ℚ,
    (level = 0 → (inRanges (scanFrom 0 points) x ↔ 0 < depth points x)) ∧
    (1 ≤ level →
      (inOpenRanges (scanFrom level points) x ↔ 0 < (level : Int) + depth points x)) := by
  intro points
  induction points with
  | nil =>
    intro level _ hinv x
    refine ⟨fun _ => ?_, fun h1 => ?_⟩
    · simp [scanFrom_nil, inRanges, depth]
    · have := hinv.2
      simp only [opened, List.map_nil, List.sum_nil, add_zero] at this
      omega
  | cons p points ih =>
    intro level hs hinv x
    have hs' := hs
    rw [List.pairwise_cons] at hs'
    have hvalues : ∀ q ∈ points, p.value ≤ q.value :=
      fun q hq => notAfter_value_le _ _ (hs'.1 q hq)
    obtain ⟨k, v⟩ := p
    simp only at hvalues
    cases k with
    | Openning =>
      have hinv' := levelInvariant_openning level v points hs hinv
      have hih := (ih (level + 1) hs'.2 hinv' x).2 (by omega)
      rw [depth_openning]
      constructor
      · intro h0
        subst h0
        rw [scanFrom_openning, if_pos rfl, List.singleton_append]
        by_cases hx : v ≤ x
        · rw [inRanges_cons_of_le v _ x hx, hih, if_pos hx]
          push_cast
          constructor <;> intro h <;> omega
        · rw [if_neg hx, depth_eq_zero points x
            (fun q hq => lt_of_lt_of_le (not_le.mp hx) (hvalues q hq))]
          constructor
          · intro hin
            obtain ⟨w, hw, hwx⟩ := inRanges_start_le _ x hin
            rcases List.mem_cons.mp hw with rfl | hw'
            · exact absurd hwx hx
            · obtain ⟨q, hq, hqv⟩ := scanFrom_values points 1 w hw'
              have := hvalues q hq
              rw [hqv] at this
              exact absurd (le_trans this hwx) hx
          · intro h
            omega
      · intro h1
        have hne : ¬ level = 0 := by omega
        rw [scanFrom_openning, if_neg hne, List.nil_append, hih]
        by_cases hx : v ≤ x
        · rw [if_pos hx]
          push_cast
          constructor <;> intro h <;> omega
        · rw [if_neg hx, depth_eq_zero points x
            (fun q hq => lt_of_lt_of_le (not_le.mp hx) (hvalues q hq))]
          push_cast
          constructor <;> intro _ <;> omega
    | Closing =>
      obtain ⟨hlevel, hinv'⟩ := levelInvariant_closing level v points hs hinv
      have hne : ¬ level = 0 := by omega
      have hdepth : x ≤ v → 0 ≤ depth points x := fun hx =>
        depth_nonneg points x (fun q hq _ => le_trans hx (hvalues q hq))
      rw [depth_closing]
      constructor
      · intro h0
        exact absurd h0 hne
      · intro _
        by_cases h1 : level = 1
        · subst h1
          have hih := (ih 0 hs'.2 hinv' x).1 rfl
          rw [scanFrom_closing]
          simp only [if_true, List.singleton_append, inOpenRanges, one_ne_zero, if_false,
            Nat.sub_self]
          rw [hih]
          by_cases hx : v < x
          · rw [if_pos hx]
            constructor
            · rintro (h | h)
              · exact absurd h (not_le.mpr hx)
              · push_cast; omega
            · intro h
              right
              push_cast at h
              omega
          · rw [if_neg hx]
            have := hdepth (not_lt.mp hx)
            constructor
            · intro _
              push_cast
              omega
            · intro _
              exact Or.inl (not_lt.mp hx)
        · have hih := (ih (level - 1) hs'.2 hinv' x).2 (by omega)
          have hc : ((level - 1 : Nat) : Int) = (level : Int) - 1 := by omega
          rw [scanFrom_closing, if_neg h1, if_neg hne, List.nil_append, hih, hc]
          by_cases hx : v < x
          · rw [if_pos hx]
            constructor <;> intro h <;> omega
          · rw [if_neg hx]
            have := hdepth (not_lt.mp hx)
            constructor <;> intro _ <;> omega

end CurveFitting


namespace CurveFitting

/-- The wrapped points of a vector of ordered pairs: as many `Closing` as `Openning` points,
no value with more `Closing` than `Openning` points at or below it, and positive depth exactly
at the values that lie in one of the ranges. -/
theorem wrapPoints_ordered : ∀ (exclude : List ℚ), OrderedPairs exclude →
    ∃ points, wrapPoints exclude = some points ∧ opened points = 0 ∧
      (∀ x, 0 ≤ balance points x) ∧
      (∀ x, 0 ≤ depth points x ∧ (0 < depth points x ↔ inRanges exclude x))
  | [], _ => ⟨[], rfl, rfl, fun _ => le_refl _, fun _ => ⟨le_refl _, by simp [depth, inRanges]⟩⟩
  | [_], h => h.elim
  | a :: b :: rest, h => by
    obtain ⟨points, hwrap, hopen, hbal, hdepth⟩ := wrapPoints_ordered rest h.2
    have hab : a ≤ b := h.1
    refine ⟨⟨RangePoint.Kind.Openning, a⟩ :: ⟨RangePoint.Kind.Closing, b⟩ :: points, ?_, ?_,
      fun x => ?_, fun x => ?_⟩
    · simp [wrapPoints, hwrap]
    · rw [opened_cons, opened_cons, hopen]
      rfl
    · rw [balance_cons, balance_cons]
      have := hbal x
      simp only [RangePoint.step]
      by_cases hb : b ≤ x
      · rw [if_pos (le_trans hab hb), if_pos hb]
        omega
      · rw [if_neg hb]
        by_cases ha : a ≤ x
        · rw [if_pos ha]; omega
        · rw [if_neg ha]; omega
    · rw [depth_openning, depth_closing]
      obtain ⟨h0, hiff⟩ := hdepth x
      simp only [inRanges]
      by_cases ha : a ≤ x
      · by_cases hb : b < x
        · rw [if_pos ha, if_pos hb]
          refine ⟨by omega, ?_⟩
          constructor
          · intro hd
            exact Or.inr (hiff.mp (by omega))
          · rintro (⟨_, hxb⟩ | hin)
            · exact absurd hb (not_lt.mpr hxb)
            · have := hiff.mpr hin
              omega
        · rw [if_pos ha, if_neg hb]
          refine ⟨by omega, ?_⟩
          constructor
          · intro _
            exact Or.inl ⟨ha, not_lt.mp hb⟩
          · intro _
            omega
      · have hb : ¬ b < x := fun hb => ha (le_trans hab (le_of_lt hb))
        rw [if_neg ha, if_neg hb]
        refine ⟨by omega, ?_⟩
        constructor
        · intro hd
          exact Or.inr (hiff.mp (by omega))
        · rintro (⟨hax, _⟩ | hin)
          · exact absurd hax ha
          · have := hiff.mpr hin
            omega

theorem lt_both_iff (a b : RangePoint) :
    (a.lt b = true ∧ b.lt a = true) ↔
      a.value = b.value ∧ a.kind = RangePoint.Kind.Openning ∧
        b.kind = RangePoint.Kind.Openning := by
  obtain ⟨ka, va⟩ := a
  obtain ⟨kb, vb⟩ := b
  simp only [RangePoint.lt]
  rcases lt_trichotomy va vb with h | h | h
  · have hne : va ≠ vb := ne_of_lt h
    have hne' : vb ≠ va := ne_of_gt h
    simp [hne, hne', h, not_lt.mpr (le_of_lt h)]
  · subst h
    cases ka <;> cases kb <;> simp
  · have hne : va ≠ vb := ne_of_gt h
    have hne' : vb ≠ va := ne_of_lt h
    simp [hne, hne', h, not_lt.mpr (le_of_lt h)]

theorem wrapPoints_starts : ∀ (exclude : List ℚ) (points : List RangePoint),
    wrapPoints exclude = some points →
    ∀ p ∈ points, p.kind = RangePoint.Kind.Openning → p.value ∈ startsOf exclude
  | [], points, hwrap, p, hp, _ => by
    simp only [wrapPoints, Option.some.injEq] at hwrap
    subst hwrap
    simp at hp
  | [_], points, hwrap, _, _, _ => by simp [wrapPoints] at hwrap
  | a :: b :: rest, points, hwrap, p, hp, hk => by
    simp only [wrapPoints, Option.map_eq_some'] at hwrap
    obtain ⟨points', hwrap', rfl⟩ := hwrap
    simp only [startsOf]
    rcases List.mem_cons.mp hp with rfl | hp'
    · exact List.mem_cons_self _ _
    · rcases List.mem_cons.mp hp' with rfl | hp''
      · cases hk
      · exact List.mem_cons_of_mem _ (wrapPoints_starts rest points' hwrap' p hp'' hk)

/-- When no two ranges start at the same value, no two of the wrapped points are each less
than the other. -/
theorem wrapPoints_comparable : ∀ (exclude : List ℚ) (points : List RangePoint),
    wrapPoints exclude = some points → (startsOf exclude).Nodup →
    points.Pairwise (fun a b => ¬(a.lt b = true ∧ b.lt a = true))
  | [], points, hwrap, _ => by
    simp only [wrapPoints, Option.some.injEq] at hwrap
    subst hwrap
    exact List.Pairwise.nil
  | [_], points, hwrap, _ => by simp [wrapPoints] at hwrap
  | a :: b :: rest, points, hwrap, hnodup => by
    simp only [wrapPoints, Option.map_eq_some'] at hwrap
    obtain ⟨points', hwrap', rfl⟩ := hwrap
    simp only [startsOf, List.nodup_cons] at hnodup
    have hrec := wrapPoints_comparable rest points' hwrap' hnodup.2
    refine List.Pairwise.cons ?_ (List.Pairwise.cons ?_ hrec)
    · intro q hq hboth
      rw [lt_both_iff] at hboth
      rcases List.mem_cons.mp hq with rfl | hq'
      · cases hboth.2.2
      · have := wrapPoints_starts rest points' hwrap' q hq' hboth.2.2
        rw [← hboth.1] at this
        exact hnodup.1 this
    · intro q _ hboth
      rw [lt_both_iff] at hboth
      cases hboth.2.1

theorem sort_sorted (points sorted : List RangePoint) (h : sort points = some sorted) :
    sorted.Pairwise (fun a b => a.notAfter b = true) ∧ sorted.Perm points := by
  unfold sort at h
  split_ifs at h
  simp only [Option.some.injEq] at h
  subst h
  haveI : IsTotal RangePoint (fun a b => a.notAfter b = true) := ⟨notAfter_total⟩
  haveI : IsTrans RangePoint (fun a b => a.notAfter b = true) := ⟨notAfter_trans⟩
  exact ⟨List.sorted_insertionSort _ _, List.perm_insertionSort _ _⟩

theorem opened_perm (l1 l2 : List RangePoint) (h : l1.Perm l2) : opened l1 = opened l2 :=
  (h.map _).sum_eq

theorem balance_perm (l1 l2 : List RangePoint) (h : l1.Perm l2) (x : ℚ) :
    balance l1 x = balance l2 x :=
  (h.map _).sum_eq

theorem depth_perm (l1 l2 : List RangePoint) (h : l1.Perm l2) (x : ℚ) :
    depth l1 x = depth l2 x :=
  (h.map _).sum_eq

/-- The result of `joinOverlappingRanges` on a vector of ordered pairs whose wrapped points
`std::sort` can order: joined ranges that cover the values of the given ranges and no
other. -/
theorem joinOverlappingRanges_of_sorted (exclude : List ℚ) (points sorted : List RangePoint)
    (hpairs : OrderedPairs exclude) (hwrap : wrapPoints exclude = some points)
    (hsort : sort points = some sorted) :
    ∃ out, joinOverlappingRanges exclude = some out ∧ JoinedRanges out ∧
      ∀ x, inRanges out x ↔ inRanges exclude x := by
  cases exclude with
  | nil => exact ⟨[], rfl, trivial, fun _ => Iff.rfl⟩
  | cons a rest =>
    obtain ⟨points', hwrap', hopen, hbal, hdepth⟩ := wrapPoints_ordered _ hpairs
    rw [hwrap] at hwrap'
    simp only [Option.some.injEq] at hwrap'
    subst hwrap'
    obtain ⟨hsorted, hperm⟩ := sort_sorted points sorted hsort
    have hinv : LevelInvariant 0 sorted := by
      refine ⟨fun x => ?_, ?_⟩
      · rw [balance_perm sorted points hperm x]
        have := hbal x
        push_cast
        omega
      · rw [opened_perm sorted points hperm, hopen]
        rfl
    refine ⟨scanFrom 0 sorted, ?_, ((scanFrom_joined sorted 0 hsorted hinv).1 rfl).1,
      fun x => ?_⟩
    · simp only [joinOverlappingRanges, List.isEmpty_cons, Bool.false_eq_true, if_false,
        hwrap, hsort]
      rfl
    · rw [((scanFrom_covers sorted 0 hsorted hinv x).1 rfl), depth_perm sorted points hperm x]
      exact (hdepth x).2

theorem joinedRanges_even : ∀ (out : List ℚ), JoinedRanges out → out.length % 2 = 0
  | [], _ => rfl
  | [_], h => h.elim
  | _ :: _ :: rest, h => by
    have := joinedRanges_even rest h.2.2
    simp only [List.length_cons]
    omega

theorem joinOverlappingRanges_of_distinct_starts (exclude : List ℚ)
    (hpairs : OrderedPairs exclude) (hstarts : (startsOf exclude).Nodup) :
    ∃ out, joinOverlappingRanges exclude = some out ∧ JoinedRanges out ∧
      ∀ x, inRanges out x ↔ inRanges exclude x := by
  obtain ⟨points, hwrap, _⟩ := wrapPoints_ordered exclude hpairs
  have hcomp := wrapPoints_comparable exclude points hwrap hstarts
  have hsort : sort points =
      some (points.insertionSort (fun a b => a.notAfter b = true)) := by
    unfold sort
    rw [if_pos hcomp]
  exact joinOverlappingRanges_of_sorted exclude points _ hpairs hwrap hsort

end CurveFitting


namespace CurveFitting

/-! ## `joinOverlappingRanges` -/

theorem wrapPoints_mem_of_start : ∀ (exclude : List ℚ) (points : List RangePoint),
    wrapPoints exclude = some points → ∀ v ∈ startsOf exclude,
    (⟨RangePoint.Kind.Openning, v⟩ : RangePoint) ∈ points
  | [], _, _, v, hv => by simp [startsOf] at hv
  | [_], _, hwrap, _, _ => by simp [wrapPoints] at hwrap
  | a :: b :: rest, points, hwrap, v, hv => by
    simp only [wrapPoints, Option.map_eq_some'] at hwrap
    obtain ⟨points', hwrap', rfl⟩ := hwrap
    simp only [startsOf, List.mem_cons] at hv
    rcases hv with rfl | hv
    · exact List.mem_cons_self _ _
    · exact List.mem_cons_of_mem _ (List.mem_cons_of_mem _
        (wrapPoints_mem_of_start rest points' hwrap' v hv))

theorem wrapPoints_incomparable : ∀ (exclude : List ℚ) (points : List RangePoint),
    wrapPoints exclude = some points → ¬ (startsOf exclude).Nodup →
    ¬ points.Pairwise (fun a b => ¬(a.lt b = true ∧ b.lt a = true))
  | [], _, _, hdup => by simp [startsOf] at hdup
  | [_], _, hwrap, _ => by simp [wrapPoints] at hwrap
  | a :: b :: rest, points, hwrap, hdup => by
    simp only [wrapPoints, Option.map_eq_some'] at hwrap
    obtain ⟨points', hwrap', rfl⟩ := hwrap
    simp only [startsOf, List.nodup_cons, not_and_or, not_not] at hdup
    intro hpw
    rw [List.pairwise_cons, List.pairwise_cons] at hpw
    rcases hdup with hmem | hdup
    · have hin := wrapPoints_mem_of_start rest points' hwrap' a hmem
      exact hpw.1 _ (List.mem_cons_of_mem _ hin) ((lt_both_iff _ _).mpr ⟨rfl, rfl, rfl⟩)
    · exact wrapPoints_incomparable rest points' hwrap' hdup hpw.2.2

/-- In the model the result of `joinOverlappingRanges` on a vector of ordered pairs is
undefined exactly when two of the ranges start at the same value. -/
theorem joinOverlappingRanges_undefined_iff (exclude : List ℚ) (hpairs : OrderedPairs exclude) :
    joinOverlappingRanges exclude = none ↔ ¬ (startsOf exclude).Nodup := by
  constructor
  · intro hnone hnodup
    obtain ⟨out, hout, _⟩ := joinOverlappingRanges_of_distinct_starts exclude hpairs hnodup
    rw [hnone] at hout
    cases hout
  · intro hdup
    obtain ⟨points, hwrap, _⟩ := wrapPoints_ordered exclude hpairs
    have hne : exclude.isEmpty = false := by
      cases exclude with
      | nil => simp [startsOf] at hdup
      | cons _ _ => rfl
    have hsort : sort points = none := by
      unfold sort
      rw [if_neg (wrapPoints_incomparable exclude points hwrap hdup)]
    simp only [joinOverlappingRanges, hne, Bool.false_eq_true, if_false, hwrap, hsort]

/-- C13, as far as the code has it: for every vector of ordered pairs (start not above end) in
which no two ranges start at the same value, `joinOverlappingRanges` leaves a vector of even
length holding joined ranges: each range has start not above end and the end of each range is
strictly below the start of the next. -/
theorem joinOverlappingRanges_leaves_joined_ranges (exclude : List ℚ)
    (hpairs : OrderedPairs exclude) (hstarts : (startsOf exclude).Nodup) :
    ∃ out, joinOverlappingRanges exclude = some out ∧ out.length % 2 = 0 ∧
      JoinedRanges out := by
  obtain ⟨out, hout, hjoined, _⟩ :=
    joinOverlappingRanges_of_distinct_starts exclude hpairs hstarts
  exact ⟨out, hout, joinedRanges_even out hjoined, hjoined⟩

theorem joinOverlappingRanges_leaves_joined_ranges_witness :
    (∃ out, joinOverlappingRanges [1, 2, 5, 7, 0, 1, 6, 9] = some out ∧
      out.length % 2 = 0 ∧ JoinedRanges out) ∧
    joinOverlappingRanges [1, 2, 5, 7, 0, 1, 6, 9] = some [0, 2, 5, 9] :=
  ⟨joinOverlappingRanges_leaves_joined_ranges [1, 2, 5, 7, 0, 1, 6, 9]
      (by norm_num [OrderedPairs]) (by decide!),
    by decide!⟩

/-- The run against C13: the nine ranges of `nineRanges` are ordered pairs, but all of them
start at 0, two `Openning` points of value 0 are each less than the other by `operator<`, and
with that the call of `std::sort` has undefined behaviour. -/
theorem joinOverlappingRanges_undefined_on_nineRanges :
    OrderedPairs nineRanges ∧ nineRanges.length = 18 ∧
    RangePoint.lt ⟨RangePoint.Kind.Openning, 0⟩ ⟨RangePoint.Kind.Openning, 0⟩ = true ∧
    joinOverlappingRanges nineRanges = none :=
  ⟨by norm_num [OrderedPairs, nineRanges], rfl, by decide!, by decide!⟩

/-- C14, as far as the code has it: for every vector of ordered pairs in which no two ranges
start at the same value, `joinOverlappingRanges` keeps the excluded set: a value lies in one
of the closed ranges of the result exactly when it lies in one of the closed ranges given. -/
theorem joinOverlappingRanges_keeps_excluded_set (exclude : List ℚ)
    (hpairs : OrderedPairs exclude) (hstarts : (startsOf exclude).Nodup) :
    ∃ out, joinOverlappingRanges exclude = some out ∧
      ∀ x : ℚ, inRanges out x ↔ inRanges exclude x := by
  obtain ⟨out, hout, _, hcover⟩ :=
    joinOverlappingRanges_of_distinct_starts exclude hpairs hstarts
  exact ⟨out, hout, hcover⟩

theorem joinOverlappingRanges_keeps_excluded_set_witness :
    (∃ out, joinOverlappingRanges [1, 2, 2, 3] = some out ∧
      ∀ x : ℚ, inRanges out x ↔ inRanges [1, 2, 2, 3] x) ∧
    joinOverlappingRanges [1, 2, 2, 3] = some [1, 3] :=
  ⟨joinOverlappingRanges_keeps_excluded_set [1, 2, 2, 3]
      (by norm_num [OrderedPairs]) (by decide!),
    by decide!⟩

/-- The run against C14: the nine ranges of `nineOverlappingRanges` are ordered pairs and hold
the value 1, but eight of them start at 0, and the call of `std::sort` has undefined
behaviour: no vector of ranges is left. -/
theorem joinOverlappingRanges_undefined_on_nineOverlappingRanges :
    OrderedPairs nineOverlappingRanges ∧ nineOverlappingRanges.length = 18 ∧
    inRanges nineOverlappingRanges 1 ∧
    joinOverlappingRanges nineOverlappingRanges = none :=
  ⟨by norm_num [OrderedPairs, nineOverlappingRanges], rfl,
    by norm_num [inRanges, nineOverlappingRanges], by decide!⟩

end CurveFitting

end Mantid
